import Mathlib

/-!
# Heap files of Minirel (heapfile.C)

A shallow embedding of `createHeapFile`, `HeapFile`, `HeapFileScan` and
`InsertFileScan`.  The buffer manager, the database layer and the slotted page are
collaborators that live outside heapfile.C; they are modelled here from their
contracts.  A heap-file handle is a record of the C++ member variables together with
the state of the file it has open (the pages behind `filePtr`/`bufMgr` and the
contents of the pinned header page).  Operations that would dereference a null
`curPage` have no result (`none`).
-/

namespace Minirel

/-- Status codes returned by the operations (error.h). -/
inductive Status
  | OK | FILEEOF | FILEEXISTS | BADSCANPARM | INVALIDRECLEN | NOSPACE
  | NORECORDS | ENDOFPAGE | INVALIDSLOTNO | UNIXERR | BADPAGENO | PAGENOTPINNED
  | BADFILE
deriving DecidableEq, Repr

/-- Record identifier: page number and slot number. -/
structure RID where
  pageNo : Int
  slotNo : Int
deriving DecidableEq, Repr

/-- The null record id `{-1, -1}`. -/
def NULLRID : RID := ⟨-1, -1⟩

/-- A record: its bytes and its `length` member (an `int`). -/
structure Record where
  data : List Nat
  length : Int
deriving DecidableEq, Repr

/-- Attribute types of a scan predicate; `other` stands for an enum value outside
the three declared ones. -/
inductive Datatype
  | STRING | INTEGER | FLOAT | other (code : Int)
deriving DecidableEq, Repr

/-- Comparison operators of a scan predicate; `other` stands for an enum value
outside the six declared ones. -/
inductive Operator
  | LT | LTE | EQ | GTE | GT | NE | other (code : Int)
deriving DecidableEq, Repr

/-- The value of `sizeof(int)` on the platforms Minirel is built for. -/
def sizeofInt : Int := 4

/-- The value of `sizeof(float)` on the platforms Minirel is built for. -/
def sizeofFloat : Int := 4

/-! ## The slotted page (collaborator) -/

/-- Modelled from the spec: the Page collaborator (page.C is not part of heapfile.C).
A page is its slot directory (`none` is an empty or deleted slot), its next-page
link and the page number given to `init`. -/
structure Page where
  slots : List (Option Record)
  nextPage : Int
  curPage : Int
deriving DecidableEq, Repr

/-- Modelled from the spec: `Page::init(pageNo)`: no record, no successor. -/
def Page.init (_pg : Page) (pageNo : Int) : Page := ⟨[], -1, pageNo⟩

/-- Modelled from the spec: `Page::getNextPage`. -/
def Page.getNextPage (pg : Page) : Status × Int := (Status.OK, pg.nextPage)

/-- Modelled from the spec: `Page::setNextPage`. -/
def Page.setNextPage (pg : Page) (pageNo : Int) : Page := { pg with nextPage := pageNo }

/-- First live slot of `l`, the head of `l` being slot number `b`. -/
def findLive : List (Option Record) → Nat → Option Nat
  | [], _ => none
  | some _ :: _, b => some b
  | none :: t, b => findLive t (b + 1)

/-- All live slots of `l` in increasing order, the head of `l` being slot number `b`. -/
def liveIdx : List (Option Record) → Nat → List Nat
  | [], _ => []
  | some _ :: t, b => b :: liveIdx t (b + 1)
  | none :: t, b => liveIdx t (b + 1)

/-- First live slot of the page with number at least `i`. -/
def Page.nextLive (pg : Page) (i : Nat) : Option Nat := findLive (pg.slots.drop i) i

/-- Live slots of the page with number at least `i`, in increasing order. -/
def Page.liveFrom (pg : Page) (i : Nat) : List Nat := liveIdx (pg.slots.drop i) i

/-- Modelled from the spec: `Page::firstRecord(firstRid)`: the first live slot, or
`NORECORDS` (the out-parameter is then left as it was). -/
def Page.firstRecord (pg : Page) (firstRid : RID) : Status × RID :=
  match pg.nextLive 0 with
  | some j => (Status.OK, ⟨pg.curPage, (j : Int)⟩)
  | none => (Status.NORECORDS, firstRid)

/-- Modelled from the spec: `Page::nextRecord(curRid, nextRid)`: the next live slot
after `curRid.slotNo`, or `ENDOFPAGE` (the out-parameter is then left as it was). -/
def Page.nextRecord (pg : Page) (curRid : RID) (nextRid : RID) : Status × RID :=
  match pg.nextLive (curRid.slotNo + 1).toNat with
  | some j => (Status.OK, ⟨pg.curPage, (j : Int)⟩)
  | none => (Status.ENDOFPAGE, nextRid)

/-- The record held by slot `slotNo`, if that slot exists and is live. -/
def Page.recAt (pg : Page) (slotNo : Int) : Option Record :=
  if slotNo < 0 then none else (pg.slots.getD slotNo.toNat none)

/-- Modelled from the spec: `Page::getRecord(rid, rec)`; `none` is the failure
status `INVALIDSLOTNO`. -/
def Page.getRecord (pg : Page) (rid : RID) : Option Record := pg.recAt rid.slotNo

/-- Modelled from the spec: `Page::deleteRecord(rid)`: frees a live slot, fails with
`INVALIDSLOTNO` on any other slot. -/
def Page.deleteRecord (pg : Page) (rid : RID) : Status × Page :=
  match pg.recAt rid.slotNo with
  | some _ => (Status.OK, { pg with slots := pg.slots.set rid.slotNo.toNat none })
  | none => (Status.INVALIDSLOTNO, pg)

/-- Bytes of payload held by the live records of a slot directory. -/
def usedBytes : List (Option Record) → Int
  | [] => 0
  | some r :: t => r.length + usedBytes t
  | none :: t => usedBytes t

/-- Put a record in the first free slot, or in a new slot at the end; returns the
new directory and the slot number used. -/
def placeRec (rec : Record) : List (Option Record) → List (Option Record) × Nat
  | [] => ([some rec], 0)
  | none :: t => (some rec :: t, 0)
  | some r :: t => ((some r :: (placeRec rec t).1), (placeRec rec t).2 + 1)

/-- Modelled from the spec: `Page::insertRecord(rec, rid)` on a page whose payload
capacity is `maxPayload` bytes (page size minus the fixed per-page overhead): the
record is stored when it fits beside the live records, otherwise `NOSPACE`. -/
def Page.insertRecord (maxPayload : Int) (pg : Page) (rec : Record) (rid : RID) :
    Status × RID × Page :=
  if usedBytes pg.slots + rec.length ≤ maxPayload then
    (Status.OK, ⟨pg.curPage, ((placeRec rec pg.slots).2 : Int)⟩,
      { pg with slots := (placeRec rec pg.slots).1 })
  else (Status.NOSPACE, rid, pg)

/-! ## The buffer manager (collaborator) -/

/-- One call made to the buffer manager, with the status it returned. -/
inductive BufCall
  | readPage (pageNo : Int) (st : Status)
  | allocPage (pageNo : Int) (st : Status)
  | unPinPage (pageNo : Int) (dirty : Bool) (st : Status)
  | flushFile (st : Status)
deriving DecidableEq, Repr

/-- Modelled from the spec: the buffer manager together with the open file behind
`filePtr`.  `pages` are the pages of the file, `pinCnt` the pins held on each page,
`nextPageNo` the number `allocPage` hands out next, `blank` the contents of a newly
allocated (uninitialised) frame, `faults` the outcomes of the coming pin requests
(`true`: that `readPage`/`allocPage` fails; the empty list: none fails) and `trace`
the calls made so far. -/
structure BufMgr where
  pages : Int → Option Page
  pinCnt : Int → Nat
  nextPageNo : Int
  blank : Page
  faults : List Bool
  trace : List BufCall

/-- Whether the coming pin request is made to fail. -/
def BufMgr.faultNow (b : BufMgr) : Bool := b.faults.headD false

/-- Modelled from the spec: `readPage(file, pageNo, page)`: pins the page.  Fails
(without touching the out-parameter) on an injected fault or a page that does not
exist. -/
def BufMgr.readPage (b : BufMgr) (pageNo : Int) : Status × BufMgr :=
  if b.faultNow then
    (Status.UNIXERR, { b with faults := b.faults.tail,
                              trace := b.trace ++ [BufCall.readPage pageNo Status.UNIXERR] })
  else
    match b.pages pageNo with
    | none =>
      (Status.BADPAGENO, { b with faults := b.faults.tail,
                                  trace := b.trace ++ [BufCall.readPage pageNo Status.BADPAGENO] })
    | some _ =>
      (Status.OK, { b with faults := b.faults.tail,
                           pinCnt := Function.update b.pinCnt pageNo (b.pinCnt pageNo + 1),
                           trace := b.trace ++ [BufCall.readPage pageNo Status.OK] })

/-- Modelled from the spec: `allocPage(file, pageNo, page)`: a new page of the file,
pinned and uninitialised; the second component is the new page number. -/
def BufMgr.allocPage (b : BufMgr) : Status × Int × BufMgr :=
  if b.faultNow then
    (Status.UNIXERR, b.nextPageNo,
      { b with faults := b.faults.tail,
               trace := b.trace ++ [BufCall.allocPage b.nextPageNo Status.UNIXERR] })
  else
    (Status.OK, b.nextPageNo,
      { b with faults := b.faults.tail,
               pages := Function.update b.pages b.nextPageNo (some b.blank),
               pinCnt := Function.update b.pinCnt b.nextPageNo (b.pinCnt b.nextPageNo + 1),
               nextPageNo := b.nextPageNo + 1,
               trace := b.trace ++ [BufCall.allocPage b.nextPageNo Status.OK] })

/-- Modelled from the spec: `unPinPage(file, pageNo, dirty)`: releases one pin; fails
with `PAGENOTPINNED` when the page holds no pin. -/
def BufMgr.unPinPage (b : BufMgr) (pageNo : Int) (dirty : Bool) : Status × BufMgr :=
  if b.pinCnt pageNo = 0 then
    (Status.PAGENOTPINNED,
      { b with trace := b.trace ++ [BufCall.unPinPage pageNo dirty Status.PAGENOTPINNED] })
  else
    (Status.OK, { b with pinCnt := Function.update b.pinCnt pageNo (b.pinCnt pageNo - 1),
                         trace := b.trace ++ [BufCall.unPinPage pageNo dirty Status.OK] })

/-- Modelled from the spec: `flushFile(file)`. -/
def BufMgr.flushFile (b : BufMgr) : Status × BufMgr :=
  (Status.OK, { b with trace := b.trace ++ [BufCall.flushFile Status.OK] })

/-- Replace the contents of page `pageNo` (a write through a pinned frame). -/
def BufMgr.setPage (b : BufMgr) (pageNo : Int) (pg : Page) : BufMgr :=
  { b with pages := Function.update b.pages pageNo (some pg) }

/-! ## The heap file handle -/

/-- The header page of a heap file (`FileHdrPage`, heapfile.h); the file name is left
out. -/
structure FileHdrPage where
  recCnt : Int
  pageCnt : Int
  firstPage : Int
  lastPage : Int
deriving DecidableEq, Repr

/-- Member variables of `HeapFile`, `HeapFileScan` and `InsertFileScan`, with the
file the handle has open.  `curPage` is the pointer to the pinned frame: `none` is
`NULL`, `some p` a pointer to the frame of page `p`. -/
structure HeapFile where
  buf : BufMgr
  headerPage : FileHdrPage
  headerPageNo : Int
  hdrDirtyFlag : Bool
  curPage : Option Int
  curPageNo : Int
  curDirtyFlag : Bool
  curRec : RID
  offset : Int
  length : Int
  type : Datatype
  filter : Option (List Nat)
  op : Operator
  markedPageNo : Int
  markedRec : RID

/-- `HeapFileScan::startScan` (heapfile.C 255-282). -/
def HeapFile.startScan (s : HeapFile) (offset_ length_ : Int) (type_ : Datatype)
    (filter_ : Option (List Nat)) (op_ : Operator) : Status × HeapFile :=
  match filter_ with
  | none => (Status.OK, { s with filter := none })
  | some f =>
    if (offset_ < 0 ∨ length_ < 1) ∨
       (type_ ≠ Datatype.STRING ∧ type_ ≠ Datatype.INTEGER ∧ type_ ≠ Datatype.FLOAT) ∨
       (type_ = Datatype.INTEGER ∧ length_ ≠ sizeofInt ∨
        type_ = Datatype.FLOAT ∧ length_ ≠ sizeofFloat) ∨
       (op_ ≠ Operator.LT ∧ op_ ≠ Operator.LTE ∧ op_ ≠ Operator.EQ ∧ op_ ≠ Operator.GTE ∧
        op_ ≠ Operator.GT ∧ op_ ≠ Operator.NE) then
      (Status.BADSCANPARM, s)
    else
      (Status.OK, { s with offset := offset_, length := length_, type := type_,
                           filter := some f, op := op_ })

/-- The page the `curPage` pointer refers to, when it is not null. -/
def HeapFile.curFrame (s : HeapFile) : Option Page := s.curPage.bind s.buf.pages

/-- `HeapFile::HeapFile` (heapfile.C 100-161).  `openSt` is the status of
`db.openFile` and `firstPg` the result of `filePtr->getFirstPage`; `s` holds the file
and, in the members the constructor does not assign, what the object's memory held. -/
def HeapFile.ctor (openSt : Status) (firstPg : Status × Int) (s : HeapFile) :
    Status × HeapFile :=
  if openSt = Status.OK then
    if firstPg.1 ≠ Status.OK then (firstPg.1, s)
    else
      let s1 := { s with headerPageNo := firstPg.2 }
      let r := s1.buf.readPage s1.headerPageNo
      if r.1 ≠ Status.OK then (r.1, { s1 with buf := r.2 })
      else
        let s2 := { s1 with buf := r.2, hdrDirtyFlag := false }
        if s2.headerPage.firstPage ≠ -1 then
          let s3 := { s2 with curPageNo := s2.headerPage.firstPage }
          let r2 := s3.buf.readPage s3.curPageNo
          if r2.1 ≠ Status.OK then
            (r2.1, { s3 with buf := (r2.2.unPinPage s3.headerPageNo s3.hdrDirtyFlag).2 })
          else
            (Status.OK, { s3 with buf := r2.2, curPage := some s3.curPageNo,
                                  curDirtyFlag := false, curRec := ⟨-1, -1⟩ })
        else
          (Status.OK, { s2 with curPage := none, curPageNo := -1, curDirtyFlag := false,
                                curRec := ⟨-1, -1⟩ })
  else (openSt, s)

/-- `HeapFileScan::HeapFileScan` (heapfile.C 249-253). -/
def HeapFileScan.ctor (openSt : Status) (firstPg : Status × Int) (s : HeapFile) :
    Status × HeapFile :=
  ((HeapFile.ctor openSt firstPg s).1, { (HeapFile.ctor openSt firstPg s).2 with filter := none })

/-- `InsertFileScan::InsertFileScan` (heapfile.C 509-514). -/
def InsertFileScan.ctor (openSt : Status) (firstPg : Status × Int) (s : HeapFile) :
    Status × HeapFile :=
  HeapFile.ctor openSt firstPg s

/-- `HeapFile::getRecCnt`. -/
def HeapFile.getRecCnt (s : HeapFile) : Int := s.headerPage.recCnt

/-- Last part of `HeapFile::getRecord` (heapfile.C 238-246): fetch from the current
page. -/
def HeapFile.getRecordFetch (s : HeapFile) (rid : RID) :
    Option (Status × Option Record × HeapFile) :=
  match s.curFrame with
  | none => none
  | some pg =>
    match pg.getRecord rid with
    | some rec => some (Status.OK, some rec, { s with curRec := rid })
    | none => some (Status.INVALIDSLOTNO, none, s)

/-- `HeapFile::getRecord(rid, rec)` (heapfile.C 212-247). -/
def HeapFile.getRecord (s : HeapFile) (rid : RID) :
    Option (Status × Option Record × HeapFile) :=
  if s.curPage = none ∨ rid.pageNo ≠ s.curPageNo then
    if s.curPage ≠ none ∧ (s.buf.unPinPage s.curPageNo s.curDirtyFlag).1 ≠ Status.OK then
      some ((s.buf.unPinPage s.curPageNo s.curDirtyFlag).1, none,
        { s with buf := (s.buf.unPinPage s.curPageNo s.curDirtyFlag).2 })
    else
      let b := if s.curPage ≠ none then (s.buf.unPinPage s.curPageNo s.curDirtyFlag).2 else s.buf
      if (b.readPage rid.pageNo).1 ≠ Status.OK then
        some ((b.readPage rid.pageNo).1, none,
          { s with buf := (b.readPage rid.pageNo).2, curPage := none, curPageNo := rid.pageNo })
      else
        HeapFile.getRecordFetch
          { s with buf := (b.readPage rid.pageNo).2, curPage := some rid.pageNo,
                   curPageNo := rid.pageNo, curDirtyFlag := false } rid
  else HeapFile.getRecordFetch s rid

/-- `HeapFileScan::endScan` (heapfile.C 284-297). -/
def HeapFile.endScan (s : HeapFile) : Status × HeapFile :=
  if s.curPage ≠ none then
    ((s.buf.unPinPage s.curPageNo s.curDirtyFlag).1,
      { s with buf := (s.buf.unPinPage s.curPageNo s.curDirtyFlag).2,
               curPage := none, curPageNo := 0, curDirtyFlag := false })
  else (Status.OK, s)

/-- `HeapFileScan::markScan` (heapfile.C 304-310). -/
def HeapFile.markScan (s : HeapFile) : Status × HeapFile :=
  (Status.OK, { s with markedPageNo := s.curPageNo, markedRec := s.curRec })

/-- `HeapFileScan::resetScan` (heapfile.C 312-335).  A failed `readPage` leaves the
`curPage` pointer as it was. -/
def HeapFile.resetScan (s : HeapFile) : Status × HeapFile :=
  if s.markedPageNo ≠ s.curPageNo then
    if s.curPage ≠ none ∧ (s.buf.unPinPage s.curPageNo s.curDirtyFlag).1 ≠ Status.OK then
      ((s.buf.unPinPage s.curPageNo s.curDirtyFlag).1,
        { s with buf := (s.buf.unPinPage s.curPageNo s.curDirtyFlag).2 })
    else
      let b := if s.curPage ≠ none then (s.buf.unPinPage s.curPageNo s.curDirtyFlag).2 else s.buf
      if (b.readPage s.markedPageNo).1 ≠ Status.OK then
        ((b.readPage s.markedPageNo).1,
          { s with buf := (b.readPage s.markedPageNo).2, curPageNo := s.markedPageNo,
                   curRec := s.markedRec })
      else
        (Status.OK,
          { s with buf := (b.readPage s.markedPageNo).2, curPageNo := s.markedPageNo,
                   curRec := s.markedRec, curPage := some s.markedPageNo,
                   curDirtyFlag := false })
  else (Status.OK, { s with curRec := s.markedRec })

/-! ### The scan predicate -/

/-- Reduce an integer to the range of a 32-bit `int` (two's complement). -/
def wrap32 (x : Int) : Int := (x + 2147483648) % 4294967296 - 2147483648

/-- The `len` bytes of `data` that start at `off` (a byte beyond the buffer reads as
0). -/
def bytesAt (data : List Nat) (off : Int) (len : Int) : List Nat :=
  (List.range len.toNat).map (fun i => data.getD (off.toNat + i) 0)

/-- Little-endian value of a byte list. -/
def leNat : List Nat → Nat
  | [] => 0
  | b :: t => b % 256 + 256 * leNat t

/-- The `int` held by four bytes (little endian, two's complement). -/
def decodeInt (bs : List Nat) : Int := wrap32 (leNat (bs.take 4))

/-- A decoded IEEE single: not-a-number, an infinity, or a finite value given as
the integer `value * 2^149`. -/
inductive FVal
  | nan
  | inf (negative : Bool)
  | fin (scaled : Int)
deriving DecidableEq, Repr

/-- The `float` held by four bytes (little endian IEEE 754 single). -/
def decodeFloat (bs : List Nat) : FVal :=
  let w := leNat (bs.take 4)
  let sgn : Int := if w / 2147483648 % 2 = 1 then -1 else 1
  let e := w / 8388608 % 256
  let m := w % 8388608
  if e = 255 then (if m = 0 then FVal.inf (w / 2147483648 % 2 = 1) else FVal.nan)
  else if e = 0 then FVal.fin (sgn * m)
  else FVal.fin (sgn * ((8388608 + m) * 2 ^ (e - 1)))

/-- What the comparisons with `0.0` see of the float `fattr - ffltr`: `none` is a
NaN, `some d` a value with the sign of `d`. -/
def floatDiff : FVal → FVal → Option Int
  | FVal.nan, _ => none
  | _, FVal.nan => none
  | FVal.inf a, FVal.inf b => if a = b then none else some (if a then -1 else 1)
  | FVal.inf a, FVal.fin _ => some (if a then -1 else 1)
  | FVal.fin _, FVal.inf b => some (if b then 1 else -1)
  | FVal.fin x, FVal.fin y => some (x - y)

/-- The C library `strncmp` on byte lists: at most `n` bytes, stopping at a zero
byte. -/
def strncmp : List Nat → List Nat → Nat → Int
  | _, _, 0 => 0
  | a, b, n + 1 =>
    if a.headD 0 ≠ b.headD 0 then (a.headD 0 : Int) - (b.headD 0 : Int)
    else if a.headD 0 = 0 then 0
    else strncmp a.tail b.tail n

/-- The variable `diff` of `matchRec` after the first switch (heapfile.C 445-476), as
far as its comparisons with `0.0` can tell: `none` is a NaN, `some d` a float with
the sign of `d`.  The `int` subtraction wraps to 32 bits. -/
def HeapFile.matchDiff (s : HeapFile) (fltr : List Nat) (rec : Record) : Option Int :=
  match s.type with
  | Datatype.INTEGER =>
    some (wrap32 (decodeInt (bytesAt rec.data s.offset s.length) -
                  decodeInt (bytesAt fltr 0 s.length)))
  | Datatype.FLOAT =>
    floatDiff (decodeFloat (bytesAt rec.data s.offset s.length))
              (decodeFloat (bytesAt fltr 0 s.length))
  | Datatype.STRING =>
    some (strncmp (rec.data.drop s.offset.toNat) fltr s.length.toNat)
  | Datatype.other _ => some 0

/-- The second switch of `matchRec` (heapfile.C 478-506). -/
def opHolds (op : Operator) (diff : Option Int) : Bool :=
  match op, diff with
  | Operator.LT, some d => decide (d < 0)
  | Operator.LTE, some d => decide (d ≤ 0)
  | Operator.EQ, some d => decide (d = 0)
  | Operator.GTE, some d => decide (d ≥ 0)
  | Operator.GT, some d => decide (d > 0)
  | Operator.NE, some d => decide (d ≠ 0)
  | Operator.NE, none => true
  | _, _ => false

/-- `HeapFileScan::matchRec` (heapfile.C 434-507).  The length check of line 442,
`(offset + length - 1) >= rec.length`, is computed on 32-bit `int` as in the source:
the sum and the difference wrap around. -/
def HeapFile.matchRec (s : HeapFile) (rec : Record) : Bool :=
  match s.filter with
  | none => true
  | some fltr =>
    if wrap32 (wrap32 (s.offset + s.length) - 1) ≥ rec.length then false
    else opHolds s.op (s.matchDiff fltr rec)

/-! ### Iteration -/

/-- Outcome of one pass through the body of a loop: the function returns, or the
loop goes round again. -/
inductive Step (α β : Type)
  | ret (a : α)
  | again (b : β)

/-- End of the body of the `while` loop of `scanNext` (heapfile.C 389-400). -/
def HeapFile.scanNextTail (status : Status) (s : HeapFile) (outRid : RID) :
    Option (Step (Status × RID × HeapFile) HeapFile) :=
  if status ≠ Status.OK then some (Step.again s)
  else
    match s.curFrame with
    | none => none
    | some pg =>
      match pg.getRecord s.curRec with
      | none => some (Step.ret (Status.INVALIDSLOTNO, outRid, s))
      | some rec =>
        if s.matchRec rec then some (Step.ret (Status.OK, s.curRec, s))
        else some (Step.again s)

/-- Pin page `s.curPageNo` and go to its first record (heapfile.C 350-355 and
380-385), then the end of the loop body. -/
def HeapFile.scanNextPin (s : HeapFile) (outRid : RID) :
    Option (Step (Status × RID × HeapFile) HeapFile) :=
  let r := s.buf.readPage s.curPageNo
  if r.1 ≠ Status.OK then some (Step.ret (r.1, outRid, { s with buf := r.2 }))
  else
    match r.2.pages s.curPageNo with
    | none => none
    | some pg =>
      HeapFile.scanNextTail (pg.firstRecord s.curRec).1
        { s with buf := r.2, curPage := some s.curPageNo, curDirtyFlag := false,
                 curRec := (pg.firstRecord s.curRec).2 } outRid

/-- One pass through the body of the `while (true)` loop of `scanNext`
(heapfile.C 344-400). -/
def HeapFile.scanNextBody (s : HeapFile) (outRid : RID) :
    Option (Step (Status × RID × HeapFile) HeapFile) :=
  match s.curPage with
  | none =>
    if s.headerPage.firstPage = -1 then
      some (Step.ret (Status.FILEEOF, outRid, { s with curPageNo := s.headerPage.firstPage }))
    else HeapFile.scanNextPin { s with curPageNo := s.headerPage.firstPage } outRid
  | some p =>
    match s.buf.pages p with
    | none => none
    | some pg =>
      if (pg.nextRecord s.curRec NULLRID).1 = Status.OK then
        HeapFile.scanNextTail Status.OK
          { s with curRec := (pg.nextRecord s.curRec NULLRID).2 } outRid
      else
        let s1 := { s with buf := (s.buf.unPinPage s.curPageNo s.curDirtyFlag).2,
                           curPage := none, curPageNo := -1, curDirtyFlag := false }
        if pg.getNextPage.1 ≠ Status.OK ∨ pg.getNextPage.2 = -1 then
          some (Step.ret (Status.FILEEOF, outRid, s1))
        else HeapFile.scanNextPin { s1 with curPageNo := pg.getNextPage.2 } outRid

/-- `HeapFileScan::scanNext(outRid)` (heapfile.C 337-402); `fuel` bounds the number
of passes through the loop, `none` means the bound was too small (or a null
`curPage` was dereferenced). -/
def HeapFile.scanNext : Nat → HeapFile → RID → Option (Status × RID × HeapFile)
  | 0, _, _ => none
  | fuel + 1, s, outRid =>
    match s.scanNextBody outRid with
    | none => none
    | some (Step.ret r) => some r
    | some (Step.again s1) => HeapFile.scanNext fuel s1 outRid

/-- `HeapFileScan::getRecord(rec)` (heapfile.C 407-410); the status is `OK` for
`some` and `INVALIDSLOTNO` for `none`. -/
def HeapFile.getRecordCur (s : HeapFile) : Option (Option Record) :=
  s.curFrame.map (fun pg => pg.getRecord s.curRec)

/-- `HeapFileScan::deleteRecord` (heapfile.C 413-425). -/
def HeapFile.deleteRecord (s : HeapFile) : Option (Status × HeapFile) :=
  match s.curPage with
  | none => none
  | some p =>
    match s.buf.pages p with
    | none => none
    | some pg =>
      some ((pg.deleteRecord s.curRec).1,
        { s with buf := s.buf.setPage p (pg.deleteRecord s.curRec).2,
                 curDirtyFlag := true,
                 headerPage := { s.headerPage with recCnt := s.headerPage.recCnt - 1 },
                 hdrDirtyFlag := true })

/-- `HeapFileScan::markDirty` (heapfile.C 428-432). -/
def HeapFile.markDirty (s : HeapFile) : Status × HeapFile :=
  (Status.OK, { s with curDirtyFlag := true })

/-- Calling `scanNext` again and again until it returns `FILEEOF`, collecting the
record ids it yields; `none` when a call does not return within `fuel` passes, when
more than `fuel` calls are needed, or when a call fails. -/
def HeapFile.scanAll (fuel : Nat) : Nat → HeapFile → RID → Option (List RID)
  | 0, _, _ => none
  | calls + 1, s, outRid =>
    match s.scanNext fuel outRid with
    | none => none
    | some (st, rid, s1) =>
      if st = Status.OK then (HeapFile.scanAll fuel calls s1 rid).map (fun l => rid :: l)
      else if st = Status.FILEEOF then some []
      else none

/-! ### Insertion -/

/-- Success path of `insertRecord` once the page-level insert has stored the record
at `rid` (heapfile.C 555-567 and 596-608): counters, unpin, cursor cleared. -/
def HeapFile.insertDone (s : HeapFile) (rid : RID) : Status × RID × HeapFile :=
  let s1 := { s with curRec := rid, curDirtyFlag := true,
                     headerPage := { s.headerPage with recCnt := s.headerPage.recCnt + 1 },
                     hdrDirtyFlag := true }
  ((s1.buf.unPinPage s1.curPageNo s1.curDirtyFlag).1, rid,
    { s1 with buf := (s1.buf.unPinPage s1.curPageNo s1.curDirtyFlag).2,
              curPage := none, curPageNo := -1, curDirtyFlag := false })

/-- The branch of `insertRecord` taken when the current page is full
(heapfile.C 571-609); `p` is the page `curPage` points to. -/
def HeapFile.insertGrow (maxPayload : Int) (s : HeapFile) (p : Int) (rec : Record)
    (outRid : RID) : Option (Status × RID × HeapFile) :=
  let a := s.buf.allocPage
  if a.1 ≠ Status.OK then some (a.1, outRid, { s with buf := a.2.2 })
  else
    let newPageNo := a.2.1
    let b1 := a.2.2.setPage newPageNo (a.2.2.blank.init newPageNo)
    match b1.pages p with
    | none => none
    | some old =>
      let b2 := b1.setPage p (old.setNextPage newPageNo)
      let s1 := { s with buf := b2, curDirtyFlag := true,
                         headerPage :=
                           { s.headerPage with lastPage := newPageNo,
                                               pageCnt := s.headerPage.pageCnt + 1 },
                         hdrDirtyFlag := true }
      let s2 := { s1 with buf := (s1.buf.unPinPage s1.curPageNo s1.curDirtyFlag).2,
                          curPage := some newPageNo, curPageNo := newPageNo,
                          curDirtyFlag := false }
      match s2.buf.pages newPageNo with
      | none => none
      | some fresh =>
        if (fresh.insertRecord maxPayload rec NULLRID).1 ≠ Status.OK then
          some ((fresh.insertRecord maxPayload rec NULLRID).1, outRid, s2)
        else
          some (HeapFile.insertDone
            { s2 with buf := s2.buf.setPage newPageNo
                        (fresh.insertRecord maxPayload rec NULLRID).2.2 }
            (fresh.insertRecord maxPayload rec NULLRID).2.1)

/-- The part of `insertRecord` after the current page is pinned
(heapfile.C 551-611). -/
def HeapFile.insertOnPage (maxPayload : Int) (s : HeapFile) (rec : Record) (outRid : RID) :
    Option (Status × RID × HeapFile) :=
  match s.curPage with
  | none => none
  | some p =>
    match s.buf.pages p with
    | none => none
    | some pg =>
      if (pg.insertRecord maxPayload rec NULLRID).1 = Status.OK then
        some (HeapFile.insertDone
          { s with buf := s.buf.setPage p (pg.insertRecord maxPayload rec NULLRID).2.2 }
          (pg.insertRecord maxPayload rec NULLRID).2.1)
      else if (pg.insertRecord maxPayload rec NULLRID).1 = Status.NOSPACE then
        HeapFile.insertGrow maxPayload s p rec outRid
      else some ((pg.insertRecord maxPayload rec NULLRID).1, outRid, s)

/-- `InsertFileScan::insertRecord(rec, outRid)` (heapfile.C 531-612).  `PAGESIZE` and
`DPFIXED` are the constants of page.h; the comparison of line 538 is made on
`unsigned int`. -/
def HeapFile.insertRecord (PAGESIZE DPFIXED : Int) (s : HeapFile) (rec : Record)
    (outRid : RID) : Option (Status × RID × HeapFile) :=
  if rec.length % 4294967296 > (PAGESIZE - DPFIXED) % 4294967296 then
    some (Status.INVALIDRECLEN, outRid, s)
  else
    match s.curPage with
    | none =>
      let s1 := { s with curPageNo := s.headerPage.lastPage }
      let r := s1.buf.readPage s1.curPageNo
      if r.1 ≠ Status.OK then some (r.1, outRid, { s1 with buf := r.2 })
      else
        HeapFile.insertOnPage ((PAGESIZE - DPFIXED) % 4294967296)
          { s1 with buf := r.2, curPage := some s1.curPageNo, curDirtyFlag := false }
          rec outRid
    | some _ => HeapFile.insertOnPage ((PAGESIZE - DPFIXED) % 4294967296) s rec outRid

/-! ### Closing a handle -/

/-- `HeapFile::~HeapFile` (heapfile.C 164-198), up to the final `db.closeFile`, which
touches no page and no pin; failures are only reported. -/
def HeapFile.dtor (s : HeapFile) : HeapFile :=
  let s1 := if s.curPage ≠ none then
      { s with buf := (s.buf.unPinPage s.curPageNo s.curDirtyFlag).2, curPage := none,
               curPageNo := -1, curDirtyFlag := false }
    else s
  let s2 := { s1 with buf := (s1.buf.unPinPage s1.headerPageNo s1.hdrDirtyFlag).2 }
  { s2 with buf := s2.buf.flushFile.2 }

/-- `HeapFileScan::~HeapFileScan` (heapfile.C 299-302) followed by the destructor of
the base class. -/
def HeapFileScan.dtor (s : HeapFile) : HeapFile := HeapFile.dtor s.endScan.2

/-- `InsertFileScan::~InsertFileScan` (heapfile.C 516-528) followed by the destructor
of the base class. -/
def InsertFileScan.dtor (s : HeapFile) : HeapFile :=
  HeapFile.dtor
    (if s.curPage ≠ none then
      { s with buf := (s.buf.unPinPage s.curPageNo true).2, curPage := none, curPageNo := 0 }
    else s)

/-! ## File creation -/

/-- Modelled from the spec: a file of the database layer (db.C is not part of
heapfile.C): its pages behind the buffer manager, what its first allocated page
holds when read as a `FileHdrPage`, and how many times it is open. -/
structure DBFile where
  buf : BufMgr
  hdr : FileHdrPage
  openCnt : Nat

/-- Modelled from the spec: the database layer `db`: the files by name, and the
empty file that `createFile` makes. -/
structure DB where
  files : String → Option DBFile
  newFile : DBFile

/-- Replace the file stored under `name`. -/
def DB.setFile (db : DB) (name : String) (f : DBFile) : DB :=
  { db with files := Function.update db.files name (some f) }

/-- Modelled from the spec: `db.openFile(name, file)`: fails when no such file
exists. -/
def DB.openFile (db : DB) (name : String) : Status × DB :=
  match db.files name with
  | none => (Status.UNIXERR, db)
  | some f => (Status.OK, db.setFile name { f with openCnt := f.openCnt + 1 })

/-- Modelled from the spec: `db.createFile(name)`: fails when the file exists. -/
def DB.createFile (db : DB) (name : String) : Status × DB :=
  match db.files name with
  | none => (Status.OK, db.setFile name db.newFile)
  | some _ => (Status.FILEEXISTS, db)

/-- Modelled from the spec: `db.closeFile(file)`. -/
def DB.closeFile (db : DB) (name : String) : Status × DB :=
  match db.files name with
  | none => (Status.BADFILE, db)
  | some f =>
    if f.openCnt = 0 then (Status.BADFILE, db)
    else (Status.OK, db.setFile name { f with openCnt := f.openCnt - 1 })

/-- Modelled from the spec: `db.destroyFile(name)`. -/
def DB.destroyFile (db : DB) (name : String) : Status × DB :=
  match db.files name with
  | none => (Status.UNIXERR, db)
  | some _ => (Status.OK, { db with files := Function.update db.files name none })

/-- The branch of `createHeapFile` that initialises the newly created and opened file
`f` (heapfile.C 36-82); returns the status and the file as it is left just before
the `db.closeFile` that follows on every path. -/
def createInit (f : DBFile) : Status × DBFile :=
  let a := f.buf.allocPage
  if a.1 ≠ Status.OK then (a.1, { f with buf := a.2.2 })
  else
    let hdrPageNo := a.2.1
    let hdr1 : FileHdrPage := { f.hdr with recCnt := 0, pageCnt := 1 }
    let a2 := a.2.2.allocPage
    if a2.1 ≠ Status.OK then
      (a2.1, { f with buf := (a2.2.2.unPinPage hdrPageNo false).2, hdr := hdr1 })
    else
      let newPageNo := a2.2.1
      let b1 := a2.2.2.setPage newPageNo (a2.2.2.blank.init newPageNo)
      let hdr2 : FileHdrPage :=
        { hdr1 with firstPage := newPageNo, lastPage := newPageNo,
                    pageCnt := hdr1.pageCnt + 1 }
      let u := b1.unPinPage newPageNo true
      if u.1 ≠ Status.OK then
        (u.1, { f with buf := (u.2.unPinPage hdrPageNo true).2, hdr := hdr2 })
      else
        let u2 := u.2.unPinPage hdrPageNo true
        if u2.1 ≠ Status.OK then (u2.1, { f with buf := u2.2, hdr := hdr2 })
        else (Status.OK, { f with buf := u2.2, hdr := hdr2 })

/-- `createHeapFile(fileName)` (heapfile.C 15-91). -/
def createHeapFile (db : DB) (fileName : String) : Status × DB :=
  let o := db.openFile fileName
  if o.1 ≠ Status.OK then
    let c := o.2.createFile fileName
    let o2 := c.2.openFile fileName
    if o2.1 ≠ Status.OK then (o2.1, o2.2)
    else
      match o2.2.files fileName with
      | none => (Status.BADFILE, o2.2)
      | some f =>
        let i := createInit f
        let cl := (o2.2.setFile fileName i.2).closeFile fileName
        if i.1 ≠ Status.OK then (i.1, cl.2) else (cl.1, cl.2)
  else (Status.FILEEXISTS, (o.2.closeFile fileName).2)

/-- `destroyHeapFile(fileName)` (heapfile.C 94-97). -/
def destroyHeapFile (db : DB) (fileName : String) : Status × DB := db.destroyFile fileName

/-- The condition under which `startScan` rejects its arguments. -/
def badScanParm (offset_ length_ : Int) (type_ : Datatype) (op_ : Operator) : Prop :=
  offset_ < 0 ∨ length_ < 1 ∨
  (type_ ≠ Datatype.STRING ∧ type_ ≠ Datatype.INTEGER ∧ type_ ≠ Datatype.FLOAT) ∨
  (type_ = Datatype.INTEGER ∧ length_ ≠ sizeofInt) ∨
  (type_ = Datatype.FLOAT ∧ length_ ≠ sizeofFloat) ∨
  (op_ ≠ Operator.LT ∧ op_ ≠ Operator.LTE ∧ op_ ≠ Operator.EQ ∧ op_ ≠ Operator.GTE ∧
    op_ ≠ Operator.GT ∧ op_ ≠ Operator.NE)

/-! ## Well-formed files and what a scan should yield -/

/-- The page numbers `chain` are the pages met when following the next-page links
from `start` until the link `-1`: a finite chain whose last page has no successor. -/
def IsChain (pages : Int → Option Page) : Int → List Int → Prop
  | start, [] => start = -1
  | start, p :: rest =>
    start = p ∧ p ≠ -1 ∧
      match pages p with
      | some pg => IsChain pages pg.nextPage rest
      | none => False

/-- Number of live records of a page. -/
def liveCount (pg : Page) : Nat := (pg.slots.filter Option.isSome).length

/-- Number of live records summed over the pages of a chain. -/
def chainLive (pages : Int → Option Page) : List Int → Nat
  | [] => 0
  | p :: rest =>
    (match pages p with
     | some pg => liveCount pg
     | none => 0) + chainLive pages rest

/-- Record ids of the live slots of a page with slot number at least `i`, in slot
order. -/
def Page.rids (pg : Page) (i : Nat) : List RID :=
  (pg.liveFrom i).map (fun (j : Nat) => (⟨pg.curPage, (j : Int)⟩ : RID))

/-- Record ids of all live records of the pages of a chain, in chain order and then
slot order. -/
def chainRids (pages : Int → Option Page) : List Int → List RID
  | [] => []
  | p :: rest =>
    (match pages p with
     | some pg => pg.rids 0
     | none => []) ++ chainRids pages rest

/-- The cursor stands on the live record `r`: its current page is pinned and holds
a live record in slot `r.slotNo`, and `r` names that page. -/
def Positioned (s : HeapFile) (r : RID) : Prop :=
  ∃ p pg, s.curPage = some p ∧ s.buf.pages p = some pg ∧ s.curRec = r ∧
    r.pageNo = pg.curPage ∧ (pg.recAt r.slotNo).isSome

/-- A scan cursor without filter, over the pages `P` and a buffer manager that does
not fail, standing on a page of the chain; `X` lists the record ids that lie after
the cursor's position: the rest of its page, then the pages that follow. -/
def ScanAt (P : Int → Option Page) (s : HeapFile) (X : List RID) : Prop :=
  s.buf.pages = P ∧ s.buf.faults = [] ∧ s.filter = none ∧
  ∃ p pg rest, s.curPage = some p ∧ IsChain P p (p :: rest) ∧ P p = some pg ∧
    X = pg.rids (s.curRec.slotNo + 1).toNat ++ chainRids P rest

/-- What a call of `scanNext` on `s0` does when the record ids still to come are `X`:
with enough fuel it returns `FILEEOF` when `X` is empty, and otherwise the head of
`X`, leaving the cursor in front of the tail of `X`. -/
def Yields (P : Int → Option Page) (s0 : HeapFile) (o : RID) : List RID → Prop
  | [] => ∃ N s1, (∀ f, N ≤ f → s0.scanNext f o = some (Status.FILEEOF, o, s1)) ∧
      s1.curPage = none
  | r :: X => ∃ N s1, (∀ f, N ≤ f → s0.scanNext f o = some (Status.OK, r, s1)) ∧
      ScanAt P s1 X

/-- The handle state with which a pass through a loop body ends. -/
def stepState : Step (Status × RID × HeapFile) HeapFile → HeapFile
  | Step.ret r => r.2.2
  | Step.again s => s

/-- What `scanNext` never changes between a state `s` and a later state `t`: the
header page, the pages of the file, the predicate and the mark; the trace of
buffer-manager calls only grows and no fault appears. -/
def ScanFrame (s t : HeapFile) : Prop :=
  t.headerPage = s.headerPage ∧ t.buf.pages = s.buf.pages ∧
  t.offset = s.offset ∧ t.length = s.length ∧ t.type = s.type ∧ t.filter = s.filter ∧
  t.op = s.op ∧ t.markedPageNo = s.markedPageNo ∧ t.markedRec = s.markedRec ∧
  (s.buf.faults = [] → t.buf.faults = []) ∧
  ∃ tl, t.buf.trace = s.buf.trace ++ tl

/-- Two handles with the same scan predicate. -/
def SamePred (a b : HeapFile) : Prop :=
  a.offset = b.offset ∧ a.length = b.length ∧ a.type = b.type ∧ a.filter = b.filter ∧
    a.op = b.op

/-- Two cursors that `scanNext` cannot tell apart: the same current page and position,
the same pages, the same first page, the same predicate and the same outcomes of the
coming pin requests. -/
def SameView (a b : HeapFile) : Prop :=
  a.curPage = b.curPage ∧ a.curRec = b.curRec ∧ a.buf.pages = b.buf.pages ∧
  a.buf.faults = b.buf.faults ∧ a.headerPage.firstPage = b.headerPage.firstPage ∧
  SamePred a b

/-- Two outcomes of a pass through the loop body of `scanNext` that agree: both
return the same status and record id, or both go round again, from cursors that
`scanNext` cannot tell apart. -/
def StepSame : Option (Step (Status × RID × HeapFile) HeapFile) →
    Option (Step (Status × RID × HeapFile) HeapFile) → Prop
  | none, none => True
  | some (Step.ret x), some (Step.ret y) => x.1 = y.1 ∧ x.2.1 = y.2.1 ∧ SameView x.2.2 y.2.2
  | some (Step.again t), some (Step.again u) => SameView t u
  | _, _ => False

/-- Two outcomes of `scanNext` that agree: the same status and record id, from
cursors that `scanNext` cannot tell apart afterwards. -/
def ResultSame : Option (Status × RID × HeapFile) → Option (Status × RID × HeapFile) → Prop
  | none, none => True
  | some x, some y => x.1 = y.1 ∧ x.2.1 = y.2.1 ∧ SameView x.2.2 y.2.2
  | _, _ => False

/-- A cursor state `t` reached from `s` by any number of `scanNext` calls, each of
which returned a record (`OK`) or `FILEEOF`. -/
inductive ScanRun (s : HeapFile) : HeapFile → Prop
  | start : ScanRun s s
  | next (t u : HeapFile) (f : Nat) (o r : RID) (st : Status) :
      ScanRun s t → t.scanNext f o = some (st, r, u) →
      st = Status.OK ∨ st = Status.FILEEOF → ScanRun s u

/-- When a page is pinned, `curPageNo` is its number. -/
def CurAgree (t : HeapFile) : Prop := ∀ q, t.curPage = some q → t.curPageNo = q

/-- The cursor's page number names the page its pointer refers to, or no page is
pinned and the page number is not `p`. -/
def CurOK (p : Int) (t : HeapFile) : Prop :=
  t.curPage = some t.curPageNo ∨ (t.curPage = none ∧ t.curPageNo ≠ p)

/-- The handle in front of a buffer manager whose coming pin requests have the
outcomes `faults`. -/
def HeapFile.withFaults (s : HeapFile) (faults : List Bool) : HeapFile :=
  { s with buf := { s.buf with faults := faults } }

/-- The four bytes that hold the `int` `a` (little endian, two's complement). -/
def encodeInt (a : Int) : List Nat :=
  [(a % 4294967296).toNat % 256, (a % 4294967296).toNat / 256 % 256,
   (a % 4294967296).toNat / 65536 % 256, (a % 4294967296).toNat / 16777216 % 256]

/-- Lexicographic order on byte sequences: `a` comes strictly before `b`. -/
def lexLt : List Nat → List Nat → Bool
  | [], [] => false
  | [], _ :: _ => true
  | _ :: _, [] => false
  | x :: a, y :: b => decide (x < y) || (decide (x = y) && lexLt a b)

/-! ## Sample files -/

/-- A buffer manager holding the given pages, nothing pinned, no fault to come. -/
def sampleBuf (pages : Int → Option Page) (nextPageNo : Int) : BufMgr :=
  { pages := pages, pinCnt := fun _ => 0, nextPageNo := nextPageNo, blank := ⟨[], 0, 0⟩,
    faults := [], trace := [] }

/-- A handle object before its constructor has run, over the given file. -/
def rawHandle (buf : BufMgr) (hdr : FileHdrPage) : HeapFile :=
  { buf := buf, headerPage := hdr, headerPageNo := 0, hdrDirtyFlag := false,
    curPage := none, curPageNo := 0, curDirtyFlag := false, curRec := ⟨0, 0⟩,
    offset := 0, length := 0, type := Datatype.STRING, filter := none, op := Operator.EQ,
    markedPageNo := 0, markedRec := ⟨0, 0⟩ }

/-- A database without any file; new files start at page number 1. -/
def emptyDB : DB :=
  { files := fun _ => none,
    newFile := { buf := sampleBuf (fun _ => none) 1, hdr := ⟨7, 7, 7, 7⟩, openCnt := 0 } }

/-- A heap file with a header page (page 1) and one empty data page (page 2). -/
def sampleDBFile : DBFile :=
  { buf := sampleBuf (fun n => if n = 1 then some ⟨[], 0, 0⟩
                               else if n = 2 then some ⟨[], -1, 2⟩ else none) 3,
    hdr := ⟨0, 2, 2, 2⟩, openCnt := 0 }

/-- A database whose only file is "rel". -/
def sampleDB : DB :=
  { files := fun n => if n = "rel" then some sampleDBFile else none,
    newFile := emptyDB.newFile }

/-- A record of 1000 bytes. -/
def rec1000 : Record := ⟨[1], 1000⟩

/-- A record of 10 bytes. -/
def rec10 : Record := ⟨[2], 10⟩

/-- A record of 50 bytes. -/
def rec50 : Record := ⟨[3], 50⟩

/-- A file with header page 1 and the chain of data pages 2, 3; page 2 holds one
record of 1000 bytes, page 3 one record of 10 bytes. -/
def twoPages : Int → Option Page := fun n =>
  if n = 1 then some ⟨[], 0, 0⟩
  else if n = 2 then some ⟨[some rec1000], 3, 2⟩
  else if n = 3 then some ⟨[some rec10], -1, 3⟩
  else none

/-- The handle memory over the two-page file, before a constructor has run. -/
def twoPageFile : HeapFile := rawHandle (sampleBuf twoPages 4) ⟨2, 3, 2, 3⟩

/-- A file with header page 1 and the single data page 2 holding two records. -/
def onePage : Int → Option Page := fun n =>
  if n = 1 then some ⟨[], 0, 0⟩
  else if n = 2 then some ⟨[some rec10, some rec50], -1, 2⟩
  else none

/-- The handle memory over the one-page file, before a constructor has run. -/
def onePageFile : HeapFile := rawHandle (sampleBuf onePage 3) ⟨2, 2, 2, 2⟩

/-- The one-page file behind a buffer manager whose third pin request fails. -/
def onePageFaulty : HeapFile :=
  rawHandle { sampleBuf onePage 3 with faults := [false, false, true] } ⟨2, 2, 2, 2⟩

/-- The scan cursor on the one-page file standing on its first record `(2, 0)`. -/
def onePageAtFirst : HeapFile :=
  { (HeapFileScan.ctor Status.OK (Status.OK, 1) onePageFile).2 with curRec := ⟨2, 0⟩ }

/-- The scan cursor on the one-page file standing on its last record `(2, 1)`. -/
def onePageAtLast : HeapFile :=
  { (HeapFileScan.ctor Status.OK (Status.OK, 1) onePageFile).2 with curRec := ⟨2, 1⟩ }

/-- The state `scanNext` leaves when called on `onePageAtLast`: page 2 unpinned, no
current page. -/
def onePageAtEnd : HeapFile :=
  { onePageAtLast with buf := (onePageAtLast.buf.unPinPage 2 false).2, curPage := none,
                       curPageNo := -1, curDirtyFlag := false }

/-- A scan handle with the predicate "the `int` at offset 0 compared with `b` by `op`". -/
def intScan (b : Int) (op : Operator) : HeapFile :=
  { rawHandle (sampleBuf onePage 3) ⟨2, 2, 2, 2⟩ with
      offset := 0, length := 4, type := Datatype.INTEGER, filter := some (encodeInt b),
      op := op }

/-- A scan handle with the predicate "the 3 bytes at offset 0 compared with `fltr` by
`op`" on strings. -/
def strScan (fltr : List Nat) (op : Operator) : HeapFile :=
  { rawHandle (sampleBuf onePage 3) ⟨2, 2, 2, 2⟩ with
      offset := 0, length := 3, type := Datatype.STRING, filter := some fltr, op := op }

/-- The buffer manager once the handle has released its current page, if it has
one. -/
def HeapFile.released (s : HeapFile) : BufMgr :=
  if s.curPage ≠ none then (s.buf.unPinPage s.curPageNo s.curDirtyFlag).2 else s.buf

/-- The one-page scan after the constructor and a first `scanNext`. -/
def onePageScanned : Option (Status × RID × HeapFile) :=
  (HeapFileScan.ctor Status.OK (Status.OK, 1) onePageFile).2.scanNext 5 NULLRID

/-- The two-page file behind a buffer manager whose fourth pin request fails. -/
def twoPageFaulty : HeapFile := twoPageFile.withFaults [false, false, false, true]

/-- One operation on an open handle, with its arguments. -/
inductive HandleOp
  | getRecord (rid : RID)
  | startScan (offset_ length_ : Int) (type_ : Datatype) (filter_ : Option (List Nat))
      (op_ : Operator)
  | scanNext (fuel : Nat) (outRid : RID)
  | markScan
  | resetScan
  | deleteRecord
  | markDirty
  | endScan
  | insertRecord (PAGESIZE DPFIXED : Int) (rec : Record) (outRid : RID)

/-- The handle after one operation; `none` when the call does not return (a null
`curPage` is dereferenced, or the loop of `scanNext` needs more than `fuel` passes). -/
def HandleOp.run : HandleOp → HeapFile → Option HeapFile
  | HandleOp.getRecord rid, s => (s.getRecord rid).map (fun r => r.2.2)
  | HandleOp.startScan o l ty f op, s => some (s.startScan o l ty f op).2
  | HandleOp.scanNext fuel o, s => (s.scanNext fuel o).map (fun r => r.2.2)
  | HandleOp.markScan, s => some s.markScan.2
  | HandleOp.resetScan, s => some s.resetScan.2
  | HandleOp.deleteRecord, s => s.deleteRecord.map (fun r => r.2)
  | HandleOp.markDirty, s => some s.markDirty.2
  | HandleOp.endScan, s => some s.endScan.2
  | HandleOp.insertRecord ps dp rec o, s => (s.insertRecord ps dp rec o).map (fun r => r.2.2)

/-- The handle after a sequence of operations. -/
def runOps : List HandleOp → HeapFile → Option HeapFile
  | [], s => some s
  | op :: ops, s => (op.run s).bind (runOps ops)

/-- No page holds more pins than it held at first (`base`) plus one for the header
page `h` and one for the page `c`, if any. -/
def PinsLe (base : Int → Nat) (b : BufMgr) (h : Int) (c : Option Int) : Prop :=
  ∀ x, b.pinCnt x ≤ base x + (if x = h then 1 else 0) + (if c = some x then 1 else 0)

/-- The page the handle accounts for as pinned: `curPageNo` when `curPage` is not
null. -/
def HeapFile.tracked (s : HeapFile) : Option Int :=
  if s.curPage = none then none else some s.curPageNo

/-- Every pin the handle has taken and not released is accounted for by its header
page or by its current page. -/
def Covered (base : Int → Nat) (hdr : Int) (s : HeapFile) : Prop :=
  s.headerPageNo = hdr ∧ PinsLe base s.buf hdr s.tracked

/-- Live records of a slot directory with their slot numbers, in slot order; `b` is the
number of the first slot of the list. -/
def liveEnt : List (Option Record) → Nat → List (Nat × Record)
  | [], _ => []
  | none :: t, b => liveEnt t (b + 1)
  | some r :: t, b => (b, r) :: liveEnt t (b + 1)

/-- Record ids of the live slots of a page with slot number at least `i`, each with
the record stored there, in slot order. -/
def Page.ents (pg : Page) (i : Nat) : List (RID × Record) :=
  (liveEnt (pg.slots.drop i) i).map
    (fun (e : Nat × Record) => ((⟨pg.curPage, (e.1 : Int)⟩ : RID), e.2))

/-- Record ids of all live records of the pages of a chain, each with its record, in
chain order and then slot order. -/
def chainEnts (pages : Int → Option Page) : List Int → List (RID × Record)
  | [] => []
  | p :: rest =>
    (match pages p with
     | some pg => pg.ents 0
     | none => []) ++ chainEnts pages rest

/-- The record ids among `X` whose record satisfies the predicate of the scan `h`, in
the order of `X`. -/
def HeapFile.selected (h : HeapFile) (X : List (RID × Record)) : List RID :=
  (X.filter (fun e => h.matchRec e.2)).map (fun e => e.1)

/-- A scan cursor with the predicate of `h`, over the pages `P` and a buffer manager
that does not fail, standing on a page of the chain; `X` lists the records that lie
after the cursor's position: the rest of its page, then the pages that follow. -/
def ScanAtF (P : Int → Option Page) (h s : HeapFile) (X : List (RID × Record)) : Prop :=
  s.buf.pages = P ∧ s.buf.faults = [] ∧ SamePred s h ∧
  ∃ p pg rest, s.curPage = some p ∧ IsChain P p (p :: rest) ∧ P p = some pg ∧
    X = pg.ents (s.curRec.slotNo + 1).toNat ++ chainEnts P rest

/-- What a call of `scanNext` on `s0` does when the matching record ids still to come
are `L`: with enough fuel it returns `FILEEOF` when `L` is empty, and otherwise the
head of `L`, leaving the cursor in front of records whose matching ones are the tail
of `L`. -/
def YieldsF (P : Int → Option Page) (h s0 : HeapFile) (o : RID) : List RID → Prop
  | [] => ∃ N s1, (∀ f, N ≤ f → s0.scanNext f o = some (Status.FILEEOF, o, s1)) ∧
      s1.curPage = none
  | r :: L => ∃ N s1 X, (∀ f, N ≤ f → s0.scanNext f o = some (Status.OK, r, s1)) ∧
      ScanAtF P h s1 X ∧ h.selected X = L

/-- Number of pins on page `x` taken by the calls of a trace: its successful
`readPage` and `allocPage` calls for `x`. -/
def pinsTaken : List BufCall → Int → Nat
  | [], _ => 0
  | BufCall.readPage p st :: t, x =>
    (if p = x ∧ st = Status.OK then 1 else 0) + pinsTaken t x
  | BufCall.allocPage p st :: t, x =>
    (if p = x ∧ st = Status.OK then 1 else 0) + pinsTaken t x
  | _ :: t, x => pinsTaken t x

/-- Number of pins on page `x` released by the calls of a trace: its successful
`unPinPage` calls for `x`. -/
def pinsReleased : List BufCall → Int → Nat
  | [], _ => 0
  | BufCall.unPinPage p _ st :: t, x =>
    (if p = x ∧ st = Status.OK then 1 else 0) + pinsReleased t x
  | _ :: t, x => pinsReleased t x

/-- The two-page file behind a buffer manager whose fourth pin request fails, while
another handle on the file holds page 2 pinned. -/
def twoPageShared : HeapFile :=
  { twoPageFaulty with
      buf := { twoPageFaulty.buf with pinCnt := fun n => if n = 2 then 1 else 0 } }

/-! ## Theorems -/

/-- C10: with a non-null filter, `startScan` returns `BADSCANPARM` exactly when the
offset is negative, the length is below 1, the type is none of STRING/INTEGER/FLOAT,
the type is INTEGER (FLOAT) and the length differs from `sizeof(int)`
(`sizeof(float)`), or the operator is none of LT/LTE/EQ/GTE/GT/NE; the handle is then
left exactly as it was; in every other case it returns `OK` and stores exactly the
five given values, changing nothing else. -/
theorem startScan_validates (s : HeapFile) (offset_ length_ : Int) (type_ : Datatype)
    (f : List Nat) (op_ : Operator) :
    ((s.startScan offset_ length_ type_ (some f) op_).1 = Status.BADSCANPARM ↔
        badScanParm offset_ length_ type_ op_) ∧
    (badScanParm offset_ length_ type_ op_ →
        (s.startScan offset_ length_ type_ (some f) op_).2 = s) ∧
    (¬ badScanParm offset_ length_ type_ op_ →
        s.startScan offset_ length_ type_ (some f) op_ =
          (Status.OK, { s with offset := offset_, length := length_, type := type_,
                               filter := some f, op := op_ })) := by
  have hiff : badScanParm offset_ length_ type_ op_ ↔
      ((offset_ < 0 ∨ length_ < 1) ∨
       (type_ ≠ Datatype.STRING ∧ type_ ≠ Datatype.INTEGER ∧ type_ ≠ Datatype.FLOAT) ∨
       (type_ = Datatype.INTEGER ∧ length_ ≠ sizeofInt ∨
        type_ = Datatype.FLOAT ∧ length_ ≠ sizeofFloat) ∨
       (op_ ≠ Operator.LT ∧ op_ ≠ Operator.LTE ∧ op_ ≠ Operator.EQ ∧ op_ ≠ Operator.GTE ∧
        op_ ≠ Operator.GT ∧ op_ ≠ Operator.NE)) := by
    unfold badScanParm
    tauto
  by_cases hb : badScanParm offset_ length_ type_ op_
  · have hb2 := hiff.mp hb
    simp [HeapFile.startScan, hb2, hb]
  · have hb2 : ¬ _ := fun h => hb (hiff.mpr h)
    simp only [HeapFile.startScan, if_neg hb2]
    simp [hb]

/-- C7: a record whose length exceeds `PAGESIZE - DPFIXED` is refused with
`INVALIDRECLEN` and the handle with its file is left exactly as it was: no call to the
buffer manager is made (its trace and pin counts are those of before) and the
counters, the chain pointers and the cursor keep their values.  The hypotheses say
that the page constants are sane and that `rec.length` is an `int`. -/
theorem insertRecord_too_long (PAGESIZE DPFIXED : Int) (s : HeapFile) (rec : Record)
    (outRid : RID) (hconst : 0 ≤ PAGESIZE - DPFIXED) (hint : rec.length ≤ 2147483647)
    (hlen : rec.length > PAGESIZE - DPFIXED) :
    s.insertRecord PAGESIZE DPFIXED rec outRid = some (Status.INVALIDRECLEN, outRid, s) := by
  have h1 : rec.length % 4294967296 = rec.length :=
    Int.emod_eq_of_lt (by omega) (by omega)
  have h2 : (PAGESIZE - DPFIXED) % 4294967296 = PAGESIZE - DPFIXED :=
    Int.emod_eq_of_lt hconst (by omega)
  unfold HeapFile.insertRecord
  rw [h1, h2, if_pos hlen]

/-- Witness of C7: a record of 2000 bytes on pages of 1024 bytes with 20 bytes of
fixed overhead. -/
theorem insertRecord_too_long_witness :
    (rawHandle (sampleBuf (fun _ => none) 1) ⟨0, 1, -1, -1⟩).insertRecord 1024 20
        ⟨[], 2000⟩ NULLRID =
      some (Status.INVALIDRECLEN, NULLRID,
        rawHandle (sampleBuf (fun _ => none) 1) ⟨0, 1, -1, -1⟩) :=
  insertRecord_too_long 1024 20 _ ⟨[], 2000⟩ NULLRID (by decide) (by decide) (by decide)

/-- C8: creating a heap file under a name that does not exist yet, with no failure of
the buffer manager, returns `OK`; the file then has a header with `recCnt = 0`,
`pageCnt = 2` and `firstPage = lastPage =` the second page allocated, which is
initialised (no record, no successor); the buffer manager was asked, in this order,
for the header page, for the data page, to unpin the data page as dirty and to unpin
the header page as dirty; no pin is left on either page and the file is closed. -/
theorem createHeapFile_new (db : DB) (name : String) (hnew : db.files name = none)
    (hok : db.newFile.buf.faults = []) :
    (createHeapFile db name).1 = Status.OK ∧
    ∃ f, (createHeapFile db name).2.files name = some f ∧
      f.hdr.recCnt = 0 ∧ f.hdr.pageCnt = 2 ∧
      f.hdr.firstPage = db.newFile.buf.nextPageNo + 1 ∧
      f.hdr.lastPage = db.newFile.buf.nextPageNo + 1 ∧
      f.buf.pages (db.newFile.buf.nextPageNo + 1) =
        some ⟨[], -1, db.newFile.buf.nextPageNo + 1⟩ ∧
      f.buf.trace = db.newFile.buf.trace ++
        [BufCall.allocPage db.newFile.buf.nextPageNo Status.OK,
         BufCall.allocPage (db.newFile.buf.nextPageNo + 1) Status.OK,
         BufCall.unPinPage (db.newFile.buf.nextPageNo + 1) true Status.OK,
         BufCall.unPinPage db.newFile.buf.nextPageNo true Status.OK] ∧
      f.buf.pinCnt db.newFile.buf.nextPageNo = db.newFile.buf.pinCnt db.newFile.buf.nextPageNo ∧
      f.buf.pinCnt (db.newFile.buf.nextPageNo + 1) =
        db.newFile.buf.pinCnt (db.newFile.buf.nextPageNo + 1) ∧
      f.openCnt = db.newFile.openCnt := by
  simp [createHeapFile, DB.openFile, DB.createFile, DB.closeFile, DB.setFile, hnew,
    createInit, BufMgr.allocPage, BufMgr.unPinPage, BufMgr.setPage, BufMgr.faultNow, hok,
    Page.init, Function.update]

/-- Witness of C8: creating the file "rel" in a database without files. -/
theorem createHeapFile_new_witness :
    (createHeapFile emptyDB "rel").1 = Status.OK ∧
    ∃ f, (createHeapFile emptyDB "rel").2.files "rel" = some f ∧
      f.hdr.recCnt = 0 ∧ f.hdr.pageCnt = 2 ∧
      f.hdr.firstPage = emptyDB.newFile.buf.nextPageNo + 1 ∧
      f.hdr.lastPage = emptyDB.newFile.buf.nextPageNo + 1 ∧
      f.buf.pages (emptyDB.newFile.buf.nextPageNo + 1) =
        some ⟨[], -1, emptyDB.newFile.buf.nextPageNo + 1⟩ ∧
      f.buf.trace = emptyDB.newFile.buf.trace ++
        [BufCall.allocPage emptyDB.newFile.buf.nextPageNo Status.OK,
         BufCall.allocPage (emptyDB.newFile.buf.nextPageNo + 1) Status.OK,
         BufCall.unPinPage (emptyDB.newFile.buf.nextPageNo + 1) true Status.OK,
         BufCall.unPinPage emptyDB.newFile.buf.nextPageNo true Status.OK] ∧
      f.buf.pinCnt emptyDB.newFile.buf.nextPageNo =
        emptyDB.newFile.buf.pinCnt emptyDB.newFile.buf.nextPageNo ∧
      f.buf.pinCnt (emptyDB.newFile.buf.nextPageNo + 1) =
        emptyDB.newFile.buf.pinCnt (emptyDB.newFile.buf.nextPageNo + 1) ∧
      f.openCnt = emptyDB.newFile.openCnt :=
  createHeapFile_new emptyDB "rel" rfl rfl

/-- C9: creating a heap file under a name that already exists returns `FILEEXISTS`
and leaves the whole database as it was: the existing file keeps its header, its
pages, its pin counts and the trace of buffer-manager calls made on it (so no page
was allocated or pinned), and it is closed again. -/
theorem createHeapFile_exists (db : DB) (name : String) (f : DBFile)
    (hex : db.files name = some f) :
    (createHeapFile db name).1 = Status.FILEEXISTS ∧
    (createHeapFile db name).2.files name = some f ∧
    (createHeapFile db name).2 = db := by
  have hfiles : Function.update (Function.update db.files name
      (some { f with openCnt := f.openCnt + 1 })) name (some f) = db.files := by
    funext n
    by_cases hn : n = name
    · subst hn; simp [hex]
    · simp [Function.update, hn]
  have h2 : (createHeapFile db name).2 = db := by
    simp [createHeapFile, DB.openFile, DB.closeFile, DB.setFile, hex]
    cases db
    simp at hfiles ⊢
    exact hfiles
  refine ⟨?_, ?_, h2⟩
  · simp [createHeapFile, DB.openFile, hex]
  · rw [h2]; exact hex

/-- Witness of C9: creating "rel" in a database that holds a file "rel". -/
theorem createHeapFile_exists_witness :
    (createHeapFile sampleDB "rel").1 = Status.FILEEXISTS ∧
    (createHeapFile sampleDB "rel").2.files "rel" = some sampleDBFile ∧
    (createHeapFile sampleDB "rel").2 = sampleDB :=
  createHeapFile_exists sampleDB "rel" sampleDBFile rfl


/-! ### Slots of a page -/

theorem findLive_eq_none {l : List (Option Record)} {b : Nat} :
    findLive l b = none ↔ ∀ x ∈ l, x = none := by
  induction l generalizing b with
  | nil => simp [findLive]
  | cons a t ih =>
    cases a with
    | none => simp [findLive, ih]
    | some r => simp [findLive]

theorem liveIdx_eq_nil {l : List (Option Record)} {b : Nat} (h : ∀ x ∈ l, x = none) :
    liveIdx l b = [] := by
  induction l generalizing b with
  | nil => simp [liveIdx]
  | cons a t ih =>
    have ha : a = none := h a (by simp)
    subst ha
    simp only [liveIdx]
    exact ih (fun x hx => h x (by simp [hx]))

theorem findLive_some {l : List (Option Record)} {b j : Nat} (h : findLive l b = some j) :
    ∃ k r, j = b + k ∧ l[k]? = some (some r) ∧
      liveIdx l b = j :: liveIdx (l.drop (k + 1)) (j + 1) := by
  induction l generalizing b with
  | nil => simp [findLive] at h
  | cons a t ih =>
    cases a with
    | none =>
      simp only [findLive] at h
      obtain ⟨k, r, hj, hk, hl⟩ := ih h
      refine ⟨k + 1, r, by omega, by simpa using hk, ?_⟩
      simpa [liveIdx] using hl
    | some r =>
      simp only [findLive, Option.some.injEq] at h
      subst h
      exact ⟨0, r, by simp, by simp, by simp [liveIdx]⟩

theorem Page.recAt_natCast (pg : Page) (j : Nat) : pg.recAt (j : Int) = pg.slots.getD j none := by
  simp [Page.recAt]

theorem Page.rids_of_nextLive_none {pg : Page} {i : Nat} (h : pg.nextLive i = none) :
    pg.rids i = [] := by
  unfold Page.nextLive at h
  simp [Page.rids, Page.liveFrom, liveIdx_eq_nil (findLive_eq_none.mp h)]

theorem Page.rids_of_no_live {pg : Page} (h : pg.nextLive 0 = none) (i : Nat) :
    pg.rids i = [] := by
  unfold Page.nextLive at h
  have hall := findLive_eq_none.mp h
  simp only [List.drop_zero] at hall
  have : ∀ x ∈ pg.slots.drop i, x = none := fun x hx => hall x (List.mem_of_mem_drop hx)
  simp [Page.rids, Page.liveFrom, liveIdx_eq_nil this]

theorem Page.rids_of_nextLive_some {pg : Page} {i j : Nat} (h : pg.nextLive i = some j) :
    pg.rids i = ⟨pg.curPage, (j : Int)⟩ :: pg.rids (j + 1) ∧
      ∃ r, pg.recAt (j : Int) = some r := by
  unfold Page.nextLive at h
  obtain ⟨k, r, hj, hk, hl⟩ := findLive_some h
  subst hj
  constructor
  · simp [Page.rids, Page.liveFrom, hl, List.drop_drop, Nat.add_comm, Nat.add_left_comm,
      Nat.add_assoc]
  · refine ⟨r, ?_⟩
    rw [Page.recAt_natCast, List.getD_eq_getElem?_getD]
    rw [List.getElem?_drop] at hk
    simp [hk]

/-! ### The buffer manager during a scan -/

theorem BufMgr.readPage_pages (b : BufMgr) (p : Int) : (b.readPage p).2.pages = b.pages := by
  unfold BufMgr.readPage
  split
  · rfl
  · split <;> rfl

theorem BufMgr.readPage_faults (b : BufMgr) (p : Int) :
    (b.readPage p).2.faults = b.faults.tail := by
  unfold BufMgr.readPage
  split
  · rfl
  · split <;> rfl

theorem BufMgr.readPage_ok {b : BufMgr} {p : Int} {pg : Page} (hf : b.faults = [])
    (hp : b.pages p = some pg) : (b.readPage p).1 = Status.OK := by
  simp [BufMgr.readPage, BufMgr.faultNow, hf, hp]

theorem BufMgr.unPinPage_pages (b : BufMgr) (p : Int) (d : Bool) :
    (b.unPinPage p d).2.pages = b.pages := by
  unfold BufMgr.unPinPage
  split <;> rfl

theorem BufMgr.unPinPage_faults (b : BufMgr) (p : Int) (d : Bool) :
    (b.unPinPage p d).2.faults = b.faults := by
  unfold BufMgr.unPinPage
  split <;> rfl

/-! ### One call of `scanNext` -/

theorem HeapFile.scanNext_of_ret {s : HeapFile} {o : RID} {r : Status × RID × HeapFile}
    (h : s.scanNextBody o = some (Step.ret r)) {f : Nat} (hf : 1 ≤ f) :
    s.scanNext f o = some r := by
  obtain ⟨n, rfl⟩ : ∃ n, f = n + 1 := ⟨f - 1, by omega⟩
  simp [HeapFile.scanNext, h]

theorem HeapFile.scanNext_of_again {s s1 : HeapFile} {o : RID}
    (h : s.scanNextBody o = some (Step.again s1)) (f : Nat) :
    s.scanNext (f + 1) o = s1.scanNext f o := by
  simp [HeapFile.scanNext, h]

theorem yields_ret_ok {P : Int → Option Page} {s0 t : HeapFile} {o r : RID} {X : List RID}
    (h : s0.scanNextBody o = some (Step.ret (Status.OK, r, t))) (hs : ScanAt P t X) :
    Yields P s0 o (r :: X) :=
  ⟨1, t, fun _ hf => HeapFile.scanNext_of_ret h hf, hs⟩

theorem yields_ret_eof {P : Int → Option Page} {s0 t : HeapFile} {o : RID}
    (h : s0.scanNextBody o = some (Step.ret (Status.FILEEOF, o, t)))
    (hc : t.curPage = none) : Yields P s0 o [] :=
  ⟨1, t, fun _ hf => HeapFile.scanNext_of_ret h hf, hc⟩

theorem yields_again {P : Int → Option Page} {s0 s1 : HeapFile} {o : RID} {X : List RID}
    (h : s0.scanNextBody o = some (Step.again s1)) (hy : Yields P s1 o X) :
    Yields P s0 o X := by
  cases X with
  | nil =>
    obtain ⟨N, s2, hN, hc⟩ := hy
    refine ⟨N + 1, s2, fun f hf => ?_, hc⟩
    obtain ⟨n, rfl⟩ : ∃ n, f = n + 1 := ⟨f - 1, by omega⟩
    rw [HeapFile.scanNext_of_again h]
    exact hN n (by omega)
  | cons r X =>
    obtain ⟨N, s2, hN, hc⟩ := hy
    refine ⟨N + 1, s2, fun f hf => ?_, hc⟩
    obtain ⟨n, rfl⟩ : ∃ n, f = n + 1 := ⟨f - 1, by omega⟩
    rw [HeapFile.scanNext_of_again h]
    exact hN n (by omega)

/-- On a page with a live slot after the cursor, `scanNext` moves to that slot. -/
theorem yields_on_page {P : Int → Option Page} {s : HeapFile} {o : RID} {p : Int} {pg : Page}
    {rest : List Int} {j : Nat}
    (hP : s.buf.pages = P) (hf : s.buf.faults = []) (hfl : s.filter = none)
    (hcur : s.curPage = some p) (hch : IsChain P p (p :: rest)) (hpg : P p = some pg)
    (hj : pg.nextLive (s.curRec.slotNo + 1).toNat = some j) :
    Yields P s o (pg.rids (s.curRec.slotNo + 1).toNat ++ chainRids P rest) := by
  obtain ⟨hr, rec, hrec⟩ := Page.rids_of_nextLive_some hj
  rw [hr, List.cons_append]
  have hpg2 : s.buf.pages p = some pg := by rw [hP]; exact hpg
  refine yields_ret_ok (t := { s with curRec := ⟨pg.curPage, (j : Int)⟩ }) ?_ ?_
  · simp [HeapFile.scanNextBody, hcur, hpg2, Page.nextRecord, hj, HeapFile.scanNextTail,
      HeapFile.curFrame, Page.getRecord, hrec, HeapFile.matchRec, hfl]
  · refine ⟨hP, hf, hfl, p, pg, rest, hcur, hch, hpg, ?_⟩
    simp

/-- Pinning the next page `q` of the chain inside `scanNext`: the call goes on with
the records of `q` and of the pages after it, provided the scan of a cursor standing
on `q` is known to behave (`H`). -/
theorem yields_pin {P : Int → Option Page} {s s0 : HeapFile} {o : RID} {q : Int} {pq : Page}
    {rest : List Int}
    (H : ∀ s3 : HeapFile, s3.buf.pages = P → s3.buf.faults = [] → s3.filter = none →
      s3.curPage = some q →
      Yields P s3 o (pq.rids (s3.curRec.slotNo + 1).toNat ++ chainRids P rest))
    (hP : s.buf.pages = P) (hf : s.buf.faults = []) (hfl : s.filter = none)
    (hq : s.curPageNo = q) (hch : IsChain P q (q :: rest)) (hpq : P q = some pq)
    (h0 : s0.scanNextBody o = s.scanNextPin o) :
    Yields P s0 o (chainRids P (q :: rest)) := by
  have hpq2 : s.buf.pages q = some pq := by rw [hP]; exact hpq
  have hok : (s.buf.readPage q).1 = Status.OK := BufMgr.readPage_ok hf hpq2
  have hpages : (s.buf.readPage q).2.pages = P := by rw [BufMgr.readPage_pages, hP]
  have hfaults : (s.buf.readPage q).2.faults = [] := by rw [BufMgr.readPage_faults, hf]; rfl
  have hpq3 : (s.buf.readPage q).2.pages q = some pq := by rw [hpages]; exact hpq
  simp only [chainRids, hpq]
  cases hj : pq.nextLive 0 with
  | some j =>
    obtain ⟨hr, rec, hrec⟩ := Page.rids_of_nextLive_some hj
    rw [hr, List.cons_append]
    refine yields_ret_ok
      (t := { s with buf := (s.buf.readPage q).2, curPage := some q, curDirtyFlag := false,
                     curRec := ⟨pq.curPage, (j : Int)⟩ }) ?_ ?_
    · rw [h0]
      simp [HeapFile.scanNextPin, hq, hok, hpq3, Page.firstRecord, hj, HeapFile.scanNextTail,
        HeapFile.curFrame, Page.getRecord, hrec, HeapFile.matchRec, hfl]
    · refine ⟨hpages, hfaults, hfl, q, pq, rest, rfl, hch, hpq, ?_⟩
      simp
  | none =>
    rw [Page.rids_of_no_live hj 0, List.nil_append]
    have hagain : s0.scanNextBody o = some (Step.again
        { s with buf := (s.buf.readPage q).2, curPage := some q, curDirtyFlag := false }) := by
      rw [h0]
      simp [HeapFile.scanNextPin, hq, hok, hpq3, Page.firstRecord, hj, HeapFile.scanNextTail]
    have := H { s with buf := (s.buf.readPage q).2, curPage := some q, curDirtyFlag := false }
      hpages hfaults hfl rfl
    rw [Page.rids_of_no_live hj, List.nil_append] at this
    exact yields_again hagain this

/-- A scan cursor standing on a page of a chain: `scanNext` yields the next record of
the page or of the pages that follow, or `FILEEOF` when none is left. -/
theorem yields_at {P : Int → Option Page} (rest : List Int) :
    ∀ (p : Int) (pg : Page) (s : HeapFile) (o : RID),
      s.buf.pages = P → s.buf.faults = [] → s.filter = none → s.curPage = some p →
      IsChain P p (p :: rest) → P p = some pg →
      Yields P s o (pg.rids (s.curRec.slotNo + 1).toNat ++ chainRids P rest) := by
  induction rest with
  | nil =>
    intro p pg s o hP hf hfl hcur hch hpg
    cases hj : pg.nextLive (s.curRec.slotNo + 1).toNat with
    | some j => exact yields_on_page hP hf hfl hcur hch hpg hj
    | none =>
      rw [Page.rids_of_nextLive_none hj]
      have hpg2 : s.buf.pages p = some pg := by rw [hP]; exact hpg
      have hnext : pg.nextPage = -1 := by
        simpa [IsChain, hpg] using hch.2.2
      refine yields_ret_eof
        (t := { s with buf := (s.buf.unPinPage s.curPageNo s.curDirtyFlag).2,
                       curPage := none, curPageNo := -1, curDirtyFlag := false }) ?_ rfl
      simp [HeapFile.scanNextBody, hcur, hpg2, Page.nextRecord, hj, Page.getNextPage, hnext]
  | cons q rest ih =>
    intro p pg s o hP hf hfl hcur hch hpg
    cases hj : pg.nextLive (s.curRec.slotNo + 1).toNat with
    | some j => exact yields_on_page hP hf hfl hcur hch hpg hj
    | none =>
      rw [Page.rids_of_nextLive_none hj, List.nil_append]
      have hpg2 : s.buf.pages p = some pg := by rw [hP]; exact hpg
      have hch2 : IsChain P pg.nextPage (q :: rest) := by
        simpa [IsChain, hpg] using hch.2.2
      have hq : pg.nextPage = q := hch2.1
      have hq1 : q ≠ -1 := hch2.2.1
      rw [hq] at hch2
      obtain ⟨pq, hpq⟩ : ∃ pq, P q = some pq := by
        have := hch2.2.2
        cases hx : P q with
        | none => simp [hx] at this
        | some pq => exact ⟨pq, rfl⟩
      refine yields_pin
        (s := { s with buf := (s.buf.unPinPage s.curPageNo s.curDirtyFlag).2,
                       curPage := none, curPageNo := q, curDirtyFlag := false })
        (fun s3 h1 h2 h3 h4 => ih q pq s3 o h1 h2 h3 h4 hch2 hpq)
        (by simp [BufMgr.unPinPage_pages, hP]) (by simp [BufMgr.unPinPage_faults, hf]) hfl rfl
        hch2 hpq ?_
      simp [HeapFile.scanNextBody, hcur, hpg2, Page.nextRecord, hj, Page.getNextPage, hq, hq1]

/-- A scan cursor with no page pinned: `scanNext` starts at the header's first page. -/
theorem yields_restart {P : Int → Option Page} {s : HeapFile} {o : RID} {c : List Int}
    (hP : s.buf.pages = P) (hf : s.buf.faults = []) (hfl : s.filter = none)
    (hcur : s.curPage = none) (hch : IsChain P s.headerPage.firstPage c) :
    Yields P s o (chainRids P c) := by
  cases c with
  | nil =>
    have h1 : s.headerPage.firstPage = -1 := hch
    exact yields_ret_eof (t := { s with curPageNo := s.headerPage.firstPage })
      (by simp [HeapFile.scanNextBody, hcur, h1]) hcur
  | cons q rest =>
    have hq : s.headerPage.firstPage = q := hch.1
    have hq1 : q ≠ -1 := hch.2.1
    rw [hq] at hch
    obtain ⟨pq, hpq⟩ : ∃ pq, P q = some pq := by
      have := hch.2.2
      cases hx : P q with
      | none => simp [hx] at this
      | some pq => exact ⟨pq, rfl⟩
    exact yields_pin (s := { s with curPageNo := q })
      (fun s3 h1 h2 h3 h4 => yields_at rest q pq s3 o h1 h2 h3 h4 hch hpq)
      hP hf hfl rfl hch hpq (by simp [HeapFile.scanNextBody, hcur, hq, hq1])

/-- Repeated `scanNext` calls collect exactly the record ids still to come. -/
theorem scanAll_of_yields {P : Int → Option Page} (X : List RID) :
    ∀ (s : HeapFile) (o : RID), Yields P s o X →
      (∀ (s1 : HeapFile) (o1 : RID) (Y : List RID), ScanAt P s1 Y → Yields P s1 o1 Y) →
      ∃ N, ∀ f c, N ≤ f → N ≤ c → s.scanAll f c o = some X := by
  induction X with
  | nil =>
    intro s o hy _
    obtain ⟨N, s1, hN, _⟩ := hy
    refine ⟨N + 1, fun f c hf hc => ?_⟩
    obtain ⟨c, rfl⟩ : ∃ n, c = n + 1 := ⟨c - 1, by omega⟩
    simp [HeapFile.scanAll, hN f (by omega)]
  | cons r X ih =>
    intro s o hy hstep
    obtain ⟨N, s1, hN, hs1⟩ := hy
    obtain ⟨M, hM⟩ := ih s1 r (hstep s1 r X hs1) hstep
    refine ⟨N + M + 1, fun f c hf hc => ?_⟩
    obtain ⟨c, rfl⟩ : ∃ n, c = n + 1 := ⟨c - 1, by omega⟩
    simp [HeapFile.scanAll, hN f (by omega), hM f c (by omega) (by omega)]

theorem yields_of_scanAt {P : Int → Option Page} (s : HeapFile) (o : RID) (X : List RID)
    (h : ScanAt P s X) : Yields P s o X := by
  obtain ⟨hP, hf, hfl, p, pg, rest, hcur, hch, hpg, rfl⟩ := h
  exact yields_at rest p pg s o hP hf hfl hcur hch hpg

/-! ### The record ids of a chain -/

theorem mem_liveIdx {l : List (Option Record)} {b j : Nat} :
    j ∈ liveIdx l b ↔ b ≤ j ∧ ∃ r, l[j - b]? = some (some r) := by
  induction l generalizing b with
  | nil => simp [liveIdx]
  | cons a t ih =>
    have hstep : ∀ r, b + 1 ≤ j → (t[j - (b + 1)]? = some (some r) ↔
        (a :: t)[j - b]? = some (some r)) := by
      intro r hle
      obtain ⟨k, hk⟩ : ∃ k, j - b = k + 1 := ⟨j - b - 1, by omega⟩
      have hk2 : j - (b + 1) = k := by omega
      rw [hk, hk2, List.getElem?_cons_succ]
    cases a with
    | none =>
      simp only [liveIdx, ih]
      constructor
      · rintro ⟨hle, r, hr⟩
        exact ⟨by omega, r, (hstep r hle).mp hr⟩
      · rintro ⟨hle, r, hr⟩
        have hne : b ≠ j := by
          rintro rfl
          simp at hr
        have hle2 : b + 1 ≤ j := by omega
        exact ⟨hle2, r, (hstep r hle2).mpr hr⟩
    | some x =>
      simp only [liveIdx, List.mem_cons, ih]
      constructor
      · rintro (rfl | ⟨hle, r, hr⟩)
        · exact ⟨le_refl _, x, by simp⟩
        · exact ⟨by omega, r, (hstep r hle).mp hr⟩
      · rintro ⟨hle, r, hr⟩
        by_cases hbj : j = b
        · exact Or.inl hbj
        · have hle2 : b + 1 ≤ j := by omega
          exact Or.inr ⟨hle2, r, (hstep r hle2).mpr hr⟩

theorem liveIdx_pairwise (l : List (Option Record)) (b : Nat) :
    (liveIdx l b).Pairwise (fun x y => x < y) := by
  induction l generalizing b with
  | nil => simp [liveIdx]
  | cons a t ih =>
    cases a with
    | none => simpa [liveIdx] using ih (b + 1)
    | some x =>
      simp only [liveIdx, List.pairwise_cons]
      refine ⟨fun y hy => ?_, ih (b + 1)⟩
      have := (mem_liveIdx.mp hy).1
      omega

theorem liveIdx_length (l : List (Option Record)) (b : Nat) :
    (liveIdx l b).length = (l.filter Option.isSome).length := by
  induction l generalizing b with
  | nil => simp [liveIdx]
  | cons a t ih =>
    cases a with
    | none => simpa [liveIdx] using ih (b + 1)
    | some x => simpa [liveIdx] using ih (b + 1)

theorem Page.mem_rids_zero {pg : Page} {rid : RID} :
    rid ∈ pg.rids 0 ↔ rid.pageNo = pg.curPage ∧ (pg.recAt rid.slotNo).isSome := by
  simp only [Page.rids, Page.liveFrom, List.drop_zero, List.mem_map, mem_liveIdx]
  constructor
  · rintro ⟨j, ⟨_, r, hr⟩, rfl⟩
    refine ⟨rfl, ?_⟩
    simp only [Nat.sub_zero] at hr
    simp [Page.recAt_natCast, List.getD_eq_getElem?_getD, hr]
  · rintro ⟨hp, hs⟩
    have hnn : ¬ rid.slotNo < 0 := by
      intro hneg
      simp [Page.recAt, hneg] at hs
    refine ⟨rid.slotNo.toNat, ⟨Nat.zero_le _, ?_⟩, ?_⟩
    · simp only [Page.recAt, hnn, if_false, List.getD_eq_getElem?_getD] at hs
      simp only [Nat.sub_zero]
      cases hx : pg.slots[rid.slotNo.toNat]? with
      | none => simp [hx] at hs
      | some v =>
        cases v with
        | none => simp [hx] at hs
        | some r => exact ⟨r, rfl⟩
    · cases rid with
      | mk pn sn =>
        simp only at hp hnn ⊢
        rw [hp, Int.toNat_of_nonneg (by omega)]

theorem Page.rids_zero_nodup (pg : Page) : (pg.rids 0).Nodup := by
  unfold Page.rids Page.liveFrom
  refine List.Nodup.map ?_ ?_
  · intro a b hab
    simpa using congrArg RID.slotNo hab
  · exact (liveIdx_pairwise _ _).imp (fun h => Nat.ne_of_lt h)

theorem mem_chainRids {P : Int → Option Page} {chain : List Int} {rid : RID} :
    rid ∈ chainRids P chain ↔ ∃ p ∈ chain, ∃ pg, P p = some pg ∧ rid ∈ pg.rids 0 := by
  induction chain with
  | nil => simp [chainRids]
  | cons q rest ih =>
    simp only [chainRids, List.mem_append, ih, List.mem_cons, exists_eq_or_imp]
    cases hq : P q with
    | none => simp
    | some pq => simp

theorem chainRids_nodup {P : Int → Option Page} {chain : List Int} (hnd : chain.Nodup)
    (hself : ∀ p ∈ chain, ∀ pg, P p = some pg → pg.curPage = p) :
    (chainRids P chain).Nodup := by
  induction chain with
  | nil => simp [chainRids]
  | cons q rest ih =>
    have hq : q ∉ rest := (List.nodup_cons.mp hnd).1
    have hrest := ih (List.nodup_cons.mp hnd).2 (fun p hp => hself p (by simp [hp]))
    simp only [chainRids]
    refine List.Nodup.append ?_ hrest ?_
    · cases hx : P q with
      | none => simp
      | some pq => exact Page.rids_zero_nodup pq
    · intro rid h1 h2
      obtain ⟨p, hp, pg, hpg, hmem⟩ := mem_chainRids.mp h2
      have e1 : rid.pageNo = p := by
        rw [(Page.mem_rids_zero.mp hmem).1]
        exact hself p (by simp [hp]) pg hpg
      cases hx : P q with
      | none => simp [hx] at h1
      | some pq =>
        simp only [hx] at h1
        have e2 : rid.pageNo = q := by
          rw [(Page.mem_rids_zero.mp h1).1]
          exact hself q (by simp) pq hx
        exact hq (by rw [← e2, e1]; exact hp)

theorem chainRids_length (P : Int → Option Page) (chain : List Int) :
    (chainRids P chain).length = chainLive P chain := by
  induction chain with
  | nil => simp [chainRids, chainLive]
  | cons q rest ih =>
    simp only [chainRids, chainLive, List.length_append, ih]
    cases hx : P q with
    | none => simp
    | some pq => simp [Page.rids, Page.liveFrom, liveIdx_length, liveCount]

/-! ### Full scans -/

theorem isChain_head_pos {P : Int → Option Page} {start : Int} {chain : List Int}
    (h : IsChain P start chain) (hs : start ≠ -1) :
    ∃ pg rest, chain = start :: rest ∧ P start = some pg ∧ IsChain P pg.nextPage rest := by
  cases chain with
  | nil => exact absurd h hs
  | cons q rest =>
    obtain ⟨h1, _, h3⟩ := h
    subst h1
    cases hx : P start with
    | none => simp [hx] at h3
    | some pg =>
      simp only [hx] at h3
      exact ⟨pg, rest, rfl, rfl, h3⟩

theorem isChain_neg_one {P : Int → Option Page} {chain : List Int}
    (h : IsChain P (-1) chain) : chain = [] := by
  cases chain with
  | nil => rfl
  | cons q rest => exact absurd h.1.symm h.2.1

/-- The scan cursor a successful `HeapFileScan` constructor leaves on a well-formed
file stands in front of all the records of the chain. -/
theorem ctor_scan_start (raw : HeapFile) (hdrNo : Int) (chain : List Int) (o : RID)
    (hch : IsChain raw.buf.pages raw.headerPage.firstPage chain)
    (hhdr : (raw.buf.pages hdrNo).isSome) (hf : raw.buf.faults = []) :
    (HeapFileScan.ctor Status.OK (Status.OK, hdrNo) raw).1 = Status.OK ∧
    (HeapFileScan.ctor Status.OK (Status.OK, hdrNo) raw).2.headerPage = raw.headerPage ∧
    Yields raw.buf.pages (HeapFileScan.ctor Status.OK (Status.OK, hdrNo) raw).2 o
      (chainRids raw.buf.pages chain) := by
  obtain ⟨hp, hhp⟩ : ∃ hp, raw.buf.pages hdrNo = some hp := Option.isSome_iff_exists.mp hhdr
  have hok1 : (raw.buf.readPage hdrNo).1 = Status.OK := BufMgr.readPage_ok hf hhp
  have hf1 : (raw.buf.readPage hdrNo).2.faults = [] := by rw [BufMgr.readPage_faults, hf]; rfl
  have hp1 : (raw.buf.readPage hdrNo).2.pages = raw.buf.pages := BufMgr.readPage_pages _ _
  by_cases hfirst : raw.headerPage.firstPage = -1
  · rw [hfirst] at hch
    rw [isChain_neg_one hch]
    have hctor : HeapFileScan.ctor Status.OK (Status.OK, hdrNo) raw =
        (Status.OK, { raw with headerPageNo := hdrNo, buf := (raw.buf.readPage hdrNo).2,
                               hdrDirtyFlag := false, curPage := none, curPageNo := -1,
                               curDirtyFlag := false, curRec := ⟨-1, -1⟩, filter := none }) := by
      simp [HeapFileScan.ctor, HeapFile.ctor, hok1, hfirst]
    rw [hctor]
    refine ⟨rfl, rfl, ?_⟩
    exact yields_restart (c := []) hp1 hf1 rfl rfl hfirst
  · obtain ⟨pg, rest, rfl, hpg, hrest⟩ := isChain_head_pos hch hfirst
    have hpg1 : (raw.buf.readPage hdrNo).2.pages raw.headerPage.firstPage = some pg := by
      rw [hp1]; exact hpg
    have hok2 : ((raw.buf.readPage hdrNo).2.readPage raw.headerPage.firstPage).1 = Status.OK :=
      BufMgr.readPage_ok hf1 hpg1
    have hctor : HeapFileScan.ctor Status.OK (Status.OK, hdrNo) raw =
        (Status.OK, { raw with headerPageNo := hdrNo,
                               buf := ((raw.buf.readPage hdrNo).2.readPage
                                        raw.headerPage.firstPage).2,
                               hdrDirtyFlag := false,
                               curPage := some raw.headerPage.firstPage,
                               curPageNo := raw.headerPage.firstPage,
                               curDirtyFlag := false, curRec := ⟨-1, -1⟩, filter := none }) := by
      simp [HeapFileScan.ctor, HeapFile.ctor, hok1, hfirst, hok2]
    rw [hctor]
    refine ⟨rfl, rfl, ?_⟩
    apply yields_of_scanAt
    refine ⟨by simp [BufMgr.readPage_pages], by simp [BufMgr.readPage_faults, hf], rfl,
      raw.headerPage.firstPage, pg, rest, rfl, hch, hpg, ?_⟩
    simp [chainRids, hpg]

/-- C1: on a well-formed heap file (a finite acyclic chain of pages from `firstPage`
whose last page has no successor, each page knowing its own number) and with a buffer
manager that does not fail, the `HeapFileScan` constructor succeeds and calling
`scanNext` until `FILEEOF` on the new cursor (no filter) returns, given enough fuel,
exactly the record ids of the live records of the chain pages in chain order and then
slot order; this list has no duplicate, has as many entries as there are live records,
and holds a record id exactly when its page is in the chain and its slot is live. -/
theorem scan_yields_every_record (raw : HeapFile) (hdrNo : Int) (chain : List Int) (o : RID)
    (hch : IsChain raw.buf.pages raw.headerPage.firstPage chain)
    (hnd : chain.Nodup)
    (hself : ∀ p ∈ chain, ∀ pg, raw.buf.pages p = some pg → pg.curPage = p)
    (hhdr : (raw.buf.pages hdrNo).isSome) (hf : raw.buf.faults = []) :
    (HeapFileScan.ctor Status.OK (Status.OK, hdrNo) raw).1 = Status.OK ∧
    (∃ N, ∀ f c, N ≤ f → N ≤ c →
      (HeapFileScan.ctor Status.OK (Status.OK, hdrNo) raw).2.scanAll f c o =
        some (chainRids raw.buf.pages chain)) ∧
    (chainRids raw.buf.pages chain).Nodup ∧
    (chainRids raw.buf.pages chain).length = chainLive raw.buf.pages chain ∧
    (∀ rid, rid ∈ chainRids raw.buf.pages chain ↔
      rid.pageNo ∈ chain ∧
        ∃ pg, raw.buf.pages rid.pageNo = some pg ∧ (pg.recAt rid.slotNo).isSome) := by
  obtain ⟨h1, _, h3⟩ := ctor_scan_start raw hdrNo chain o hch hhdr hf
  refine ⟨h1, scanAll_of_yields _ _ o h3 (fun s1 o1 Y hY => yields_of_scanAt s1 o1 Y hY),
    chainRids_nodup hnd hself, chainRids_length _ _, fun rid => ?_⟩
  rw [mem_chainRids]
  constructor
  · rintro ⟨p, hp, pg, hpg, hmem⟩
    have hm := Page.mem_rids_zero.mp hmem
    have e : rid.pageNo = p := by rw [hm.1]; exact hself p hp pg hpg
    rw [e]
    exact ⟨hp, pg, hpg, hm.2⟩
  · rintro ⟨hp, pg, hpg, hs⟩
    exact ⟨rid.pageNo, hp, pg, hpg, Page.mem_rids_zero.mpr ⟨(hself _ hp pg hpg).symm, hs⟩⟩

theorem twoPages_isChain : IsChain twoPages 2 [2, 3] := by
  simp [IsChain, twoPages]

theorem twoPages_self : ∀ p ∈ [2, 3], ∀ pg, twoPages p = some pg → pg.curPage = p := by
  intro p hp pg hpg
  simp only [List.mem_cons, List.mem_singleton, List.not_mem_nil, or_false] at hp
  rcases hp with rfl | rfl
  · simp [twoPages] at hpg; rw [← hpg]
  · simp [twoPages] at hpg; rw [← hpg]

/-- Witness of C1: the scan of the two-page file. -/
theorem scan_yields_every_record_witness :
    (HeapFileScan.ctor Status.OK (Status.OK, 1) twoPageFile).1 = Status.OK ∧
    (∃ N, ∀ f c, N ≤ f → N ≤ c →
      (HeapFileScan.ctor Status.OK (Status.OK, 1) twoPageFile).2.scanAll f c NULLRID =
        some (chainRids twoPageFile.buf.pages [2, 3])) ∧
    (chainRids twoPageFile.buf.pages [2, 3]).Nodup ∧
    (chainRids twoPageFile.buf.pages [2, 3]).length = chainLive twoPageFile.buf.pages [2, 3] ∧
    (∀ rid, rid ∈ chainRids twoPageFile.buf.pages [2, 3] ↔
      rid.pageNo ∈ [2, 3] ∧
        ∃ pg, twoPageFile.buf.pages rid.pageNo = some pg ∧ (pg.recAt rid.slotNo).isSome) :=
  scan_yields_every_record twoPageFile 1 [2, 3] NULLRID twoPages_isChain (by decide)
    twoPages_self (by rfl) rfl

/-! ### What `scanNext` leaves unchanged -/

theorem ScanFrame.refl (s : HeapFile) : ScanFrame s s :=
  ⟨rfl, rfl, rfl, rfl, rfl, rfl, rfl, rfl, rfl, id, [], by simp⟩

theorem ScanFrame.trans {s t u : HeapFile} (h1 : ScanFrame s t) (h2 : ScanFrame t u) :
    ScanFrame s u := by
  obtain ⟨a1, a2, a3, a4, a5, a6, a7, a8, a9, a10, tl1, a11⟩ := h1
  obtain ⟨b1, b2, b3, b4, b5, b6, b7, b8, b9, b10, tl2, b11⟩ := h2
  refine ⟨b1.trans a1, b2.trans a2, b3.trans a3, b4.trans a4, b5.trans a5, b6.trans a6,
    b7.trans a7, b8.trans a8, b9.trans a9, fun h => b10 (a10 h), tl1 ++ tl2, ?_⟩
  rw [b11, a11, List.append_assoc]

theorem BufMgr.readPage_status (b : BufMgr) (p : Int) :
    (b.readPage p).1 = Status.OK ∨ (b.readPage p).1 = Status.UNIXERR ∨
      (b.readPage p).1 = Status.BADPAGENO := by
  unfold BufMgr.readPage
  split
  · exact Or.inr (Or.inl rfl)
  · split
    · exact Or.inr (Or.inr rfl)
    · exact Or.inl rfl

theorem BufMgr.readPage_trace (b : BufMgr) (p : Int) :
    (b.readPage p).2.trace = b.trace ++ [BufCall.readPage p (b.readPage p).1] := by
  unfold BufMgr.readPage
  split
  · rfl
  · split <;> rfl

theorem BufMgr.unPinPage_trace (b : BufMgr) (p : Int) (d : Bool) :
    (b.unPinPage p d).2.trace = b.trace ++ [BufCall.unPinPage p d (b.unPinPage p d).1] := by
  unfold BufMgr.unPinPage
  split <;> rfl

theorem HeapFile.scanNextTail_state {st : Status} {s : HeapFile} {o : RID}
    {x : Step (Status × RID × HeapFile) HeapFile} (h : s.scanNextTail st o = some x) :
    stepState x = s ∧ ∀ r t, x = Step.ret (Status.FILEEOF, r, t) → False := by
  unfold HeapFile.scanNextTail at h
  split at h
  · cases h; exact ⟨rfl, fun _ _ h => by cases h⟩
  · split at h
    · cases h
    · split at h
      · cases h; exact ⟨rfl, fun _ _ h => by cases h⟩
      · split at h <;> (cases h; exact ⟨rfl, fun _ _ h => by cases h⟩)

theorem HeapFile.scanNextPin_frame {s : HeapFile} {o : RID}
    {x : Step (Status × RID × HeapFile) HeapFile} (h : s.scanNextPin o = some x) :
    ScanFrame s (stepState x) ∧
    (stepState x).buf.trace =
      s.buf.trace ++ [BufCall.readPage s.curPageNo (s.buf.readPage s.curPageNo).1] ∧
    ∀ r t, x = Step.ret (Status.FILEEOF, r, t) → False := by
  have hfr : ∀ t : HeapFile, t.buf = (s.buf.readPage s.curPageNo).2 →
      t.headerPage = s.headerPage → t.offset = s.offset → t.length = s.length →
      t.type = s.type → t.filter = s.filter → t.op = s.op →
      t.markedPageNo = s.markedPageNo → t.markedRec = s.markedRec → ScanFrame s t := by
    intro t hb h1 h2 h3 h4 h5 h6 h7 h8
    refine ⟨h1, by rw [hb, BufMgr.readPage_pages], h2, h3, h4, h5, h6, h7, h8, ?_,
      [BufCall.readPage s.curPageNo (s.buf.readPage s.curPageNo).1], ?_⟩
    · intro hf; rw [hb, BufMgr.readPage_faults, hf]; rfl
    · rw [hb, BufMgr.readPage_trace]
  unfold HeapFile.scanNextPin at h
  simp only at h
  split at h
  · rename_i hne
    cases h
    refine ⟨hfr _ rfl rfl rfl rfl rfl rfl rfl rfl rfl, BufMgr.readPage_trace _ _, ?_⟩
    intro r t hx
    simp only [Step.ret.injEq, Prod.mk.injEq] at hx
    have h0 := hx.1
    rcases BufMgr.readPage_status s.buf s.curPageNo with h1 | h1 | h1
    · exact hne h1
    · rw [h1] at h0; cases h0
    · rw [h1] at h0; cases h0
  · split at h
    · cases h
    · obtain ⟨h1, h2⟩ := HeapFile.scanNextTail_state h
      rw [h1]
      exact ⟨hfr _ rfl rfl rfl rfl rfl rfl rfl rfl rfl, BufMgr.readPage_trace _ _, h2⟩

theorem HeapFile.scanNextBody_frame {s : HeapFile} {o : RID}
    {x : Step (Status × RID × HeapFile) HeapFile} (h : s.scanNextBody o = some x) :
    ScanFrame s (stepState x) ∧
    (∀ r t, x = Step.ret (Status.FILEEOF, r, t) →
      t.curPage = none ∧ t.curPageNo = -1 ∧ r = o) ∧
    (s.curPage = none → s.headerPage.firstPage ≠ -1 →
      ∃ st, (stepState x).buf.trace =
        s.buf.trace ++ [BufCall.readPage s.headerPage.firstPage st]) := by
  unfold HeapFile.scanNextBody at h
  split at h
  · rename_i hcur
    split at h
    · rename_i hfirst
      cases h
      refine ⟨ScanFrame.refl s, ?_, fun _ hne => absurd hfirst hne⟩
      intro r t hx
      cases hx
      exact ⟨hcur, hfirst, rfl⟩
    · obtain ⟨h1, h2, h3⟩ := HeapFile.scanNextPin_frame h
      exact ⟨h1, fun r t hx => (h3 r t hx).elim, fun _ _ => ⟨_, h2⟩⟩
  · rename_i p hcur
    split at h
    · cases h
    · split at h
      · obtain ⟨h1, h2⟩ := HeapFile.scanNextTail_state h
        rw [h1]
        exact ⟨ScanFrame.refl s, fun r t hx => (h2 r t hx).elim, fun hn => by simp [hcur] at hn⟩
      · have hfr : ScanFrame s
            { s with buf := (s.buf.unPinPage s.curPageNo s.curDirtyFlag).2, curPage := none,
                     curPageNo := -1, curDirtyFlag := false } :=
          ⟨rfl, BufMgr.unPinPage_pages _ _ _, rfl, rfl, rfl, rfl, rfl, rfl, rfl,
            fun hf => by simp [BufMgr.unPinPage_faults, hf], _, BufMgr.unPinPage_trace _ _ _⟩
        simp only at h
        split at h
        · cases h
          refine ⟨hfr, ?_, fun hn => by simp [hcur] at hn⟩
          intro r t hx
          cases hx
          exact ⟨rfl, rfl, rfl⟩
        · obtain ⟨h1, _, h3⟩ := HeapFile.scanNextPin_frame h
          exact ⟨ScanFrame.trans hfr h1, fun r t hx => (h3 r t hx).elim,
            fun hn => by simp [hcur] at hn⟩

theorem HeapFile.scanNext_frame (f : Nat) :
    ∀ (s : HeapFile) (o : RID) (st : Status) (r : RID) (t : HeapFile),
      s.scanNext f o = some (st, r, t) →
      ScanFrame s t ∧
      (st = Status.FILEEOF → t.curPage = none ∧ t.curPageNo = -1 ∧ r = o) ∧
      (s.curPage = none → s.headerPage.firstPage ≠ -1 →
        ∃ st1 tl, t.buf.trace =
          s.buf.trace ++ BufCall.readPage s.headerPage.firstPage st1 :: tl) := by
  induction f with
  | zero => intro s o st r t h; simp [HeapFile.scanNext] at h
  | succ n ih =>
    intro s o st r t h
    simp only [HeapFile.scanNext] at h
    split at h
    · cases h
    · rename_i r0 hb
      cases h
      obtain ⟨h1, h2, h3⟩ := HeapFile.scanNextBody_frame hb
      refine ⟨h1, fun hst => ?_, fun hc hne => ?_⟩
      · subst hst
        exact h2 r t rfl
      · obtain ⟨st1, hst1⟩ := h3 hc hne
        exact ⟨st1, [], hst1⟩
    · rename_i s1 hb
      obtain ⟨h1, _, h3⟩ := HeapFile.scanNextBody_frame hb
      obtain ⟨k1, k2, _⟩ := ih s1 o st r t h
      refine ⟨ScanFrame.trans h1 k1, k2, fun hc hne => ?_⟩
      obtain ⟨st1, hst1⟩ := h3 hc hne
      obtain ⟨tl, htl⟩ := k1.2.2.2.2.2.2.2.2.2.2
      refine ⟨st1, tl, ?_⟩
      rw [htl]
      simp only [stepState] at hst1
      rw [hst1, List.append_assoc, List.singleton_append]

/-- C3 as the code has it: once `scanNext` has returned `FILEEOF` the cursor has no
current page (`curPage` null, `curPageNo = -1`) and the header is the one of before.
A further `scanNext` does not stay at the end but starts the scan over at the header's
first page: on an empty chain (`firstPage = -1`) it returns `FILEEOF` again and changes
nothing (no buffer-manager call); on a non-empty chain the first thing it does is a
`readPage` of `firstPage`; and on a well-formed file, without filter and without
buffer failure, it returns `FILEEOF` only if the chain holds no live record and
otherwise returns `OK` with the first record of the chain. -/
theorem scanNext_after_eof (s : HeapFile) (o o1 : RID) (s1 : HeapFile) (f : Nat)
    (heof : s.scanNext f o = some (Status.FILEEOF, o1, s1)) :
    s1.curPage = none ∧ s1.curPageNo = -1 ∧ s1.headerPage = s.headerPage ∧
    (s1.headerPage.firstPage = -1 →
      ∀ g, 1 ≤ g → s1.scanNext g o1 = some (Status.FILEEOF, o1, s1)) ∧
    (s1.headerPage.firstPage ≠ -1 → ∀ g r, s1.scanNext g o1 = some r →
      ∃ st tl, r.2.2.buf.trace =
        s1.buf.trace ++ BufCall.readPage s1.headerPage.firstPage st :: tl) ∧
    (∀ chain, IsChain s1.buf.pages s1.headerPage.firstPage chain → s1.buf.faults = [] →
      s1.filter = none →
      (chainRids s1.buf.pages chain = [] →
        ∃ N s2, ∀ g, N ≤ g → s1.scanNext g o1 = some (Status.FILEEOF, o1, s2)) ∧
      (∀ r X, chainRids s1.buf.pages chain = r :: X →
        ∃ N s2, ∀ g, N ≤ g → s1.scanNext g o1 = some (Status.OK, r, s2))) := by
  obtain ⟨h1, h2, _⟩ := HeapFile.scanNext_frame f s o _ o1 s1 heof
  obtain ⟨hc, hn, _⟩ := h2 rfl
  refine ⟨hc, hn, h1.1, ?_, ?_, ?_⟩
  · intro hfirst g hg
    have hb : s1.scanNextBody o1 = some (Step.ret (Status.FILEEOF, o1, s1)) := by
      cases s1
      simp only at hc hn hfirst
      subst hc hn
      simp [HeapFile.scanNextBody, hfirst]
    exact HeapFile.scanNext_of_ret hb hg
  · intro hfirst g r hr
    obtain ⟨_, _, h3⟩ := HeapFile.scanNext_frame g s1 o1 r.1 r.2.1 r.2.2 hr
    exact h3 hc hfirst
  · intro chain hch hf hfl
    have hy : Yields s1.buf.pages s1 o1 (chainRids s1.buf.pages chain) :=
      yields_restart rfl hf hfl hc hch
    constructor
    · intro hnil
      rw [hnil] at hy
      obtain ⟨N, s2, hN, _⟩ := hy
      exact ⟨N, s2, hN⟩
    · intro r X hX
      rw [hX] at hy
      obtain ⟨N, s2, hN, _⟩ := hy
      exact ⟨N, s2, hN⟩

/-- Witness of C3 (as amended): the cursor on the one-page file after its last
record. -/
theorem scanNext_after_eof_witness :
    onePageAtEnd.curPage = none ∧ onePageAtEnd.curPageNo = -1 ∧
    onePageAtEnd.headerPage = onePageAtLast.headerPage ∧
    (onePageAtEnd.headerPage.firstPage = -1 →
      ∀ g, 1 ≤ g → onePageAtEnd.scanNext g NULLRID = some (Status.FILEEOF, NULLRID, onePageAtEnd)) ∧
    (onePageAtEnd.headerPage.firstPage ≠ -1 → ∀ g r, onePageAtEnd.scanNext g NULLRID = some r →
      ∃ st tl, r.2.2.buf.trace =
        onePageAtEnd.buf.trace ++ BufCall.readPage onePageAtEnd.headerPage.firstPage st :: tl) ∧
    (∀ chain, IsChain onePageAtEnd.buf.pages onePageAtEnd.headerPage.firstPage chain →
      onePageAtEnd.buf.faults = [] → onePageAtEnd.filter = none →
      (chainRids onePageAtEnd.buf.pages chain = [] →
        ∃ N s2, ∀ g, N ≤ g → onePageAtEnd.scanNext g NULLRID = some (Status.FILEEOF, NULLRID, s2)) ∧
      (∀ r X, chainRids onePageAtEnd.buf.pages chain = r :: X →
        ∃ N s2, ∀ g, N ≤ g → onePageAtEnd.scanNext g NULLRID = some (Status.OK, r, s2))) :=
  scanNext_after_eof onePageAtLast NULLRID NULLRID onePageAtEnd 1 rfl

/-- C3 fails as stated: on the one-page file with two records the third `scanNext`
returns `FILEEOF` and leaves page 2 unpinned, and the fourth `scanNext`, called right
after it, returns `OK` with the first record `(2, 0)` again and pins page 2 again. -/
theorem scanNext_eof_not_sticky :
    ∃ s1 s2 s3 s4,
      (HeapFileScan.ctor Status.OK (Status.OK, 1) onePageFile).2.scanNext 2 NULLRID =
        some (Status.OK, ⟨2, 0⟩, s1) ∧
      s1.scanNext 2 ⟨2, 0⟩ = some (Status.OK, ⟨2, 1⟩, s2) ∧
      s2.scanNext 2 ⟨2, 1⟩ = some (Status.FILEEOF, ⟨2, 1⟩, s3) ∧
      s3.scanNext 2 ⟨2, 1⟩ = some (Status.OK, ⟨2, 0⟩, s4) ∧
      s3.buf.pinCnt 2 = 0 ∧ s4.buf.pinCnt 2 = 1 :=
  ⟨_, _, _, _, rfl, rfl, rfl, rfl, rfl, rfl⟩

theorem isChain_two {P : Int → Option Page} (a b : Int) (pa pb : Page)
    (ha : P a = some pa) (hb : P b = some pb) (hab : pa.nextPage = b)
    (hbe : pb.nextPage = -1) (ha1 : a ≠ -1) (hb1 : b ≠ -1) : IsChain P a [a, b] := by
  simp [IsChain, ha, hb, hab, hbe, ha1, hb1]

theorem isChain_one {P : Int → Option Page} (a : Int) (pa : Page)
    (ha : P a = some pa) (hae : pa.nextPage = -1) (ha1 : a ≠ -1) : IsChain P a [a] := by
  simp [IsChain, ha, hae, ha1]

/-- C2 fails on the code: the two-page file has the chain 2, 3 and, with pages of 1024
bytes and 20 bytes of fixed overhead, page 2 is full.  A freshly opened insert cursor
holds page 2 (the first page) pinned, so the insert of a 50-byte record finds no
space there, allocates page 4 and links it behind page 2 (not behind the last page
3): the call returns `OK`, the chain from `firstPage` is now 2, 4 with `lastPage = 4`,
and page 3, still holding its record, is no longer reachable, while `recCnt` counts
three records. -/
theorem insertRecord_fresh_cursor_drops_page :
    IsChain twoPageFile.buf.pages twoPageFile.headerPage.firstPage [2, 3] ∧
    twoPageFile.headerPage.lastPage = 3 ∧
    (InsertFileScan.ctor Status.OK (Status.OK, 1) twoPageFile).1 = Status.OK ∧
    ∃ s1, (InsertFileScan.ctor Status.OK (Status.OK, 1) twoPageFile).2.insertRecord 1024 20
          rec50 NULLRID = some (Status.OK, ⟨4, 0⟩, s1) ∧
      IsChain s1.buf.pages s1.headerPage.firstPage [2, 4] ∧
      s1.headerPage.lastPage = 4 ∧
      s1.buf.pages 3 = some ⟨[some rec10], -1, 3⟩ ∧
      s1.headerPage.recCnt = 3 ∧ chainLive s1.buf.pages [2, 4] = 2 := by
  refine ⟨twoPages_isChain, rfl, rfl, _, rfl, ?_, rfl, rfl, rfl, rfl⟩
  exact isChain_two 2 4 ⟨[some rec1000], 4, 2⟩ ⟨[some rec50], -1, 4⟩ rfl rfl rfl rfl
    (by decide) (by decide)

/-- C5 fails on the code: on the one-page file (two live records, `recCnt = 2`) a scan
cursor is positioned on record `(2, 0)`.  The first `deleteRecord` returns `OK` and
keeps `recCnt` equal to the number of live records (1).  The second `deleteRecord` at
the same position fails in the page (`INVALIDSLOTNO`) and still decrements `recCnt`:
the header then says 0 while the chain holds one live record. -/
theorem deleteRecord_twice_miscounts :
    ∃ s1 s2 s3,
      (HeapFileScan.ctor Status.OK (Status.OK, 1) onePageFile).2.scanNext 2 NULLRID =
        some (Status.OK, ⟨2, 0⟩, s1) ∧
      IsChain s1.buf.pages s1.headerPage.firstPage [2] ∧
      s1.headerPage.recCnt = 2 ∧ chainLive s1.buf.pages [2] = 2 ∧
      s1.deleteRecord = some (Status.OK, s2) ∧
      s2.headerPage.recCnt = 1 ∧ chainLive s2.buf.pages [2] = 1 ∧
      s2.deleteRecord = some (Status.INVALIDSLOTNO, s3) ∧
      IsChain s3.buf.pages s3.headerPage.firstPage [2] ∧
      s3.headerPage.recCnt = 0 ∧ chainLive s3.buf.pages [2] = 1 := by
  refine ⟨_, _, _, rfl, ?_, rfl, rfl, rfl, rfl, rfl, rfl, ?_, rfl, rfl⟩
  · exact isChain_one 2 ⟨[some rec10, some rec50], -1, 2⟩ rfl rfl (by decide)
  · exact isChain_one 2 ⟨[none, some rec50], -1, 2⟩ rfl rfl (by decide)

/-- C6 fails on the code: on the one-page file, behind a buffer manager whose third
pin request fails, the cursor is positioned on `(2, 0)` of page 2 and marked, and
right after the mark `scanNext` returns `(2, 1)`.  Three `scanNext` calls follow:
`(2, 1)`, `FILEEOF`, and a call that starts over at page 2 and fails to pin it,
returning the error with `curPageNo = 2` and `curPage` null.  `resetScan` then sees
`markedPageNo = curPageNo`, pins nothing and returns `OK`: the cursor has no current
page, and the next `scanNext` returns `(2, 0)`, not `(2, 1)`. -/
theorem resetScan_after_failed_pin :
    ∃ s1 m s2 s3 s4 s5 s6 s7,
      (HeapFileScan.ctor Status.OK (Status.OK, 1) onePageFaulty).2.scanNext 2 NULLRID =
        some (Status.OK, ⟨2, 0⟩, s1) ∧
      s1.curPage = some 2 ∧ s1.curPageNo = 2 ∧ s1.curRec = ⟨2, 0⟩ ∧
      s1.markScan = (Status.OK, m) ∧
      m.scanNext 2 ⟨2, 0⟩ = some (Status.OK, ⟨2, 1⟩, s2) ∧
      s2.scanNext 2 ⟨2, 1⟩ = some (Status.FILEEOF, ⟨2, 1⟩, s3) ∧
      s3.scanNext 2 ⟨2, 1⟩ = some (Status.UNIXERR, ⟨2, 1⟩, s4) ∧
      s4.curPage = none ∧ s4.curPageNo = 2 ∧
      s4.resetScan = (Status.OK, s5) ∧
      s5.buf.trace = s4.buf.trace ∧
      s5.curPage = none ∧ s5.curRec = ⟨2, 0⟩ ∧
      s5.scanNext 2 ⟨2, 1⟩ = some (Status.OK, ⟨2, 0⟩, s6) ∧
      m.scanNext 2 ⟨2, 1⟩ = some (Status.OK, ⟨2, 1⟩, s7) :=
  ⟨_, _, _, _, _, _, _, _, rfl, rfl, rfl, rfl, rfl, rfl, rfl, rfl, rfl, rfl, rfl, rfl, rfl, rfl,
    rfl, rfl⟩

/-! ### Deleting the record under the cursor -/

theorem Page.firstRecord_ok {pg : Page} {x : RID} (h : (pg.firstRecord x).1 = Status.OK) :
    (pg.firstRecord x).2.pageNo = pg.curPage := by
  unfold Page.firstRecord at h ⊢
  split
  · rfl
  · rename_i hn
    simp [hn] at h

theorem Page.nextRecord_ok {pg : Page} {x y : RID} (h : (pg.nextRecord x y).1 = Status.OK) :
    (pg.nextRecord x y).2.pageNo = pg.curPage := by
  unfold Page.nextRecord at h ⊢
  split
  · rfl
  · rename_i hn
    simp [hn] at h

theorem HeapFile.scanNextTail_ok {st : Status} {s t : HeapFile} {o r : RID}
    (h : s.scanNextTail st o = some (Step.ret (Status.OK, r, t))) :
    t = s ∧ r = s.curRec ∧ st = Status.OK ∧
      ∃ pg rec, s.curFrame = some pg ∧ pg.getRecord s.curRec = some rec := by
  unfold HeapFile.scanNextTail at h
  split at h
  · cases h
  · rename_i hst
    split at h
    · cases h
    · rename_i pg hpg
      split at h
      · cases h
      · rename_i rec hrec
        split at h
        · cases h
          exact ⟨rfl, rfl, not_not.mp hst, pg, rec, hpg, hrec⟩
        · cases h

theorem HeapFile.scanNextPin_ok {s t : HeapFile} {o r : RID}
    (h : s.scanNextPin o = some (Step.ret (Status.OK, r, t))) : Positioned t r := by
  unfold HeapFile.scanNextPin at h
  simp only at h
  split at h
  · rename_i hne
    simp only [Option.some.injEq, Step.ret.injEq, Prod.mk.injEq] at h
    exact absurd h.1 hne
  · split at h
    · cases h
    · rename_i pg hpg
      obtain ⟨h1, h2, h3, pg1, rec, h4, h5⟩ := HeapFile.scanNextTail_ok h
      subst h1
      have h4b : (s.buf.readPage s.curPageNo).2.pages s.curPageNo = some pg1 := h4
      rw [hpg] at h4b
      cases h4b
      refine ⟨s.curPageNo, pg, rfl, hpg, h2.symm, ?_, ?_⟩
      · rw [h2]; exact Page.firstRecord_ok h3
      · rw [h2]
        simp only [Page.getRecord] at h5
        simp [h5]

theorem HeapFile.scanNextBody_ok {s t : HeapFile} {o r : RID}
    (h : s.scanNextBody o = some (Step.ret (Status.OK, r, t))) : Positioned t r := by
  unfold HeapFile.scanNextBody at h
  split at h
  · split at h
    · cases h
    · exact HeapFile.scanNextPin_ok h
  · rename_i p hcur
    split at h
    · cases h
    · rename_i pg hpg
      split at h
      · rename_i hok
        obtain ⟨h1, h2, _, pg1, rec, h4, h5⟩ := HeapFile.scanNextTail_ok h
        subst h1
        have h4b : s.buf.pages p = some pg1 := by
          have := h4
          simp only [HeapFile.curFrame, hcur] at this
          exact this
        rw [hpg] at h4b
        cases h4b
        refine ⟨p, pg, hcur, hpg, h2.symm, ?_, ?_⟩
        · rw [h2]; exact Page.nextRecord_ok hok
        · rw [h2]
          simp only [Page.getRecord] at h5
          simp [h5]
      · simp only at h
        split at h
        · cases h
        · exact HeapFile.scanNextPin_ok h

theorem HeapFile.scanNext_ok (f : Nat) :
    ∀ (s t : HeapFile) (o r : RID), s.scanNext f o = some (Status.OK, r, t) →
      Positioned t r := by
  induction f with
  | zero => intro s t o r h; simp [HeapFile.scanNext] at h
  | succ n ih =>
    intro s t o r h
    simp only [HeapFile.scanNext] at h
    split at h
    · cases h
    · rename_i r0 hb
      cases h
      exact HeapFile.scanNextBody_ok hb
    · exact ih _ _ _ _ h

theorem onePage_isChain : IsChain onePage 2 [2] := by
  simp [IsChain, onePage]

theorem HeapFile.matchRec_congr {a b : HeapFile} (h : SamePred a b) (rec : Record) :
    a.matchRec rec = b.matchRec rec := by
  obtain ⟨h1, h2, h3, h4, h5⟩ := h
  simp only [HeapFile.matchRec, HeapFile.matchDiff, h1, h2, h3, h4, h5]

theorem BufMgr.readPage_congr {a b : BufMgr} (hp : a.pages = b.pages)
    (hf : a.faults = b.faults) (q : Int) : (a.readPage q).1 = (b.readPage q).1 := by
  simp only [BufMgr.readPage, BufMgr.faultNow, hp, hf]
  split
  · rfl
  · split <;> rfl

theorem HeapFile.scanNextTail_congr {a b : HeapFile} (h : SameView a b) (st : Status)
    (o : RID) : StepSame (a.scanNextTail st o) (b.scanNextTail st o) := by
  obtain ⟨h1, h2, h3, h4, h5, h6⟩ := h
  have hv : SameView a b := ⟨h1, h2, h3, h4, h5, h6⟩
  have hm := HeapFile.matchRec_congr h6
  have hfr : a.curFrame = b.curFrame := by simp only [HeapFile.curFrame, h1, h3]
  unfold HeapFile.scanNextTail
  by_cases hst : st ≠ Status.OK
  · rw [if_pos hst, if_pos hst]
    exact hv
  · rw [if_neg hst, if_neg hst, hfr]
    cases hx : b.curFrame with
    | none => trivial
    | some pg =>
      simp only
      rw [h2]
      cases hy : pg.getRecord b.curRec with
      | none => exact ⟨rfl, rfl, hv⟩
      | some rec =>
        simp only
        rw [hm]
        by_cases hmr : b.matchRec rec = true
        · rw [if_pos hmr, if_pos hmr]
          exact ⟨rfl, rfl, hv⟩
        · rw [if_neg hmr, if_neg hmr]
          exact hv

theorem HeapFile.scanNextPin_congr {a b : HeapFile} (h : SameView a b)
    (hq : a.curPageNo = b.curPageNo) (o : RID) :
    StepSame (a.scanNextPin o) (b.scanNextPin o) := by
  obtain ⟨h1, h2, h3, h4, h5, h6⟩ := h
  have hst : (a.buf.readPage a.curPageNo).1 = (b.buf.readPage b.curPageNo).1 := by
    rw [hq]; exact BufMgr.readPage_congr h3 h4 b.curPageNo
  have hpg : (a.buf.readPage a.curPageNo).2.pages = (b.buf.readPage b.curPageNo).2.pages := by
    rw [BufMgr.readPage_pages, BufMgr.readPage_pages, h3]
  have hfl : (a.buf.readPage a.curPageNo).2.faults = (b.buf.readPage b.curPageNo).2.faults := by
    rw [BufMgr.readPage_faults, BufMgr.readPage_faults, h4]
  unfold HeapFile.scanNextPin
  simp only
  by_cases hne : (a.buf.readPage a.curPageNo).1 ≠ Status.OK
  · have hne2 : (b.buf.readPage b.curPageNo).1 ≠ Status.OK := by rw [← hst]; exact hne
    rw [if_pos hne, if_pos hne2]
    exact ⟨hst, rfl, h1, h2, hpg, hfl, h5, h6⟩
  · have hne2 : ¬ (b.buf.readPage b.curPageNo).1 ≠ Status.OK := by rw [← hst]; exact hne
    rw [if_neg hne, if_neg hne2]
    have hx2 : (a.buf.readPage a.curPageNo).2.pages a.curPageNo =
        (b.buf.readPage b.curPageNo).2.pages b.curPageNo := by rw [hpg, hq]
    cases hx : (b.buf.readPage b.curPageNo).2.pages b.curPageNo with
    | none =>
      rw [hx] at hx2
      simp only [hx2]
      trivial
    | some pg =>
      rw [hx] at hx2
      simp only [hx2]
      rw [h2]
      refine HeapFile.scanNextTail_congr ?_ _ o
      refine ⟨?_, ?_, ?_, ?_, ?_, ?_⟩
      · exact congrArg some hq
      · rfl
      · exact hpg
      · exact hfl
      · exact h5
      · exact h6

theorem HeapFile.scanNextBody_congr {a b : HeapFile} (h : SameView a b) (o : RID) :
    StepSame (a.scanNextBody o) (b.scanNextBody o) := by
  obtain ⟨h1, h2, h3, h4, h5, h6⟩ := h
  unfold HeapFile.scanNextBody
  cases hc : b.curPage with
  | none =>
    have hca : a.curPage = none := by rw [h1, hc]
    simp only [hca]
    by_cases hf : b.headerPage.firstPage = -1
    · have hfa : a.headerPage.firstPage = -1 := by rw [h5, hf]
      rw [if_pos hf, if_pos hfa]
      exact ⟨rfl, rfl, rfl, h2, h3, h4, h5, h6⟩
    · have hfa : ¬ a.headerPage.firstPage = -1 := by rw [h5]; exact hf
      rw [if_neg hf, if_neg hfa]
      refine HeapFile.scanNextPin_congr ?_ ?_ o
      · exact ⟨rfl, h2, h3, h4, h5, h6⟩
      · exact h5
  | some p =>
    have hca : a.curPage = some p := by rw [h1, hc]
    simp only [hca]
    have hpp : a.buf.pages p = b.buf.pages p := by rw [h3]
    cases hx : b.buf.pages p with
    | none =>
      rw [hx] at hpp
      simp only [hpp]
      trivial
    | some pg =>
      rw [hx] at hpp
      simp only [hpp]
      rw [h2]
      by_cases hn : (pg.nextRecord b.curRec NULLRID).1 = Status.OK
      · rw [if_pos hn, if_pos hn]
        refine HeapFile.scanNextTail_congr ?_ _ o
        exact ⟨rfl, rfl, h3, h4, h5, h6⟩
      · rw [if_neg hn, if_neg hn]
        have hup : (a.buf.unPinPage a.curPageNo a.curDirtyFlag).2.pages =
            (b.buf.unPinPage b.curPageNo b.curDirtyFlag).2.pages := by
          rw [BufMgr.unPinPage_pages, BufMgr.unPinPage_pages, h3]
        have huf : (a.buf.unPinPage a.curPageNo a.curDirtyFlag).2.faults =
            (b.buf.unPinPage b.curPageNo b.curDirtyFlag).2.faults := by
          rw [BufMgr.unPinPage_faults, BufMgr.unPinPage_faults, h4]
        by_cases he : pg.getNextPage.1 ≠ Status.OK ∨ pg.getNextPage.2 = -1
        · rw [if_pos he, if_pos he]
          exact ⟨rfl, rfl, rfl, rfl, hup, huf, h5, h6⟩
        · rw [if_neg he, if_neg he]
          refine HeapFile.scanNextPin_congr ?_ ?_ o
          · exact ⟨rfl, rfl, hup, huf, h5, h6⟩
          · rfl

theorem HeapFile.scanNext_congr (f : Nat) :
    ∀ (a b : HeapFile) (o : RID), SameView a b →
      ResultSame (a.scanNext f o) (b.scanNext f o) := by
  induction f with
  | zero => intro a b o _; simp [HeapFile.scanNext, ResultSame]
  | succ n ih =>
    intro a b o h
    have hb := HeapFile.scanNextBody_congr h o
    simp only [HeapFile.scanNext]
    cases ha : a.scanNextBody o with
    | none =>
      cases hb2 : b.scanNextBody o with
      | none => trivial
      | some y => rw [ha, hb2] at hb; cases y <;> exact hb.elim
    | some x =>
      cases hb2 : b.scanNextBody o with
      | none => rw [ha, hb2] at hb; cases x <;> exact hb.elim
      | some y =>
        rw [ha, hb2] at hb
        cases x with
        | ret x =>
          cases y with
          | ret y => exact hb
          | again u => exact hb.elim
        | again t =>
          cases y with
          | ret y => exact hb.elim
          | again u => exact ih t u o hb

/-! ### Mark and reset -/

theorem HeapFile.scanNextPin_agree {s : HeapFile} {o : RID}
    {x : Step (Status × RID × HeapFile) HeapFile} (hc : s.curPage = none)
    (h : s.scanNextPin o = some x) : CurAgree (stepState x) := by
  unfold HeapFile.scanNextPin at h
  simp only at h
  split at h
  · cases h
    intro q hq
    simp only [stepState] at hq
    rw [hc] at hq
    cases hq
  · split at h
    · cases h
    · obtain ⟨h1, _⟩ := HeapFile.scanNextTail_state h
      rw [h1]
      intro q hq
      exact Option.some.inj hq

theorem HeapFile.scanNextBody_agree {s : HeapFile} {o : RID}
    {x : Step (Status × RID × HeapFile) HeapFile} (hinv : CurAgree s)
    (h : s.scanNextBody o = some x) : CurAgree (stepState x) := by
  unfold HeapFile.scanNextBody at h
  split at h
  · rename_i hcur
    split at h
    · cases h
      intro q hq
      simp only [stepState] at hq
      rw [hcur] at hq
      cases hq
    · refine HeapFile.scanNextPin_agree ?_ h
      exact hcur
  · rename_i p hcur
    split at h
    · cases h
    · split at h
      · obtain ⟨h1, _⟩ := HeapFile.scanNextTail_state h
        rw [h1]
        exact hinv
      · simp only at h
        split at h
        · cases h
          intro q hq
          cases hq
        · refine HeapFile.scanNextPin_agree ?_ h
          rfl

theorem HeapFile.scanNext_agree (f : Nat) :
    ∀ (s : HeapFile) (o : RID) (st : Status) (r : RID) (t : HeapFile),
      CurAgree s → s.scanNext f o = some (st, r, t) → CurAgree t := by
  induction f with
  | zero => intro s o st r t _ h; simp [HeapFile.scanNext] at h
  | succ n ih =>
    intro s o st r t hinv h
    simp only [HeapFile.scanNext] at h
    split at h
    · cases h
    · rename_i r0 hb
      cases h
      exact HeapFile.scanNextBody_agree hinv hb
    · rename_i s1 hb
      exact ih s1 o st r t (HeapFile.scanNextBody_agree hinv hb) h

theorem HeapFile.scanNext_curOK {s t : HeapFile} {f : Nat} {o r : RID} {st : Status} {p : Int}
    (hp : p ≠ -1) (hinv : CurAgree s) (h : s.scanNext f o = some (st, r, t))
    (hst : st = Status.OK ∨ st = Status.FILEEOF) : CurOK p t := by
  have hag := HeapFile.scanNext_agree f s o st r t hinv h
  rcases hst with rfl | rfl
  · obtain ⟨q, _, hq, _⟩ := HeapFile.scanNext_ok f s t o r h
    exact Or.inl (by rw [hq, hag q hq])
  · obtain ⟨_, h2, _⟩ := HeapFile.scanNext_frame f s o _ r t h
    obtain ⟨hc, hn, _⟩ := h2 rfl
    exact Or.inr ⟨hc, by rw [hn]; exact fun e => hp e.symm⟩

theorem ScanRun.keeps {s t : HeapFile} {p : Int} (hrun : ScanRun s t) (hp : p ≠ -1)
    (hag : CurAgree s) (hinv : CurOK p s) : CurOK p t ∧ CurAgree t ∧ ScanFrame s t := by
  induction hrun with
  | start => exact ⟨hinv, hag, ScanFrame.refl s⟩
  | next t u f o r st _ hstep hst ih =>
    obtain ⟨_, h2, h3⟩ := ih
    exact ⟨HeapFile.scanNext_curOK hp h2 hstep hst, HeapFile.scanNext_agree f t o st r u h2 hstep,
      ScanFrame.trans h3 (HeapFile.scanNext_frame f t o st r u hstep).1⟩

theorem HeapFile.resetScan_ok {t : HeapFile} (hinv : CurOK t.markedPageNo t)
    (hok : t.resetScan.1 = Status.OK) :
    t.resetScan.2.curPage = some t.markedPageNo ∧ t.resetScan.2.curPageNo = t.markedPageNo ∧
    t.resetScan.2.curRec = t.markedRec ∧ t.resetScan.2.buf.pages = t.buf.pages ∧
    (t.buf.faults = [] → t.resetScan.2.buf.faults = []) ∧
    t.resetScan.2.headerPage = t.headerPage ∧ SamePred t.resetScan.2 t := by
  have hbp : (if t.curPage ≠ none then (t.buf.unPinPage t.curPageNo t.curDirtyFlag).2
      else t.buf).pages = t.buf.pages := by
    split
    · exact BufMgr.unPinPage_pages _ _ _
    · rfl
  have hbf : (if t.curPage ≠ none then (t.buf.unPinPage t.curPageNo t.curDirtyFlag).2
      else t.buf).faults = t.buf.faults := by
    split
    · exact BufMgr.unPinPage_faults _ _ _
    · rfl
  unfold HeapFile.resetScan at hok ⊢
  simp only at hok ⊢
  by_cases hne : t.markedPageNo ≠ t.curPageNo
  · rw [if_pos hne] at hok ⊢
    by_cases hu : t.curPage ≠ none ∧
        (t.buf.unPinPage t.curPageNo t.curDirtyFlag).1 ≠ Status.OK
    · rw [if_pos hu] at hok
      exact absurd hok hu.2
    · rw [if_neg hu] at hok ⊢
      generalize (if t.curPage ≠ none then (t.buf.unPinPage t.curPageNo t.curDirtyFlag).2
        else t.buf) = B at hok hbp hbf ⊢
      by_cases hr : (B.readPage t.markedPageNo).1 ≠ Status.OK
      · rw [if_pos hr] at hok
        exact absurd hok hr
      · rw [if_neg hr]
        refine ⟨rfl, rfl, rfl, ?_, ?_, rfl, rfl, rfl, rfl, rfl, rfl⟩
        · show (B.readPage t.markedPageNo).2.pages = _
          rw [BufMgr.readPage_pages, hbp]
        · intro hf
          show (B.readPage t.markedPageNo).2.faults = _
          rw [BufMgr.readPage_faults, hbf, hf]
          rfl
  · rw [if_neg hne]
    have he2 : t.markedPageNo = t.curPageNo := not_not.mp hne
    rcases hinv with h1 | ⟨_, h2⟩
    · exact ⟨by simp only [h1, he2], he2.symm, rfl, rfl, id, rfl, rfl, rfl, rfl, rfl, rfl⟩
    · exact absurd he2.symm h2

/-- Mark and reset when no `scanNext` call fails: for every scan cursor positioned on
page `p` (a real page, so `p ≠ -1`) with positioned record id `r`: after `markScan`,
any number of `scanNext` calls that each return a record or `FILEEOF` (on the same
page, across pages, past the end of the file and beyond) and a `resetScan` that
returns `OK`, the cursor has current page `p`, `curPageNo = p` and positioned record
id `r`, and the next `scanNext` returns the status and record id it would have
returned right after `markScan`, whatever the buffer manager does from then on
(`faults`). -/
theorem markScan_resetScan_restores (s t : HeapFile) (p : Int)
    (hcur : s.curPage = some p) (hno : s.curPageNo = p) (hp : p ≠ -1)
    (hrun : ScanRun s.markScan.2 t) (hreset : t.resetScan.1 = Status.OK) :
    t.resetScan.2.curPage = some p ∧ t.resetScan.2.curPageNo = p ∧
    t.resetScan.2.curRec = s.curRec ∧
    ∀ (faults : List Bool) (f : Nat) (o : RID),
      ((t.resetScan.2.withFaults faults).scanNext f o).map (fun x => (x.1, x.2.1)) =
        ((s.markScan.2.withFaults faults).scanNext f o).map (fun x => (x.1, x.2.1)) := by
  have hag0 : CurAgree s.markScan.2 := by
    intro q hq
    simp only [HeapFile.markScan] at hq ⊢
    rw [hcur] at hq
    rw [hno]
    exact Option.some.inj hq
  have hinv0 : CurOK p s.markScan.2 := Or.inl (by simp [HeapFile.markScan, hcur, hno])
  obtain ⟨hinv, _, hfr⟩ := ScanRun.keeps hrun hp hag0 hinv0
  obtain ⟨a1, a2, a3, a4, a5, a6, a7, a8, a9, _, _⟩ := hfr
  have hmp : t.markedPageNo = p := by rw [a8]; simp [HeapFile.markScan, hno]
  have hmr : t.markedRec = s.curRec := by rw [a9]; simp [HeapFile.markScan]
  rw [← hmp] at hinv
  obtain ⟨b1, b2, b3, b4, _, b6, b7⟩ := HeapFile.resetScan_ok hinv hreset
  rw [hmp] at b1 b2
  rw [hmr] at b3
  refine ⟨b1, b2, b3, fun faults f o => ?_⟩
  have hview : SameView (t.resetScan.2.withFaults faults) (s.markScan.2.withFaults faults) := by
    refine ⟨?_, ?_, ?_, rfl, ?_, ?_⟩
    · show t.resetScan.2.curPage = s.markScan.2.curPage
      rw [b1]; simp [HeapFile.markScan, hcur]
    · show t.resetScan.2.curRec = s.markScan.2.curRec
      rw [b3]; simp [HeapFile.markScan]
    · show t.resetScan.2.buf.pages = s.markScan.2.buf.pages
      rw [b4, a2]
    · show t.resetScan.2.headerPage.firstPage = s.markScan.2.headerPage.firstPage
      rw [b6, a1]
    · obtain ⟨c1, c2, c3, c4, c5⟩ := b7
      exact ⟨c1.trans a3, c2.trans a4, c3.trans a5, c4.trans a6, c5.trans a7⟩
  have hres := HeapFile.scanNext_congr f _ _ o hview
  cases hx : (t.resetScan.2.withFaults faults).scanNext f o with
  | none =>
    cases hy : (s.markScan.2.withFaults faults).scanNext f o with
    | none => rfl
    | some y => rw [hx, hy] at hres; exact hres.elim
  | some x =>
    cases hy : (s.markScan.2.withFaults faults).scanNext f o with
    | none => rw [hx, hy] at hres; exact hres.elim
    | some y =>
      rw [hx, hy] at hres
      simp only [Option.map_some', Option.some.injEq, Prod.mk.injEq]
      exact ⟨hres.1, hres.2.1⟩

/-- Example of mark and reset: on the one-page file the cursor is marked on `(2, 0)`,
`scanNext` is called twice (the record `(2, 1)`, then `FILEEOF`, which unpins page 2),
and `resetScan` pins page 2 again. -/
theorem markScan_resetScan_restores_example :
    ∃ t, ScanRun onePageAtFirst.markScan.2 t ∧ t.curPage = none ∧
      t.resetScan.2.curPage = some 2 ∧ t.resetScan.2.curPageNo = 2 ∧
      t.resetScan.2.curRec = onePageAtFirst.curRec ∧
      ∀ (faults : List Bool) (f : Nat) (o : RID),
        ((t.resetScan.2.withFaults faults).scanNext f o).map (fun x => (x.1, x.2.1)) =
          ((onePageAtFirst.markScan.2.withFaults faults).scanNext f o).map
            (fun x => (x.1, x.2.1)) :=
  ⟨_, ScanRun.next _ _ 2 ⟨2, 1⟩ ⟨2, 1⟩ Status.FILEEOF
        (ScanRun.next _ _ 2 NULLRID ⟨2, 1⟩ Status.OK ScanRun.start rfl (Or.inl rfl)) rfl
        (Or.inr rfl),
    rfl,
    markScan_resetScan_restores onePageAtFirst _ 2 rfl rfl (by decide)
      (ScanRun.next _ _ 2 ⟨2, 1⟩ ⟨2, 1⟩ Status.FILEEOF
        (ScanRun.next _ _ 2 NULLRID ⟨2, 1⟩ Status.OK ScanRun.start rfl (Or.inl rfl)) rfl
        (Or.inr rfl)) rfl⟩

/-! ### The scan predicate -/

/-- The length check of `matchRec` is exact as long as `offset + length - 1` is not
below `INT_MIN` and the record's length is what decides: a record at least
`offset + length` bytes long passes it. -/
theorem lengthCheck_passes {off len rlen : Int} (hoff : -2147483648 ≤ off + len - 1)
    (hlong : off + len ≤ rlen) : wrap32 (wrap32 (off + len) - 1) < rlen := by
  unfold wrap32
  omega

/-- As long as `offset + length - 1` fits in an `int`, the length check of `matchRec`
does what its comment says: after a successful `startScan` with a non-null filter,
`matchRec` returns false for every record whose length is less than `offset + length`,
whatever the type and the operator, and a record whose length is exactly
`offset + length` passes the check. -/
theorem matchRec_short_record_fits (s0 s : HeapFile) (off len : Int) (ty : Datatype)
    (fltr : List Nat) (op : Operator) (rec : Record)
    (hstart : s0.startScan off len ty (some fltr) op = (Status.OK, s))
    (hfit : off + len - 1 ≤ 2147483647) :
    (rec.length < off + len → s.matchRec rec = false) ∧
    (rec.length = off + len → s.matchRec rec = opHolds op (s.matchDiff fltr rec)) := by
  have hs : s = { s0 with offset := off, length := len, type := ty, filter := some fltr,
                          op := op } ∧ ¬ (off < 0 ∨ len < 1) := by
    unfold HeapFile.startScan at hstart
    simp only at hstart
    split at hstart
    · cases hstart
    · rename_i hc
      exact ⟨(Prod.mk.inj hstart).2.symm, fun h => hc (Or.inl h)⟩
  obtain ⟨hs, hpos⟩ := hs
  subst hs
  have hw : wrap32 (wrap32 (off + len) - 1) = off + len - 1 := by
    unfold wrap32
    omega
  constructor
  · intro h
    have : off + len - 1 ≥ rec.length := by omega
    simp [HeapFile.matchRec, hw, this]
  · intro h
    have : ¬ off + len - 1 ≥ rec.length := by omega
    simp [HeapFile.matchRec, hw, this]

/-- The predicate "int at offset 0 differs from 5" rejects a record of 3 bytes; "int
at offset 0 equals 5" accepts the record of 4 bytes holding 5. -/
theorem matchRec_short_record_fits_example :
    (((⟨[5, 0, 0], 3⟩ : Record).length < 0 + 4 →
        (intScan 5 Operator.NE).matchRec ⟨[5, 0, 0], 3⟩ = false) ∧
      ((⟨[5, 0, 0], 3⟩ : Record).length = 0 + 4 →
        (intScan 5 Operator.NE).matchRec ⟨[5, 0, 0], 3⟩ =
          opHolds Operator.NE ((intScan 5 Operator.NE).matchDiff (encodeInt 5) ⟨[5, 0, 0], 3⟩))) ∧
    (intScan 5 Operator.NE).matchRec ⟨[5, 0, 0], 3⟩ = false ∧
    (intScan 5 Operator.EQ).matchRec ⟨[5, 0, 0, 0], 4⟩ = true :=
  ⟨matchRec_short_record_fits (rawHandle (sampleBuf onePage 3) ⟨2, 2, 2, 2⟩)
      (intScan 5 Operator.NE) 0 4 Datatype.INTEGER (encodeInt 5) Operator.NE ⟨[5, 0, 0], 3⟩ rfl
      (by decide),
    by decide, by decide⟩

/-- C11 fails on the code: `startScan(2, 2147483647, STRING, filter, op)` is accepted
(offset 2, length `INT_MAX`).  The record of 4 bytes `9 9 3 4` is shorter than
`offset + length`, yet `matchRec` does not return false: on 32-bit `int`,
`2 + 2147483647 - 1` comes out as `INT_MIN`, which is not `>= 4`, so the check of
line 442 does not fire and the bytes are compared.  The record's byte at offset 2 is
3 and the filter's first byte is 1: `NE` and `GT` answer true. -/
theorem matchRec_length_check_overflow :
    ∃ sNE sGT,
      (rawHandle (sampleBuf onePage 3) ⟨2, 2, 2, 2⟩).startScan 2 2147483647 Datatype.STRING
        (some [1]) Operator.NE = (Status.OK, sNE) ∧
      (rawHandle (sampleBuf onePage 3) ⟨2, 2, 2, 2⟩).startScan 2 2147483647 Datatype.STRING
        (some [1]) Operator.GT = (Status.OK, sGT) ∧
      (⟨[9, 9, 3, 4], 4⟩ : Record).length < 2 + 2147483647 ∧
      wrap32 (wrap32 (2 + 2147483647) - 1) = -2147483648 ∧
      sNE.matchRec ⟨[9, 9, 3, 4], 4⟩ = true ∧
      sGT.matchRec ⟨[9, 9, 3, 4], 4⟩ = true :=
  ⟨_, _, rfl, rfl, by decide, by decide, by decide, by decide⟩

theorem decodeInt_encodeInt (a : Int) (ha : -2147483648 ≤ a ∧ a < 2147483648) :
    decodeInt (encodeInt a) = a := by
  have h0 : 0 ≤ a % 4294967296 := Int.emod_nonneg _ (by decide)
  have h1 : a % 4294967296 < 4294967296 := Int.emod_lt_of_pos _ (by decide)
  obtain ⟨w, hw⟩ : ∃ w : Nat, a % 4294967296 = (w : Int) := ⟨(a % 4294967296).toNat, by omega⟩
  have hw2 : w < 4294967296 := by omega
  simp only [decodeInt, encodeInt, hw, Int.toNat_ofNat, List.take, leNat]
  unfold wrap32
  omega

/-- For type INTEGER and operands whose difference fits in an `int`, the four order
operators agree with the order of the integers. -/
theorem matchRec_integer_order_exact (s : HeapFile) (fltr : List Nat) (rec : Record) (a b : Int)
    (hty : s.type = Datatype.INTEGER) (hf : s.filter = some fltr) (hlen : s.length = 4)
    (hoff : -2147483648 ≤ s.offset)
    (hlong : s.offset + s.length ≤ rec.length)
    (ha : decodeInt (bytesAt rec.data s.offset 4) = a)
    (hb : decodeInt (bytesAt fltr 0 4) = b)
    (hfit : -2147483648 ≤ a - b ∧ a - b < 2147483648) :
    (s.op = Operator.LT → (s.matchRec rec = true ↔ a < b)) ∧
    (s.op = Operator.LTE → (s.matchRec rec = true ↔ a ≤ b)) ∧
    (s.op = Operator.GTE → (s.matchRec rec = true ↔ a ≥ b)) ∧
    (s.op = Operator.GT → (s.matchRec rec = true ↔ a > b)) := by
  have hchk : wrap32 (wrap32 (s.offset + 4) - 1) < rec.length :=
    lengthCheck_passes (by omega) (by omega)
  have hw : wrap32 (a - b) = a - b := by
    unfold wrap32
    omega
  refine ⟨?_, ?_, ?_, ?_⟩ <;> intro hop <;>
    simp [HeapFile.matchRec, hf, hchk, HeapFile.matchDiff, hty, hlen, ha, hb, hop, opHolds, hw]

/-- C13: for type INTEGER, the record holding `INT_MIN` and the filter holding 1 (so
record < filter): `matchRec` answers false for `LT` and `LTE` and true for `GTE` and
`GT`, because the difference `INT_MIN - 1` does not fit in an `int` and comes out as
`INT_MAX`. -/
theorem matchRec_integer_order_overflow :
    decodeInt (encodeInt (-2147483648)) = -2147483648 ∧ decodeInt (encodeInt 1) = 1 ∧
    (intScan 1 Operator.LT).matchRec ⟨encodeInt (-2147483648), 4⟩ = false ∧
    (intScan 1 Operator.LTE).matchRec ⟨encodeInt (-2147483648), 4⟩ = false ∧
    (intScan 1 Operator.GTE).matchRec ⟨encodeInt (-2147483648), 4⟩ = true ∧
    (intScan 1 Operator.GT).matchRec ⟨encodeInt (-2147483648), 4⟩ = true := by
  decide

theorem lexLt_irrefl : ∀ l : List Nat, lexLt l l = false
  | [] => rfl
  | x :: l => by simp [lexLt, lexLt_irrefl l]

/-- The comparison `strncmp a b n` is the lexicographic comparison of the first `n`
bytes unless it is cut short: unless the two sequences hold a zero byte at the same
position, agree before it and differ after it. -/
theorem strncmp_exact : ∀ (n : Nat) (a b : List Nat), n ≤ a.length → n ≤ b.length →
    (∀ z, z < n → a[z]? = some 0 → b[z]? = some 0 → a.take z = b.take z →
      a.take n = b.take n) →
    (strncmp a b n = 0 ↔ a.take n = b.take n) ∧
    (strncmp a b n < 0 ↔ lexLt (a.take n) (b.take n) = true)
  | 0, a, b, _, _, _ => by simp [strncmp, lexLt]
  | n + 1, [], _, ha, _, _ => by simp at ha
  | n + 1, _ :: _, [], _, hb, _ => by simp at hb
  | n + 1, x :: a, y :: b, ha, hb, hz => by
    by_cases hxy : x = y
    · subst hxy
      by_cases hx : x = 0
      · subst hx
        have h0 := hz 0 (by omega) (by simp) (by simp) (by simp)
        simp only [List.take_succ_cons, List.cons.injEq, true_and] at h0
        simp [strncmp, lexLt, h0, lexLt_irrefl]
      · have ih := strncmp_exact n a b (by simpa using ha) (by simpa using hb)
          (fun z hzn h1 h2 h3 => by
            have := hz (z + 1) (by omega) (by simpa using h1) (by simpa using h2)
              (by simp [h3])
            simpa using this)
        simp [strncmp, lexLt, hx, ih]
    · simp [strncmp, lexLt, hxy]
      omega

/-- C14 as stated fails: with `L = 3`, the record bytes `a \0 b` and the filter bytes
`a \0 c` differ in their third byte and the record comes first lexicographically, yet
`EQ` answers true and `LT` answers false: the comparison stops at the zero byte. -/
theorem matchRec_string_stops_at_zero :
    ([97, 0, 98] : List Nat) ≠ [97, 0, 99] ∧ lexLt [97, 0, 98] [97, 0, 99] = true ∧
    (strScan [97, 0, 99] Operator.EQ).matchRec ⟨[97, 0, 98], 3⟩ = true ∧
    (strScan [97, 0, 99] Operator.LT).matchRec ⟨[97, 0, 98], 3⟩ = false := by
  decide

/-- C14, amended: for type STRING with length `L`, a non-negative offset, a record
long enough and a filter of at least `L` bytes, of arbitrary contents but for one
case: the record's `L` bytes at the offset and the filter's first `L` bytes do not
agree up to and including a zero byte and differ after it (`hz`: whenever both hold a
zero byte at the same position and agree before it, they agree on all `L` bytes).
Then `EQ` answers true exactly when all `L` bytes are equal, and `LT` exactly when
the `L` bytes of the record come before the first `L` bytes of the filter in
lexicographic byte order. -/
theorem matchRec_string_compare (s : HeapFile) (fltr : List Nat) (rec : Record) (L : Nat)
    (hty : s.type = Datatype.STRING) (hf : s.filter = some fltr) (hlen : s.length = (L : Int))
    (hoff : 0 ≤ s.offset)
    (hlong : s.offset + s.length ≤ rec.length)
    (hdata : s.offset.toNat + L ≤ rec.data.length) (hfl : L ≤ fltr.length)
    (hz : ∀ z, z < L → (rec.data.drop s.offset.toNat)[z]? = some 0 → fltr[z]? = some 0 →
      (rec.data.drop s.offset.toNat).take z = fltr.take z →
      (rec.data.drop s.offset.toNat).take L = fltr.take L) :
    (s.op = Operator.EQ →
      (s.matchRec rec = true ↔ (rec.data.drop s.offset.toNat).take L = fltr.take L)) ∧
    (s.op = Operator.LT →
      (s.matchRec rec = true ↔
        lexLt ((rec.data.drop s.offset.toNat).take L) (fltr.take L) = true)) := by
  have hchk : wrap32 (wrap32 (s.offset + (L : Int)) - 1) < rec.length :=
    lengthCheck_passes (by omega) (by omega)
  have hsp := strncmp_exact L (rec.data.drop s.offset.toNat) fltr
    (by rw [List.length_drop]; omega) hfl hz
  constructor <;> intro hop <;>
    simp [HeapFile.matchRec, hf, hchk, HeapFile.matchDiff, hty, hlen, hop, opHolds, hsp]

/-- Witness of C14 (amended): the record bytes `a b \0` against the filter `a b c`
(a zero byte in the record only), and the record bytes `a \0 b` against the equal
filter `a \0 b` (a common zero byte, nothing differs after it). -/
theorem matchRec_string_compare_witness :
    (((strScan [97, 98, 99] Operator.LT).op = Operator.EQ →
        ((strScan [97, 98, 99] Operator.LT).matchRec ⟨[97, 98, 0], 3⟩ = true ↔
          (([97, 98, 0] : List Nat).drop (0 : Int).toNat).take 3
            = ([97, 98, 99] : List Nat).take 3)) ∧
      ((strScan [97, 98, 99] Operator.LT).op = Operator.LT →
        ((strScan [97, 98, 99] Operator.LT).matchRec ⟨[97, 98, 0], 3⟩ = true ↔
          lexLt ((([97, 98, 0] : List Nat).drop (0 : Int).toNat).take 3)
            (([97, 98, 99] : List Nat).take 3) = true))) ∧
    (strScan [97, 98, 99] Operator.LT).matchRec ⟨[97, 98, 0], 3⟩ = true ∧
    (strScan [97, 0, 98] Operator.EQ).matchRec ⟨[97, 0, 98], 3⟩ = true :=
  ⟨matchRec_string_compare (strScan [97, 98, 99] Operator.LT) [97, 98, 99] ⟨[97, 98, 0], 3⟩ 3
      rfl rfl rfl (by decide) (by decide) (by decide) (by decide) (by decide),
    by decide,
    ((matchRec_string_compare (strScan [97, 0, 98] Operator.EQ) [97, 0, 98] ⟨[97, 0, 98], 3⟩ 3
      rfl rfl rfl (by decide) (by decide) (by decide) (by decide) (by decide)).1 rfl).mpr rfl⟩

/-! ### Pins -/

theorem BufMgr.readPage_pinCnt (b : BufMgr) (p x : Int) :
    (b.readPage p).2.pinCnt x =
      b.pinCnt x + (if (b.readPage p).1 = Status.OK ∧ x = p then 1 else 0) := by
  unfold BufMgr.readPage
  split
  · simp
  · split
    · simp
    · by_cases hx : x = p
      · subst hx; simp
      · simp [Function.update_noteq hx, hx]

theorem BufMgr.unPinPage_pinCnt (b : BufMgr) (p : Int) (d : Bool) (x : Int) :
    (b.unPinPage p d).2.pinCnt x = b.pinCnt x - (if x = p then 1 else 0) := by
  unfold BufMgr.unPinPage
  split
  · rename_i h
    by_cases hx : x = p
    · subst hx; simp [h]
    · simp [hx]
  · by_cases hx : x = p
    · subst hx; simp
    · simp [Function.update_noteq hx, hx]

/-- C19 as stated fails: after the constructor and one `scanNext` on the one-page
file the cursor stands on record `(2, 0)`; `endScan` then returns `OK` and leaves
`curPageNo = 0`, which is not NONE (`-1`), and `curRec = (2, 0)`, which is not the
null record id. -/
theorem endScan_keeps_position :
    ∃ t, onePageScanned = some (Status.OK, ⟨2, 0⟩, t) ∧
      t.endScan.1 = Status.OK ∧ t.endScan.2.curPage = none ∧
      t.endScan.2.curPageNo = 0 ∧ (0 : Int) ≠ -1 ∧
      t.endScan.2.curRec = ⟨2, 0⟩ ∧ (⟨2, 0⟩ : RID) ≠ NULLRID :=
  ⟨_, rfl, rfl, rfl, rfl, by decide, rfl, by decide⟩

/-- C19, amended: `endScan` on a cursor with a current page unpins that page with the
cursor's dirty flag, returns the status of that call and clears the dirty flag;
afterwards the cursor has no current page, and the positioned record id is what it
was.  A second `endScan`, and any `endScan` on a cursor without a current page, returns
`OK`, makes no buffer-manager call and leaves the state unchanged. -/
theorem endScan_releases_and_idempotent (s : HeapFile) :
    (s.curPage ≠ none →
      s.endScan.1 = (s.buf.unPinPage s.curPageNo s.curDirtyFlag).1 ∧
      s.endScan.2.buf = (s.buf.unPinPage s.curPageNo s.curDirtyFlag).2 ∧
      s.endScan.2.buf.trace =
        s.buf.trace ++ [BufCall.unPinPage s.curPageNo s.curDirtyFlag s.endScan.1] ∧
      s.endScan.2.curDirtyFlag = false) ∧
    s.endScan.2.curPage = none ∧ s.endScan.2.curRec = s.curRec ∧
    s.endScan.2.endScan = (Status.OK, s.endScan.2) ∧
    (s.curPage = none → s.endScan = (Status.OK, s)) := by
  by_cases h : s.curPage = none
  · have he : s.endScan = (Status.OK, s) := by
      unfold HeapFile.endScan
      rw [if_neg (by simpa using h)]
    refine ⟨fun h2 => absurd h h2, ?_, ?_, ?_, fun _ => he⟩
    · rw [he]; exact h
    · rw [he]
    · rw [he]; exact he
  · have he : s.endScan = ((s.buf.unPinPage s.curPageNo s.curDirtyFlag).1,
        { s with buf := (s.buf.unPinPage s.curPageNo s.curDirtyFlag).2,
                 curPage := none, curPageNo := 0, curDirtyFlag := false }) := by
      unfold HeapFile.endScan
      rw [if_pos h]
    refine ⟨fun _ => ?_, ?_, ?_, ?_, fun h2 => absurd h2 h⟩
    · rw [he]
      exact ⟨rfl, rfl, BufMgr.unPinPage_trace _ _ _, rfl⟩
    · rw [he]
    · rw [he]
    · rw [he]
      unfold HeapFile.endScan
      simp

/-! ### `getRecord` by record id -/

theorem BufMgr.setPage_blank (b : BufMgr) (n : Int) (pg : Page) :
    (b.setPage n pg).blank = b.blank := rfl

/-- C20 fails on the code: on the two-page file, with a buffer manager whose fourth
pin request fails, the scan is opened (pins of pages 1 and 2), yields `(2, 0)`, is
marked there and yields `(3, 0)`, holding page 3.  `resetScan` unpins page 3 and fails
to pin page 2: it returns the error with `curPage` still the non-null pointer to the
frame of page 3 and `curPageNo = 2`, while the handle holds no pin on page 2 nor on
page 3.  `getRecord` for page 2 from the same state, whose pin fails likewise, leaves
`curPage` null. -/
theorem resetScan_failed_pin_keeps_curPage :
    ∃ s1 s2 s3 s4 s5,
      (HeapFileScan.ctor Status.OK (Status.OK, 1) twoPageFaulty).1 = Status.OK ∧
      (HeapFileScan.ctor Status.OK (Status.OK, 1) twoPageFaulty).2.scanNext 3 NULLRID
        = some (Status.OK, ⟨2, 0⟩, s1) ∧
      s1.markScan = (Status.OK, s2) ∧
      s2.scanNext 3 NULLRID = some (Status.OK, ⟨3, 0⟩, s3) ∧
      s3.curPage = some 3 ∧ s3.curPageNo = 3 ∧ s3.buf.pinCnt 3 = 1 ∧ s3.buf.pinCnt 2 = 0 ∧
      s3.resetScan = (Status.UNIXERR, s4) ∧
      s4.curPage = some 3 ∧ s4.curPageNo = 2 ∧ s4.buf.pinCnt 2 = 0 ∧ s4.buf.pinCnt 3 = 0 ∧
      s3.getRecord ⟨2, 0⟩ = some (Status.UNIXERR, none, s5) ∧
      s5.curPage = none ∧ s5.buf.pinCnt 2 = 0 ∧ s5.buf.pinCnt 3 = 0 :=
  ⟨_, _, _, _, _, rfl, rfl, rfl, rfl, rfl, rfl, rfl, rfl, rfl, rfl, rfl, rfl, rfl, rfl, rfl,
    rfl, rfl⟩

/-! ### Pins held when a handle is closed -/

theorem PinsLe.mono {base : Int → Nat} {b : BufMgr} {h : Int} (c : Option Int)
    (hp : PinsLe base b h none) : PinsLe base b h c := by
  intro x
  have := hp x
  simp only [reduceCtorEq, if_false] at this
  omega

theorem PinsLe.unPin {base : Int → Nat} {b : BufMgr} {h q : Int} (d : Bool)
    (hp : PinsLe base b h (some q)) : PinsLe base (b.unPinPage q d).2 h none := by
  intro x
  have := hp x
  rw [BufMgr.unPinPage_pinCnt]
  simp only [reduceCtorEq, if_false]
  by_cases hx : x = q
  · subst hx
    simp only [if_true] at this ⊢
    omega
  · have hx2 : ¬ some q = some x := fun h => hx (Option.some.inj h).symm
    simp only [hx, hx2, if_false] at this ⊢
    omega

theorem PinsLe.unPin_any {base : Int → Nat} {b : BufMgr} {h : Int} {c : Option Int} (q : Int)
    (d : Bool) (hp : PinsLe base b h c) : PinsLe base (b.unPinPage q d).2 h c := by
  intro x
  have := hp x
  rw [BufMgr.unPinPage_pinCnt]
  omega

theorem PinsLe.read {base : Int → Nat} {b : BufMgr} {h : Int} (n : Int)
    (hp : PinsLe base b h none) : PinsLe base (b.readPage n).2 h (some n) := by
  intro x
  have := hp x
  rw [BufMgr.readPage_pinCnt]
  simp only [reduceCtorEq, if_false] at this
  by_cases hx : x = n
  · subst hx
    simp only [if_true]
    split <;> omega
  · have hx2 : ¬ some n = some x := fun h => hx (Option.some.inj h).symm
    simp only [hx, hx2, and_false, if_false]
    omega

theorem PinsLe.read_fail {base : Int → Nat} {b : BufMgr} {h : Int} {c : Option Int} {n : Int}
    (hp : PinsLe base b h c) (hf : (b.readPage n).1 ≠ Status.OK) :
    PinsLe base (b.readPage n).2 h c := by
  intro x
  have := hp x
  rw [BufMgr.readPage_pinCnt]
  simp only [hf, false_and, if_false]
  omega

theorem PinsLe.of_pinCnt {base : Int → Nat} {b b2 : BufMgr} {h : Int} {c : Option Int}
    (hp : PinsLe base b h c) (he : b2.pinCnt = b.pinCnt) : PinsLe base b2 h c := by
  intro x
  rw [he]
  exact hp x

theorem Covered.of_eq {base : Int → Nat} {hdr : Int} {s t : HeapFile} (hc : Covered base hdr s)
    (h1 : t.buf.pinCnt = s.buf.pinCnt) (h2 : t.headerPageNo = s.headerPageNo)
    (h3 : t.curPage = s.curPage) (h4 : t.curPageNo = s.curPageNo) : Covered base hdr t := by
  refine ⟨h2.trans hc.1, ?_⟩
  have : t.tracked = s.tracked := by
    unfold HeapFile.tracked
    rw [h3, h4]
  rw [this]
  exact hc.2.of_pinCnt h1

theorem Covered.released {base : Int → Nat} {hdr : Int} {s : HeapFile}
    (hc : Covered base hdr s) : PinsLe base s.released hdr none := by
  unfold HeapFile.released
  have h2 := hc.2
  unfold HeapFile.tracked at h2
  by_cases h : s.curPage = none
  · rw [if_pos h] at h2
    rw [if_neg (by simpa using h)]
    exact h2
  · rw [if_neg h] at h2
    rw [if_pos h]
    exact h2.unPin _

theorem Covered.mk_none {base : Int → Nat} {hdr : Int} {t : HeapFile} (h1 : t.headerPageNo = hdr)
    (h2 : PinsLe base t.buf hdr none) : Covered base hdr t :=
  ⟨h1, h2.mono _⟩

theorem Covered.mk_some {base : Int → Nat} {hdr : Int} {t : HeapFile} (h1 : t.headerPageNo = hdr)
    (h2 : PinsLe base t.buf hdr (some t.curPageNo)) (h3 : t.curPage ≠ none) :
    Covered base hdr t := by
  refine ⟨h1, ?_⟩
  unfold HeapFile.tracked
  rw [if_neg h3]
  exact h2

theorem HeapFile.endScan_covered {base : Int → Nat} {hdr : Int} {s : HeapFile}
    (hc : Covered base hdr s) :
    Covered base hdr s.endScan.2 ∧ s.endScan.2.curPage = none := by
  unfold HeapFile.endScan
  by_cases h : s.curPage = none
  · rw [if_neg (by simpa using h)]
    exact ⟨hc, h⟩
  · rw [if_pos h]
    exact ⟨Covered.mk_none hc.1 (by
      have := hc.released
      unfold HeapFile.released at this
      rw [if_pos h] at this
      exact this), rfl⟩

theorem HeapFile.getRecordFetch_covered {base : Int → Nat} {hdr : Int} {s : HeapFile}
    {rid : RID} {x : Status × Option Record × HeapFile} (hc : Covered base hdr s)
    (h : s.getRecordFetch rid = some x) : Covered base hdr x.2.2 := by
  unfold HeapFile.getRecordFetch at h
  split at h
  · cases h
  · split at h
    · cases h; exact hc.of_eq rfl rfl rfl rfl
    · cases h; exact hc

theorem HeapFile.getRecord_covered {base : Int → Nat} {hdr : Int} {s : HeapFile}
    {rid : RID} {x : Status × Option Record × HeapFile} (hc : Covered base hdr s)
    (h : s.getRecord rid = some x) : Covered base hdr x.2.2 := by
  unfold HeapFile.getRecord at h
  split at h
  · split at h
    · cases h
      exact ⟨hc.1, (hc.2.unPin_any _ _).of_pinCnt rfl⟩
    · have hb : (if s.curPage ≠ none then (s.buf.unPinPage s.curPageNo s.curDirtyFlag).2
          else s.buf) = s.released := rfl
      simp only [hb] at h
      split at h
      · rename_i hf
        cases h
        exact Covered.mk_none hc.1 (hc.released.read_fail hf)
      · refine HeapFile.getRecordFetch_covered ?_ h
        exact Covered.mk_some hc.1 (hc.released.read _) (by simp)
  · exact HeapFile.getRecordFetch_covered hc h

theorem HeapFile.resetScan_covered {base : Int → Nat} {hdr : Int} {s : HeapFile}
    (hc : Covered base hdr s) : Covered base hdr s.resetScan.2 := by
  unfold HeapFile.resetScan
  split
  · split
    · exact ⟨hc.1, (hc.2.unPin_any _ _).of_pinCnt rfl⟩
    · have hb : (if s.curPage ≠ none then (s.buf.unPinPage s.curPageNo s.curDirtyFlag).2
          else s.buf) = s.released := rfl
      simp only [hb]
      split
      · rename_i hf
        exact Covered.mk_none hc.1 (hc.released.read_fail hf)
      · exact Covered.mk_some hc.1 (hc.released.read _) (by simp)
  · exact hc.of_eq rfl rfl rfl rfl

theorem HeapFile.scanNextTail_covered {base : Int → Nat} {hdr : Int} {st : Status}
    {s : HeapFile} {o : RID} {x : Step (Status × RID × HeapFile) HeapFile}
    (hc : Covered base hdr s) (h : s.scanNextTail st o = some x) :
    Covered base hdr (stepState x) := by
  rw [(HeapFile.scanNextTail_state h).1]
  exact hc

theorem HeapFile.scanNextPin_covered {base : Int → Nat} {hdr : Int} {s : HeapFile} {o : RID}
    {x : Step (Status × RID × HeapFile) HeapFile}
    (h1 : s.headerPageNo = hdr) (h2 : PinsLe base s.buf hdr none)
    (h : s.scanNextPin o = some x) : Covered base hdr (stepState x) := by
  unfold HeapFile.scanNextPin at h
  simp only at h
  split at h
  · rename_i hf
    cases h
    exact Covered.mk_none h1 (h2.read_fail hf)
  · split at h
    · cases h
    · refine HeapFile.scanNextTail_covered ?_ h
      exact Covered.mk_some h1 (h2.read _) (by simp)

theorem HeapFile.scanNextBody_covered {base : Int → Nat} {hdr : Int} {s : HeapFile} {o : RID}
    {x : Step (Status × RID × HeapFile) HeapFile}
    (hc : Covered base hdr s) (h : s.scanNextBody o = some x) :
    Covered base hdr (stepState x) := by
  unfold HeapFile.scanNextBody at h
  split at h
  · rename_i hcur
    have hn : PinsLe base s.buf hdr none := by
      have := hc.2
      unfold HeapFile.tracked at this
      rw [if_pos hcur] at this
      exact this
    split at h
    · cases h
      exact Covered.mk_none hc.1 hn
    · refine HeapFile.scanNextPin_covered ?_ ?_ h
      · exact hc.1
      · exact hn
  · rename_i p hcur
    have hsome : PinsLe base s.buf hdr (some s.curPageNo) := by
      have := hc.2
      unfold HeapFile.tracked at this
      rw [if_neg (by simp [hcur])] at this
      exact this
    split at h
    · cases h
    · split at h
      · refine HeapFile.scanNextTail_covered ?_ h
        exact hc.of_eq rfl rfl rfl rfl
      · simp only at h
        split at h
        · cases h
          exact Covered.mk_none hc.1 (hsome.unPin _)
        · refine HeapFile.scanNextPin_covered ?_ ?_ h
          · exact hc.1
          · exact hsome.unPin _

theorem HeapFile.scanNext_covered {base : Int → Nat} {hdr : Int} :
    ∀ (fuel : Nat) (s : HeapFile) (o : RID) (x : Status × RID × HeapFile),
      Covered base hdr s → s.scanNext fuel o = some x → Covered base hdr x.2.2
  | 0, _, _, _, _, h => by cases h
  | fuel + 1, s, o, x, hc, h => by
    unfold HeapFile.scanNext at h
    split at h
    · cases h
    · rename_i r hb
      cases h
      exact HeapFile.scanNextBody_covered hc hb
    · rename_i s1 hb
      exact HeapFile.scanNext_covered fuel s1 o x (HeapFile.scanNextBody_covered hc hb) h

theorem HeapFile.deleteRecord_covered {base : Int → Nat} {hdr : Int} {s : HeapFile}
    {x : Status × HeapFile} (hc : Covered base hdr s) (h : s.deleteRecord = some x) :
    Covered base hdr x.2 := by
  unfold HeapFile.deleteRecord at h
  split at h
  · cases h
  · split at h
    · cases h
    · cases h
      exact hc.of_eq rfl rfl rfl rfl

theorem HeapFile.insertDone_covered {base : Int → Nat} {hdr : Int} {s : HeapFile} (rid : RID)
    (h1 : s.headerPageNo = hdr) (h2 : PinsLe base s.buf hdr (some s.curPageNo)) :
    Covered base hdr (s.insertDone rid).2.2 := by
  unfold HeapFile.insertDone
  exact Covered.mk_none h1 (h2.unPin _)

theorem BufMgr.allocPage_pinCnt (b : BufMgr) (x : Int) :
    b.allocPage.2.2.pinCnt x =
      b.pinCnt x + (if b.allocPage.1 = Status.OK ∧ x = b.allocPage.2.1 then 1 else 0) := by
  unfold BufMgr.allocPage
  split
  · simp
  · by_cases hx : x = b.nextPageNo
    · subst hx; simp
    · simp [Function.update_noteq hx, hx]

theorem PinsLe.alloc {base : Int → Nat} {b : BufMgr} {h q : Int} (d : Bool) (b2 : BufMgr)
    (hp : PinsLe base b h (some q))
    (he : b2.pinCnt = b.allocPage.2.2.pinCnt) :
    PinsLe base (b2.unPinPage q d).2 h (some b.allocPage.2.1) := by
  intro x
  have := hp x
  rw [BufMgr.unPinPage_pinCnt, he, BufMgr.allocPage_pinCnt]
  have e1 : (if some q = some x then 1 else 0 : Nat) = if x = q then 1 else 0 := by
    by_cases hx : x = q
    · simp [hx]
    · have hx2 : ¬ q = x := fun h => hx h.symm
      simp [hx, hx2]
  have e2 : (if some b.allocPage.2.1 = some x then 1 else 0 : Nat)
      = if x = b.allocPage.2.1 then 1 else 0 := by
    by_cases hx : x = b.allocPage.2.1
    · simp [hx]
    · have hx2 : ¬ b.allocPage.2.1 = x := fun h => hx h.symm
      simp [hx, hx2]
  rw [e1] at this
  rw [e2]
  by_cases hx : x = q <;> by_cases hn : x = b.allocPage.2.1 <;>
    by_cases hs : b.allocPage.1 = Status.OK <;> simp only [hx, hn, hs, if_true, if_false,
      and_true, and_false, true_and, false_and] at this ⊢ <;> omega

theorem HeapFile.insertGrow_covered {base : Int → Nat} {hdr : Int} {M : Int} {s : HeapFile}
    {p : Int} {rec : Record} {o : RID} {x : Status × RID × HeapFile}
    (h1 : s.headerPageNo = hdr) (h2 : PinsLe base s.buf hdr (some s.curPageNo))
    (h3 : s.curPage ≠ none)
    (h : s.insertGrow M p rec o = some x) : Covered base hdr x.2.2 := by
  unfold HeapFile.insertGrow at h
  simp only at h
  split at h
  · rename_i hf
    cases h
    refine Covered.mk_some h1 ?_ h3
    intro y
    have := h2 y
    show s.buf.allocPage.2.2.pinCnt y ≤ _
    rw [BufMgr.allocPage_pinCnt]
    simp only [hf, false_and, if_false]
    omega
  · split at h
    · cases h
    · have hA : ∀ pg : Page, PinsLe base
          (((s.buf.allocPage.2.2.setPage s.buf.allocPage.2.1
              (s.buf.allocPage.2.2.blank.init s.buf.allocPage.2.1)).setPage p
              pg).unPinPage s.curPageNo true).2 hdr
          (some s.buf.allocPage.2.1) := fun pg => PinsLe.alloc true _ h2 rfl
      split at h
      · cases h
      · split at h
        · cases h
          exact Covered.mk_some h1 (hA _) (by simp)
        · cases h
          exact HeapFile.insertDone_covered _ h1 ((hA _).of_pinCnt rfl)

theorem HeapFile.insertOnPage_covered {base : Int → Nat} {hdr : Int} {M : Int} {s : HeapFile}
    {rec : Record} {o : RID} {x : Status × RID × HeapFile}
    (h1 : s.headerPageNo = hdr) (h2 : PinsLe base s.buf hdr (some s.curPageNo))
    (h : s.insertOnPage M rec o = some x) : Covered base hdr x.2.2 := by
  unfold HeapFile.insertOnPage at h
  split at h
  · cases h
  · rename_i p hcur
    split at h
    · cases h
    · split at h
      · cases h
        exact HeapFile.insertDone_covered _ h1 (h2.of_pinCnt rfl)
      · split at h
        · exact HeapFile.insertGrow_covered h1 h2 (by simp [hcur]) h
        · cases h
          exact Covered.mk_some h1 h2 (by simp [hcur])

theorem HeapFile.insertRecord_covered {base : Int → Nat} {hdr : Int} {PS DP : Int}
    {s : HeapFile} {rec : Record} {o : RID} {x : Status × RID × HeapFile}
    (hc : Covered base hdr s) (h : s.insertRecord PS DP rec o = some x) :
    Covered base hdr x.2.2 := by
  unfold HeapFile.insertRecord at h
  split at h
  · cases h
    exact hc
  · split at h
    · rename_i hcur
      have hn : PinsLe base s.buf hdr none := by
        have := hc.2
        unfold HeapFile.tracked at this
        rw [if_pos hcur] at this
        exact this
      simp only at h
      split at h
      · rename_i hf
        cases h
        exact Covered.mk_none hc.1 (hn.read_fail hf)
      · refine HeapFile.insertOnPage_covered ?_ ?_ h
        · exact hc.1
        · exact hn.read _
    · rename_i q hcur
      refine HeapFile.insertOnPage_covered hc.1 ?_ h
      have := hc.2
      unfold HeapFile.tracked at this
      rw [if_neg (by simp [hcur])] at this
      exact this

theorem PinsLe.read_hdr {base : Int → Nat} {b : BufMgr} (h : Int)
    (hp : ∀ x, b.pinCnt x ≤ base x) : PinsLe base (b.readPage h).2 h none := by
  intro x
  have := hp x
  rw [BufMgr.readPage_pinCnt]
  simp only [reduceCtorEq, if_false]
  by_cases hx : x = h
  · subst hx
    simp only [if_true]
    split <;> omega
  · simp only [hx, and_false, if_false]
    omega

theorem HeapFile.ctor_covered (openSt : Status) (firstPg : Status × Int) (raw : HeapFile) :
    (HeapFile.ctor openSt firstPg raw).1 ≠ Status.OK ∨
      Covered raw.buf.pinCnt firstPg.2 (HeapFile.ctor openSt firstPg raw).2 := by
  have hh : PinsLe raw.buf.pinCnt (raw.buf.readPage firstPg.2).2 firstPg.2 none :=
    PinsLe.read_hdr _ (fun _ => Nat.le_refl _)
  unfold HeapFile.ctor
  split
  · split
    · left; assumption
    · simp only
      split
      · left; assumption
      · split
        · split
          · left; assumption
          · right
            exact Covered.mk_some rfl (hh.read _) (by simp)
        · right
          exact Covered.mk_none rfl hh
  · left; assumption

theorem HandleOp.run_covered {base : Int → Nat} {hdr : Int} (op : HandleOp) {s t : HeapFile}
    (hc : Covered base hdr s) (h : op.run s = some t) : Covered base hdr t := by
  cases op with
  | getRecord rid =>
    simp only [HandleOp.run, Option.map_eq_some'] at h
    obtain ⟨x, hx, rfl⟩ := h
    exact HeapFile.getRecord_covered hc hx
  | startScan o l ty f op =>
    simp only [HandleOp.run, Option.some.injEq] at h
    subst h
    unfold HeapFile.startScan
    split
    · exact hc.of_eq rfl rfl rfl rfl
    · split
      · exact hc
      · exact hc.of_eq rfl rfl rfl rfl
  | scanNext fuel o =>
    simp only [HandleOp.run, Option.map_eq_some'] at h
    obtain ⟨x, hx, rfl⟩ := h
    exact HeapFile.scanNext_covered fuel s o x hc hx
  | markScan =>
    simp only [HandleOp.run, Option.some.injEq] at h
    subst h
    exact hc.of_eq rfl rfl rfl rfl
  | resetScan =>
    simp only [HandleOp.run, Option.some.injEq] at h
    subst h
    exact HeapFile.resetScan_covered hc
  | deleteRecord =>
    simp only [HandleOp.run, Option.map_eq_some'] at h
    obtain ⟨x, hx, rfl⟩ := h
    exact HeapFile.deleteRecord_covered hc hx
  | markDirty =>
    simp only [HandleOp.run, Option.some.injEq] at h
    subst h
    exact hc.of_eq rfl rfl rfl rfl
  | endScan =>
    simp only [HandleOp.run, Option.some.injEq] at h
    subst h
    exact (HeapFile.endScan_covered hc).1
  | insertRecord ps dp rec o =>
    simp only [HandleOp.run, Option.map_eq_some'] at h
    obtain ⟨x, hx, rfl⟩ := h
    exact HeapFile.insertRecord_covered hc hx

theorem runOps_covered {base : Int → Nat} {hdr : Int} :
    ∀ (ops : List HandleOp) (s t : HeapFile), Covered base hdr s → runOps ops s = some t →
      Covered base hdr t
  | [], s, t, hc, h => by
    simp only [runOps, Option.some.injEq] at h
    subst h
    exact hc
  | op :: ops, s, t, hc, h => by
    simp only [runOps, Option.bind_eq_some] at h
    obtain ⟨u, hu, ht⟩ := h
    exact runOps_covered ops u t (op.run_covered hc hu) ht

theorem HeapFile.dtor_pins {base : Int → Nat} {hdr : Int} {s : HeapFile}
    (hc : Covered base hdr s) (x : Int) : (HeapFile.dtor s).buf.pinCnt x ≤ base x := by
  have hr := hc.released
  have key : ∀ b : BufMgr, PinsLe base b hdr none → ∀ d,
      (b.unPinPage hdr d).2.flushFile.2.pinCnt x ≤ base x := by
    intro b hb d
    show (b.unPinPage hdr d).2.pinCnt x ≤ base x
    have := hb x
    rw [BufMgr.unPinPage_pinCnt]
    simp only [reduceCtorEq, if_false] at this
    omega
  unfold HeapFile.dtor
  unfold HeapFile.released at hr
  by_cases h : s.curPage = none
  · rw [if_neg (by simpa using h)] at hr ⊢
    have := key _ hr s.hdrDirtyFlag
    rw [← hc.1] at this
    exact this
  · rw [if_pos h] at hr ⊢
    have := key _ hr s.hdrDirtyFlag
    rw [← hc.1] at this
    exact this

theorem HeapFileScan.scan_dtor_pins {base : Int → Nat} {hdr : Int} {s : HeapFile}
    (hc : Covered base hdr s) (x : Int) : (HeapFileScan.dtor s).buf.pinCnt x ≤ base x :=
  HeapFile.dtor_pins (HeapFile.endScan_covered hc).1 x

theorem InsertFileScan.insert_dtor_pins {base : Int → Nat} {hdr : Int} {s : HeapFile}
    (hc : Covered base hdr s) (x : Int) : (InsertFileScan.dtor s).buf.pinCnt x ≤ base x := by
  unfold InsertFileScan.dtor
  have hc2 : Covered base hdr
      (if s.curPage ≠ none then
        { s with buf := (s.buf.unPinPage s.curPageNo true).2, curPage := none, curPageNo := 0 }
      else s) := by
    by_cases h : s.curPage = none
    · rw [if_neg (by simpa using h)]
      exact hc
    · rw [if_pos h]
      refine Covered.mk_none hc.1 ?_
      have := hc.2
      unfold HeapFile.tracked at this
      rw [if_neg h] at this
      exact this.unPin _
  exact HeapFile.dtor_pins hc2 x

/-- No pin is left behind: a handle of any of the three kinds is opened successfully,
any finite sequence of operations that return is made on it, whatever pin requests
fail, and the handle is closed by the destructor of its kind.  Then no page holds
more pins than before the handle was opened; when no page was pinned before, no page
is pinned after the close. -/
theorem pins_after_close_le (openSt : Status) (firstPg : Status × Int) (raw s0 t : HeapFile)
    (ops : List HandleOp)
    (hopen : (HeapFile.ctor openSt firstPg raw).1 = Status.OK)
    (hs0 : s0 = (HeapFile.ctor openSt firstPg raw).2 ∨
           s0 = (HeapFileScan.ctor openSt firstPg raw).2 ∨
           s0 = (InsertFileScan.ctor openSt firstPg raw).2)
    (hrun : runOps ops s0 = some t) :
    (∀ x, (HeapFile.dtor t).buf.pinCnt x ≤ raw.buf.pinCnt x) ∧
    (∀ x, (HeapFileScan.dtor t).buf.pinCnt x ≤ raw.buf.pinCnt x) ∧
    (∀ x, (InsertFileScan.dtor t).buf.pinCnt x ≤ raw.buf.pinCnt x) ∧
    ((∀ x, raw.buf.pinCnt x = 0) →
      (∀ x, (HeapFile.dtor t).buf.pinCnt x = 0) ∧
      (∀ x, (HeapFileScan.dtor t).buf.pinCnt x = 0) ∧
      (∀ x, (InsertFileScan.dtor t).buf.pinCnt x = 0)) := by
  have h0 : Covered raw.buf.pinCnt firstPg.2 (HeapFile.ctor openSt firstPg raw).2 := by
    rcases HeapFile.ctor_covered openSt firstPg raw with h | h
    · exact absurd hopen h
    · exact h
  have hc0 : Covered raw.buf.pinCnt firstPg.2 s0 := by
    rcases hs0 with h | h | h
    · rw [h]; exact h0
    · rw [h]; exact h0.of_eq rfl rfl rfl rfl
    · rw [h]; exact h0
  have hc := runOps_covered ops s0 t hc0 hrun
  have a1 := HeapFile.dtor_pins hc
  have a2 := HeapFileScan.scan_dtor_pins hc
  have a3 := InsertFileScan.insert_dtor_pins hc
  refine ⟨a1, a2, a3, fun hz => ⟨fun x => ?_, fun x => ?_, fun x => ?_⟩⟩
  · have := a1 x
    rw [hz x] at this
    omega
  · have := a2 x
    rw [hz x] at this
    omega
  · have := a3 x
    rw [hz x] at this
    omega

/-- Example: the scan on the two-page file whose fourth pin request fails (`resetScan`
then leaves a stale `curPage`) and is closed afterwards.  The close asks to unpin page
2, which the handle does not hold and which fails here, and releases the header page:
no pin is left. -/
theorem pins_after_close_le_example :
    ∃ t, runOps [HandleOp.scanNext 3 NULLRID, HandleOp.markScan, HandleOp.scanNext 3 NULLRID,
          HandleOp.resetScan] (HeapFileScan.ctor Status.OK (Status.OK, 1) twoPageFaulty).2
        = some t ∧
      t.curPage = some 3 ∧ t.curPageNo = 2 ∧
      (∀ x, (HeapFileScan.dtor t).buf.pinCnt x = 0) ∧
      (HeapFileScan.dtor t).buf.trace =
        [BufCall.readPage 1 Status.OK, BufCall.readPage 2 Status.OK,
         BufCall.unPinPage 2 false Status.OK, BufCall.readPage 3 Status.OK,
         BufCall.unPinPage 3 false Status.OK, BufCall.readPage 2 Status.UNIXERR,
         BufCall.unPinPage 2 false Status.PAGENOTPINNED, BufCall.unPinPage 1 false Status.OK,
         BufCall.flushFile Status.OK] :=
  ⟨_, rfl, rfl, rfl,
    ((pins_after_close_le Status.OK (Status.OK, 1) twoPageFaulty _ _
      [HandleOp.scanNext 3 NULLRID, HandleOp.markScan, HandleOp.scanNext 3 NULLRID,
        HandleOp.resetScan] rfl (Or.inr (Or.inl rfl)) rfl).2.2.2 (fun _ => rfl)).2.1,
    rfl⟩

/-- C15 fails on the code: on the two-page file another handle holds page 2 pinned
(pin count 1, empty trace) and the fourth pin request of the buffer manager fails.  A
scan is opened (pins of pages 1 and 2), yields `(2, 0)`, is marked, yields `(3, 0)`
(unpins 2, pins 3) and is reset: `resetScan` unpins page 3, fails to pin page 2 and
leaves `curPage` non-null with `curPageNo = 2`.  At that point the handle has taken
one pin on page 2 and released it; the pin left on page 2 is the other handle's.
Closing the scan then unpins page 2 once more, successfully: the handle has released
page 2 twice for one pin taken, and page 2 is left with no pin although the other
handle still uses it. -/
theorem close_releases_foreign_pin :
    twoPageShared.buf.pinCnt 2 = 1 ∧ twoPageShared.buf.trace = [] ∧
    (HeapFileScan.ctor Status.OK (Status.OK, 1) twoPageShared).1 = Status.OK ∧
    ∃ t, runOps [HandleOp.scanNext 3 NULLRID, HandleOp.markScan, HandleOp.scanNext 3 NULLRID,
          HandleOp.resetScan] (HeapFileScan.ctor Status.OK (Status.OK, 1) twoPageShared).2
        = some t ∧
      t.curPage = some 3 ∧ t.curPageNo = 2 ∧
      pinsTaken t.buf.trace 2 = 1 ∧ pinsReleased t.buf.trace 2 = 1 ∧ t.buf.pinCnt 2 = 1 ∧
      (HeapFileScan.dtor t).buf.trace =
        [BufCall.readPage 1 Status.OK, BufCall.readPage 2 Status.OK,
         BufCall.unPinPage 2 false Status.OK, BufCall.readPage 3 Status.OK,
         BufCall.unPinPage 3 false Status.OK, BufCall.readPage 2 Status.UNIXERR,
         BufCall.unPinPage 2 false Status.OK, BufCall.unPinPage 1 false Status.OK,
         BufCall.flushFile Status.OK] ∧
      pinsTaken (HeapFileScan.dtor t).buf.trace 2 = 1 ∧
      pinsReleased (HeapFileScan.dtor t).buf.trace 2 = 2 ∧
      (HeapFileScan.dtor t).buf.pinCnt 2 = 0 :=
  ⟨rfl, rfl, rfl, _, rfl, rfl, rfl, rfl, rfl, rfl, rfl, rfl, rfl, rfl⟩

/-! ### Scans with a predicate -/

theorem liveEnt_map_fst (l : List (Option Record)) (b : Nat) :
    (liveEnt l b).map Prod.fst = liveIdx l b := by
  induction l generalizing b with
  | nil => rfl
  | cons a t ih =>
    cases a with
    | none => simp only [liveEnt, liveIdx, ih]
    | some r => simp only [liveEnt, liveIdx, List.map_cons, ih]

theorem Page.ents_map_fst (pg : Page) (i : Nat) :
    (pg.ents i).map Prod.fst = pg.rids i := by
  simp only [Page.ents, Page.rids, Page.liveFrom, List.map_map, ← liveEnt_map_fst]
  rfl

theorem chainEnts_map_fst (P : Int → Option Page) (chain : List Int) :
    (chainEnts P chain).map Prod.fst = chainRids P chain := by
  induction chain with
  | nil => rfl
  | cons p rest ih =>
    simp only [chainEnts, chainRids, List.map_append, ih]
    cases P p with
    | none => rfl
    | some pg => simp only [Page.ents_map_fst]

theorem liveEnt_eq_nil {l : List (Option Record)} {b : Nat} (h : ∀ x ∈ l, x = none) :
    liveEnt l b = [] := by
  induction l generalizing b with
  | nil => simp [liveEnt]
  | cons a t ih =>
    have ha : a = none := h a (by simp)
    subst ha
    simp only [liveEnt]
    exact ih (fun x hx => h x (by simp [hx]))

theorem findLive_some_ent {l : List (Option Record)} {b j : Nat} (h : findLive l b = some j) :
    ∃ k r, j = b + k ∧ l[k]? = some (some r) ∧
      liveEnt l b = (j, r) :: liveEnt (l.drop (k + 1)) (j + 1) := by
  induction l generalizing b with
  | nil => simp [findLive] at h
  | cons a t ih =>
    cases a with
    | none =>
      simp only [findLive] at h
      obtain ⟨k, r, hj, hk, hl⟩ := ih h
      refine ⟨k + 1, r, by omega, by simpa using hk, ?_⟩
      simpa [liveEnt] using hl
    | some r =>
      simp only [findLive, Option.some.injEq] at h
      subst h
      exact ⟨0, r, by simp, by simp, by simp [liveEnt]⟩

theorem Page.ents_of_nextLive_none {pg : Page} {i : Nat} (h : pg.nextLive i = none) :
    pg.ents i = [] := by
  unfold Page.nextLive at h
  simp [Page.ents, liveEnt_eq_nil (findLive_eq_none.mp h)]

theorem Page.ents_of_no_live {pg : Page} (h : pg.nextLive 0 = none) (i : Nat) :
    pg.ents i = [] := by
  unfold Page.nextLive at h
  have hall := findLive_eq_none.mp h
  simp only [List.drop_zero] at hall
  have : ∀ x ∈ pg.slots.drop i, x = none := fun x hx => hall x (List.mem_of_mem_drop hx)
  simp [Page.ents, liveEnt_eq_nil this]

theorem Page.ents_of_nextLive_some {pg : Page} {i j : Nat} (h : pg.nextLive i = some j) :
    ∃ r, pg.recAt (j : Int) = some r ∧
      pg.ents i = (⟨pg.curPage, (j : Int)⟩, r) :: pg.ents (j + 1) := by
  unfold Page.nextLive at h
  obtain ⟨k, r, hj, hk, hl⟩ := findLive_some_ent h
  subst hj
  refine ⟨r, ?_, ?_⟩
  · rw [Page.recAt_natCast, List.getD_eq_getElem?_getD]
    rw [List.getElem?_drop] at hk
    simp [hk]
  · simp [Page.ents, hl, List.drop_drop, Nat.add_comm, Nat.add_left_comm, Nat.add_assoc]

theorem HeapFile.selected_cons_pos {h : HeapFile} {e : RID × Record} (X : List (RID × Record))
    (hm : h.matchRec e.2 = true) : h.selected (e :: X) = e.1 :: h.selected X := by
  simp [HeapFile.selected, hm]

theorem HeapFile.selected_cons_neg {h : HeapFile} {e : RID × Record} (X : List (RID × Record))
    (hm : ¬ h.matchRec e.2 = true) : h.selected (e :: X) = h.selected X := by
  simp [HeapFile.selected, hm]

theorem yieldsF_ret_ok {P : Int → Option Page} {h s0 t : HeapFile} {o r : RID}
    {X : List (RID × Record)}
    (hb : s0.scanNextBody o = some (Step.ret (Status.OK, r, t))) (hs : ScanAtF P h t X) :
    YieldsF P h s0 o (r :: h.selected X) :=
  ⟨1, t, X, fun _ hf => HeapFile.scanNext_of_ret hb hf, hs, rfl⟩

theorem yieldsF_ret_eof {P : Int → Option Page} {h s0 t : HeapFile} {o : RID}
    (hb : s0.scanNextBody o = some (Step.ret (Status.FILEEOF, o, t)))
    (hc : t.curPage = none) : YieldsF P h s0 o [] :=
  ⟨1, t, fun _ hf => HeapFile.scanNext_of_ret hb hf, hc⟩

theorem yieldsF_again {P : Int → Option Page} {h s0 t : HeapFile} {o : RID} {L : List RID}
    (hb : s0.scanNextBody o = some (Step.again t)) (hy : YieldsF P h t o L) :
    YieldsF P h s0 o L := by
  cases L with
  | nil =>
    obtain ⟨N, s2, hN, hc⟩ := hy
    refine ⟨N + 1, s2, fun f hf => ?_, hc⟩
    obtain ⟨n, rfl⟩ : ∃ n, f = n + 1 := ⟨f - 1, by omega⟩
    rw [HeapFile.scanNext_of_again hb]
    exact hN n (by omega)
  | cons r L =>
    obtain ⟨N, s2, X, hN, hc, hX⟩ := hy
    refine ⟨N + 1, s2, X, fun f hf => ?_, hc, hX⟩
    obtain ⟨n, rfl⟩ : ∃ n, f = n + 1 := ⟨f - 1, by omega⟩
    rw [HeapFile.scanNext_of_again hb]
    exact hN n (by omega)

/-- On a page with a live slot `j` after the cursor, `scanNext` moves to that slot and
returns it when its record matches; otherwise it goes on from there (`H`). -/
theorem yieldsF_step {P : Int → Option Page} {h s : HeapFile} {o : RID} {p : Int} {pg : Page}
    {rest : List Int} {j : Nat}
    (hP : s.buf.pages = P) (hf : s.buf.faults = []) (hpred : SamePred s h)
    (hcur : s.curPage = some p) (hch : IsChain P p (p :: rest)) (hpg : P p = some pg)
    (hj : pg.nextLive (s.curRec.slotNo + 1).toNat = some j)
    (H : ∀ s3 : HeapFile, s3.buf.pages = P → s3.buf.faults = [] → SamePred s3 h →
      s3.curPage = some p → s3.curRec = ⟨pg.curPage, (j : Int)⟩ →
      YieldsF P h s3 o (h.selected (pg.ents (j + 1) ++ chainEnts P rest))) :
    YieldsF P h s o (h.selected (pg.ents (s.curRec.slotNo + 1).toNat ++ chainEnts P rest)) := by
  obtain ⟨r, hrec, he⟩ := Page.ents_of_nextLive_some hj
  rw [he, List.cons_append]
  have hpg2 : s.buf.pages p = some pg := by rw [hP]; exact hpg
  by_cases hm : h.matchRec r = true
  · rw [HeapFile.selected_cons_pos _ hm]
    refine yieldsF_ret_ok (t := { s with curRec := ⟨pg.curPage, (j : Int)⟩ }) ?_ ?_
    · simp [HeapFile.scanNextBody, hcur, hpg2, Page.nextRecord, hj, HeapFile.scanNextTail,
        HeapFile.curFrame, Page.getRecord, hrec]
      exact (HeapFile.matchRec_congr hpred r).trans hm
    · refine ⟨hP, hf, hpred, p, pg, rest, hcur, hch, hpg, ?_⟩
      simp
  · rw [HeapFile.selected_cons_neg _ hm]
    have hmf : h.matchRec r = false := by simpa using hm
    refine yieldsF_again (t := { s with curRec := ⟨pg.curPage, (j : Int)⟩ }) ?_ ?_
    · simp [HeapFile.scanNextBody, hcur, hpg2, Page.nextRecord, hj, HeapFile.scanNextTail,
        HeapFile.curFrame, Page.getRecord, hrec]
      exact (HeapFile.matchRec_congr hpred r).trans hmf
    · exact H _ hP hf hpred hcur rfl

/-- Pinning the next page `q` of the chain inside `scanNext`: the call goes on with
the records of `q` and of the pages after it, provided the scan of a cursor standing
on `q` is known to behave (`H`). -/
theorem yieldsF_pin {P : Int → Option Page} {h s s0 : HeapFile} {o : RID} {q : Int} {pq : Page}
    {rest : List Int}
    (H : ∀ s3 : HeapFile, s3.buf.pages = P → s3.buf.faults = [] → SamePred s3 h →
      s3.curPage = some q →
      YieldsF P h s3 o (h.selected (pq.ents (s3.curRec.slotNo + 1).toNat ++ chainEnts P rest)))
    (hP : s.buf.pages = P) (hf : s.buf.faults = []) (hpred : SamePred s h)
    (hq : s.curPageNo = q) (hch : IsChain P q (q :: rest)) (hpq : P q = some pq)
    (h0 : s0.scanNextBody o = s.scanNextPin o) :
    YieldsF P h s0 o (h.selected (chainEnts P (q :: rest))) := by
  have hpq2 : s.buf.pages q = some pq := by rw [hP]; exact hpq
  have hok : (s.buf.readPage q).1 = Status.OK := BufMgr.readPage_ok hf hpq2
  have hpages : (s.buf.readPage q).2.pages = P := by rw [BufMgr.readPage_pages, hP]
  have hfaults : (s.buf.readPage q).2.faults = [] := by rw [BufMgr.readPage_faults, hf]; rfl
  have hpq3 : (s.buf.readPage q).2.pages q = some pq := by rw [hpages]; exact hpq
  simp only [chainEnts, hpq]
  cases hj : pq.nextLive 0 with
  | some j =>
    obtain ⟨r, hrec, he⟩ := Page.ents_of_nextLive_some hj
    rw [he, List.cons_append]
    by_cases hm : h.matchRec r = true
    · rw [HeapFile.selected_cons_pos _ hm]
      refine yieldsF_ret_ok
        (t := { s with buf := (s.buf.readPage q).2, curPage := some q, curDirtyFlag := false,
                       curRec := ⟨pq.curPage, (j : Int)⟩ }) ?_ ?_
      · rw [h0]
        simp [HeapFile.scanNextPin, hq, hok, hpq3, Page.firstRecord, hj, HeapFile.scanNextTail,
          HeapFile.curFrame, Page.getRecord, hrec]
        exact (HeapFile.matchRec_congr hpred r).trans hm
      · refine ⟨hpages, hfaults, hpred, q, pq, rest, rfl, hch, hpq, ?_⟩
        simp
    · rw [HeapFile.selected_cons_neg _ hm]
      have hmf : h.matchRec r = false := by simpa using hm
      have hagain : s0.scanNextBody o = some (Step.again
          { s with buf := (s.buf.readPage q).2, curPage := some q, curDirtyFlag := false,
                   curRec := ⟨pq.curPage, (j : Int)⟩ }) := by
        rw [h0]
        simp [HeapFile.scanNextPin, hq, hok, hpq3, Page.firstRecord, hj, HeapFile.scanNextTail,
          HeapFile.curFrame, Page.getRecord, hrec]
        exact (HeapFile.matchRec_congr hpred r).trans hmf
      have := H { s with buf := (s.buf.readPage q).2, curPage := some q, curDirtyFlag := false,
                         curRec := ⟨pq.curPage, (j : Int)⟩ } hpages hfaults hpred rfl
      have e : (((j : Int) + 1).toNat) = j + 1 := by omega
      simp only [e] at this
      exact yieldsF_again hagain this
  | none =>
    rw [Page.ents_of_no_live hj 0, List.nil_append]
    have hagain : s0.scanNextBody o = some (Step.again
        { s with buf := (s.buf.readPage q).2, curPage := some q, curDirtyFlag := false }) := by
      rw [h0]
      simp [HeapFile.scanNextPin, hq, hok, hpq3, Page.firstRecord, hj, HeapFile.scanNextTail]
    have := H { s with buf := (s.buf.readPage q).2, curPage := some q, curDirtyFlag := false }
      hpages hfaults hpred rfl
    rw [Page.ents_of_no_live hj, List.nil_append] at this
    exact yieldsF_again hagain this

/-- A scan cursor standing on page `p`: `scanNext` passes over the records of the page
that do not match, provided its behaviour at the end of the page is known
(`Hnone`). -/
theorem yieldsF_on {P : Int → Option Page} {h : HeapFile} {p : Int} {pg : Page}
    {rest : List Int} (hch : IsChain P p (p :: rest)) (hpg : P p = some pg)
    (Hnone : ∀ (s : HeapFile) (o : RID), s.buf.pages = P → s.buf.faults = [] → SamePred s h →
      s.curPage = some p → pg.nextLive (s.curRec.slotNo + 1).toNat = none →
      YieldsF P h s o (h.selected (chainEnts P rest))) :
    ∀ (n : Nat) (s : HeapFile) (o : RID), s.buf.pages = P → s.buf.faults = [] → SamePred s h →
      s.curPage = some p → (pg.ents (s.curRec.slotNo + 1).toNat).length ≤ n →
      YieldsF P h s o (h.selected (pg.ents (s.curRec.slotNo + 1).toNat ++ chainEnts P rest)) := by
  intro n
  induction n with
  | zero =>
    intro s o hP hf hpred hcur hlen
    cases hj : pg.nextLive (s.curRec.slotNo + 1).toNat with
    | none =>
      rw [Page.ents_of_nextLive_none hj, List.nil_append]
      exact Hnone s o hP hf hpred hcur hj
    | some j =>
      obtain ⟨r, _, he⟩ := Page.ents_of_nextLive_some hj
      rw [he] at hlen
      simp at hlen
  | succ n ih =>
    intro s o hP hf hpred hcur hlen
    cases hj : pg.nextLive (s.curRec.slotNo + 1).toNat with
    | none =>
      rw [Page.ents_of_nextLive_none hj, List.nil_append]
      exact Hnone s o hP hf hpred hcur hj
    | some j =>
      obtain ⟨r, _, he⟩ := Page.ents_of_nextLive_some hj
      rw [he] at hlen
      refine yieldsF_step hP hf hpred hcur hch hpg hj (fun s3 h1 h2 h3 h4 h5 => ?_)
      have e : (s3.curRec.slotNo + 1).toNat = j + 1 := by
        rw [h5]
        show ((j : Int) + 1).toNat = j + 1
        omega
      have := ih s3 o h1 h2 h3 h4 (by
        rw [e]
        simp only [List.length_cons] at hlen
        omega)
      rw [e] at this
      exact this

/-- A scan cursor standing on a page of a chain: `scanNext` yields the next matching
record of the page or of the pages that follow, or `FILEEOF` when none is left. -/
theorem yieldsF_at {P : Int → Option Page} (h : HeapFile) (rest : List Int) :
    ∀ (p : Int) (pg : Page) (s : HeapFile) (o : RID),
      s.buf.pages = P → s.buf.faults = [] → SamePred s h → s.curPage = some p →
      IsChain P p (p :: rest) → P p = some pg →
      YieldsF P h s o (h.selected (pg.ents (s.curRec.slotNo + 1).toNat ++ chainEnts P rest)) := by
  induction rest with
  | nil =>
    intro p pg s o hP hf hpred hcur hch hpg
    refine yieldsF_on hch hpg ?_ _ s o hP hf hpred hcur (Nat.le_refl _)
    intro s o hP hf hpred hcur hj
    have hpg2 : s.buf.pages p = some pg := by rw [hP]; exact hpg
    have hnext : pg.nextPage = -1 := by
      simpa [IsChain, hpg] using hch.2.2
    refine yieldsF_ret_eof
      (t := { s with buf := (s.buf.unPinPage s.curPageNo s.curDirtyFlag).2,
                     curPage := none, curPageNo := -1, curDirtyFlag := false }) ?_ rfl
    simp [HeapFile.scanNextBody, hcur, hpg2, Page.nextRecord, hj, Page.getNextPage, hnext]
  | cons q rest ih =>
    intro p pg s o hP hf hpred hcur hch hpg
    refine yieldsF_on hch hpg ?_ _ s o hP hf hpred hcur (Nat.le_refl _)
    intro s o hP hf hpred hcur hj
    have hpg2 : s.buf.pages p = some pg := by rw [hP]; exact hpg
    have hch2 : IsChain P pg.nextPage (q :: rest) := by
      simpa [IsChain, hpg] using hch.2.2
    have hq : pg.nextPage = q := hch2.1
    have hq1 : q ≠ -1 := hch2.2.1
    rw [hq] at hch2
    obtain ⟨pq, hpq⟩ : ∃ pq, P q = some pq := by
      have := hch2.2.2
      cases hx : P q with
      | none => simp [hx] at this
      | some pq => exact ⟨pq, rfl⟩
    refine yieldsF_pin
      (s := { s with buf := (s.buf.unPinPage s.curPageNo s.curDirtyFlag).2,
                     curPage := none, curPageNo := q, curDirtyFlag := false })
      (fun s3 h1 h2 h3 h4 => ih q pq s3 o h1 h2 h3 h4 hch2 hpq)
      (by simp [BufMgr.unPinPage_pages, hP]) (by simp [BufMgr.unPinPage_faults, hf]) hpred rfl
      hch2 hpq ?_
    simp [HeapFile.scanNextBody, hcur, hpg2, Page.nextRecord, hj, Page.getNextPage, hq, hq1]

/-- A scan cursor with no page pinned: `scanNext` starts at the header's first page. -/
theorem yieldsF_restart {P : Int → Option Page} {h s : HeapFile} {o : RID} {c : List Int}
    (hP : s.buf.pages = P) (hf : s.buf.faults = []) (hpred : SamePred s h)
    (hcur : s.curPage = none) (hch : IsChain P s.headerPage.firstPage c) :
    YieldsF P h s o (h.selected (chainEnts P c)) := by
  cases c with
  | nil =>
    have h1 : s.headerPage.firstPage = -1 := hch
    exact yieldsF_ret_eof (t := { s with curPageNo := s.headerPage.firstPage })
      (by simp [HeapFile.scanNextBody, hcur, h1]) hcur
  | cons q rest =>
    have hq : s.headerPage.firstPage = q := hch.1
    have hq1 : q ≠ -1 := hch.2.1
    rw [hq] at hch
    obtain ⟨pq, hpq⟩ : ∃ pq, P q = some pq := by
      have := hch.2.2
      cases hx : P q with
      | none => simp [hx] at this
      | some pq => exact ⟨pq, rfl⟩
    exact yieldsF_pin (s := { s with curPageNo := q })
      (fun s3 h1 h2 h3 h4 => yieldsF_at h rest q pq s3 o h1 h2 h3 h4 hch hpq)
      hP hf hpred rfl hch hpq (by simp [HeapFile.scanNextBody, hcur, hq, hq1])

theorem yieldsF_of_scanAtF {P : Int → Option Page} (h s : HeapFile) (o : RID)
    (X : List (RID × Record)) (hs : ScanAtF P h s X) : YieldsF P h s o (h.selected X) := by
  obtain ⟨hP, hf, hpred, p, pg, rest, hcur, hch, hpg, rfl⟩ := hs
  exact yieldsF_at h rest p pg s o hP hf hpred hcur hch hpg

/-- Repeated `scanNext` calls collect exactly the matching record ids still to
come. -/
theorem scanAll_of_yieldsF {P : Int → Option Page} (h : HeapFile) (L : List RID) :
    ∀ (s : HeapFile) (o : RID), YieldsF P h s o L →
      ∃ N, ∀ f c, N ≤ f → N ≤ c → s.scanAll f c o = some L := by
  induction L with
  | nil =>
    intro s o hy
    obtain ⟨N, s1, hN, _⟩ := hy
    refine ⟨N + 1, fun f c hf hc => ?_⟩
    obtain ⟨c, rfl⟩ : ∃ n, c = n + 1 := ⟨c - 1, by omega⟩
    simp [HeapFile.scanAll, hN f (by omega)]
  | cons r L ih =>
    intro s o hy
    obtain ⟨N, s1, X, hN, hs1, hX⟩ := hy
    have hy1 := yieldsF_of_scanAtF h s1 r X hs1
    rw [hX] at hy1
    obtain ⟨M, hM⟩ := ih s1 r hy1
    refine ⟨N + M + 1, fun f c hf hc => ?_⟩
    obtain ⟨c, rfl⟩ : ∃ n, c = n + 1 := ⟨c - 1, by omega⟩
    simp [HeapFile.scanAll, hN f (by omega), hM f c (by omega) (by omega)]

theorem liveEnt_mem {l : List (Option Record)} {b j : Nat} {r : Record} :
    (j, r) ∈ liveEnt l b → b ≤ j ∧ l[j - b]? = some (some r) := by
  induction l generalizing b with
  | nil => simp [liveEnt]
  | cons a t ih =>
    have hstep : b + 1 ≤ j → t[j - (b + 1)]? = some (some r) →
        (a :: t)[j - b]? = some (some r) := by
      intro hle hr
      obtain ⟨k, hk⟩ : ∃ k, j - b = k + 1 := ⟨j - b - 1, by omega⟩
      have hk2 : j - (b + 1) = k := by omega
      rw [hk, List.getElem?_cons_succ, ← hk2]
      exact hr
    cases a with
    | none =>
      intro hm
      simp only [liveEnt] at hm
      obtain ⟨h1, h2⟩ := ih hm
      exact ⟨by omega, hstep h1 h2⟩
    | some x =>
      intro hm
      simp only [liveEnt, List.mem_cons, Prod.mk.injEq] at hm
      rcases hm with ⟨rfl, rfl⟩ | hm
      · exact ⟨Nat.le_refl _, by simp⟩
      · obtain ⟨h1, h2⟩ := ih hm
        exact ⟨by omega, hstep h1 h2⟩

theorem Page.mem_ents_zero {pg : Page} {e : RID × Record} (h : e ∈ pg.ents 0) :
    e.1.pageNo = pg.curPage ∧ pg.getRecord e.1 = some e.2 := by
  simp only [Page.ents, List.drop_zero, List.mem_map] at h
  obtain ⟨⟨j, r⟩, hm, rfl⟩ := h
  obtain ⟨_, h2⟩ := liveEnt_mem hm
  refine ⟨rfl, ?_⟩
  show pg.recAt (j : Int) = some r
  rw [Page.recAt_natCast, List.getD_eq_getElem?_getD]
  simp only [Nat.sub_zero] at h2
  simp [h2]

theorem mem_chainEnts {P : Int → Option Page} {chain : List Int} {e : RID × Record}
    (h : e ∈ chainEnts P chain) :
    ∃ p ∈ chain, ∃ pg, P p = some pg ∧ e.1.pageNo = pg.curPage ∧ pg.getRecord e.1 = some e.2 := by
  induction chain with
  | nil => simp [chainEnts] at h
  | cons q rest ih =>
    simp only [chainEnts, List.mem_append] at h
    rcases h with h | h
    · cases hq : P q with
      | none => simp [hq] at h
      | some pg =>
        simp only [hq] at h
        exact ⟨q, by simp, pg, hq, Page.mem_ents_zero h⟩
    · obtain ⟨p, hp, x⟩ := ih h
      exact ⟨p, by simp [hp], x⟩

theorem HeapFile.startScan_frame (s : HeapFile) (off len : Int) (ty : Datatype)
    (flt : Option (List Nat)) (op : Operator) :
    (s.startScan off len ty flt op).2.buf = s.buf ∧
    (s.startScan off len ty flt op).2.curPage = s.curPage ∧
    (s.startScan off len ty flt op).2.curRec = s.curRec ∧
    (s.startScan off len ty flt op).2.headerPage = s.headerPage ∧
    (flt = none → (s.startScan off len ty flt op).2.filter = none) := by
  unfold HeapFile.startScan
  split
  · exact ⟨rfl, rfl, rfl, rfl, fun _ => rfl⟩
  · split
    · exact ⟨rfl, rfl, rfl, rfl, fun h => by cases h⟩
    · exact ⟨rfl, rfl, rfl, rfl, fun h => by cases h⟩

/-- The cursor a successful `HeapFileScan` constructor leaves on a well-formed file:
no page when the file has no data page, otherwise the first page, in front of its
first slot. -/
theorem ctor_scan_state (raw : HeapFile) (hdrNo : Int) (chain : List Int)
    (hch : IsChain raw.buf.pages raw.headerPage.firstPage chain)
    (hhdr : (raw.buf.pages hdrNo).isSome) (hf : raw.buf.faults = []) :
    (HeapFileScan.ctor Status.OK (Status.OK, hdrNo) raw).2.buf.pages = raw.buf.pages ∧
    (HeapFileScan.ctor Status.OK (Status.OK, hdrNo) raw).2.buf.faults = [] ∧
    (HeapFileScan.ctor Status.OK (Status.OK, hdrNo) raw).2.headerPage = raw.headerPage ∧
    ((raw.headerPage.firstPage = -1 ∧
        (HeapFileScan.ctor Status.OK (Status.OK, hdrNo) raw).2.curPage = none) ∨
      (raw.headerPage.firstPage ≠ -1 ∧
        (HeapFileScan.ctor Status.OK (Status.OK, hdrNo) raw).2.curPage
          = some raw.headerPage.firstPage ∧
        (HeapFileScan.ctor Status.OK (Status.OK, hdrNo) raw).2.curRec = ⟨-1, -1⟩)) := by
  obtain ⟨hp, hhp⟩ : ∃ hp, raw.buf.pages hdrNo = some hp := Option.isSome_iff_exists.mp hhdr
  have hok1 : (raw.buf.readPage hdrNo).1 = Status.OK := BufMgr.readPage_ok hf hhp
  have hf1 : (raw.buf.readPage hdrNo).2.faults = [] := by rw [BufMgr.readPage_faults, hf]; rfl
  have hp1 : (raw.buf.readPage hdrNo).2.pages = raw.buf.pages := BufMgr.readPage_pages _ _
  by_cases hfirst : raw.headerPage.firstPage = -1
  · have hctor : HeapFileScan.ctor Status.OK (Status.OK, hdrNo) raw =
        (Status.OK, { raw with headerPageNo := hdrNo, buf := (raw.buf.readPage hdrNo).2,
                               hdrDirtyFlag := false, curPage := none, curPageNo := -1,
                               curDirtyFlag := false, curRec := ⟨-1, -1⟩, filter := none }) := by
      simp [HeapFileScan.ctor, HeapFile.ctor, hok1, hfirst]
    rw [hctor]
    exact ⟨hp1, hf1, rfl, Or.inl ⟨hfirst, rfl⟩⟩
  · obtain ⟨pg, rest, rfl, hpg, hrest⟩ := isChain_head_pos hch hfirst
    have hpg1 : (raw.buf.readPage hdrNo).2.pages raw.headerPage.firstPage = some pg := by
      rw [hp1]; exact hpg
    have hok2 : ((raw.buf.readPage hdrNo).2.readPage raw.headerPage.firstPage).1 = Status.OK :=
      BufMgr.readPage_ok hf1 hpg1
    have hctor : HeapFileScan.ctor Status.OK (Status.OK, hdrNo) raw =
        (Status.OK, { raw with headerPageNo := hdrNo,
                               buf := ((raw.buf.readPage hdrNo).2.readPage
                                        raw.headerPage.firstPage).2,
                               hdrDirtyFlag := false,
                               curPage := some raw.headerPage.firstPage,
                               curPageNo := raw.headerPage.firstPage,
                               curDirtyFlag := false, curRec := ⟨-1, -1⟩, filter := none }) := by
      simp [HeapFileScan.ctor, HeapFile.ctor, hok1, hfirst, hok2]
    rw [hctor]
    exact ⟨by simp [BufMgr.readPage_pages], by simp [BufMgr.readPage_faults, hf], rfl,
      Or.inr ⟨hfirst, rfl, rfl⟩⟩

/-- C16: on a well-formed heap file, with a buffer manager that does not fail, a scan
is opened and a predicate is set by a successful `startScan`.  Calling `scanNext`
until `FILEEOF` then returns, given enough fuel, the record ids of the chain, in
chain order and slot order, whose record satisfies `matchRec`, and no other: the
list the scan without predicate returns, restricted to the matching records.  Each
record id is judged on the record stored at it.  With a null filter every record
matches and the two lists are the same. -/
theorem filtered_scan_selects (raw : HeapFile) (hdrNo : Int) (chain : List Int) (o : RID)
    (off len : Int) (ty : Datatype) (flt : Option (List Nat)) (op : Operator) (s1 : HeapFile)
    (hch : IsChain raw.buf.pages raw.headerPage.firstPage chain)
    (hhdr : (raw.buf.pages hdrNo).isSome) (hf : raw.buf.faults = [])
    (hstart : (HeapFileScan.ctor Status.OK (Status.OK, hdrNo) raw).2.startScan off len ty flt op
      = (Status.OK, s1)) :
    (∃ N, ∀ f c, N ≤ f → N ≤ c →
      s1.scanAll f c o = some (s1.selected (chainEnts raw.buf.pages chain))) ∧
    (∃ N, ∀ f c, N ≤ f → N ≤ c →
      (HeapFileScan.ctor Status.OK (Status.OK, hdrNo) raw).2.scanAll f c o
        = some ((chainEnts raw.buf.pages chain).map Prod.fst)) ∧
    s1.selected (chainEnts raw.buf.pages chain)
      = ((chainEnts raw.buf.pages chain).filter (fun e => s1.matchRec e.2)).map Prod.fst ∧
    (∀ e ∈ chainEnts raw.buf.pages chain, ∃ p ∈ chain, ∃ pg,
      raw.buf.pages p = some pg ∧ e.1.pageNo = pg.curPage ∧ pg.getRecord e.1 = some e.2) ∧
    (flt = none → (∀ rec, s1.matchRec rec = true) ∧
      s1.selected (chainEnts raw.buf.pages chain)
        = (chainEnts raw.buf.pages chain).map Prod.fst) := by
  obtain ⟨c1, c2, c3, c4⟩ := ctor_scan_state raw hdrNo chain hch hhdr hf
  obtain ⟨f1, f2, f3, f4, f5⟩ := HeapFile.startScan_frame
    (HeapFileScan.ctor Status.OK (Status.OK, hdrNo) raw).2 off len ty flt op
  rw [hstart] at f1 f2 f3 f4 f5
  simp only at f1 f2 f3 f4 f5
  have hP : s1.buf.pages = raw.buf.pages := by rw [f1]; exact c1
  have hfl : s1.buf.faults = [] := by rw [f1]; exact c2
  have hpred : SamePred s1 s1 := ⟨rfl, rfl, rfl, rfl, rfl⟩
  have hy : YieldsF raw.buf.pages s1 s1 o (s1.selected (chainEnts raw.buf.pages chain)) := by
    rcases c4 with ⟨hfirst, hcur⟩ | ⟨hfirst, hcur, hrec⟩
    · refine yieldsF_restart hP hfl hpred (by rw [f2]; exact hcur) ?_
      rw [f4, c3]
      exact hch
    · obtain ⟨pg, rest, rfl, hpg, _⟩ := isChain_head_pos hch hfirst
      have := yieldsF_at s1 rest raw.headerPage.firstPage pg s1 o hP hfl hpred
        (by rw [f2]; exact hcur) hch hpg
      rw [f3, hrec] at this
      simpa [chainEnts, hpg] using this
  refine ⟨scanAll_of_yieldsF s1 _ s1 o hy, ?_, rfl, fun e he => mem_chainEnts he, fun hn => ?_⟩
  · rw [chainEnts_map_fst]
    exact scanAll_of_yields _ _ o (ctor_scan_start raw hdrNo chain o hch hhdr hf).2.2
      (fun s2 o2 Y hY => yields_of_scanAt s2 o2 Y hY)
  · have hall : ∀ rec, s1.matchRec rec = true := by
      intro rec
      simp [HeapFile.matchRec, f5 hn]
    refine ⟨hall, ?_⟩
    simp [HeapFile.selected, hall]

/-- Witness of C16: on the one-page file, whose records start with the bytes 2 and 3,
the scan for records whose first byte equals 3 returns the second record only. -/
theorem filtered_scan_selects_witness :
    ∃ s1, (HeapFileScan.ctor Status.OK (Status.OK, 1) onePageFile).2.startScan 0 1
        Datatype.STRING (some [3]) Operator.EQ = (Status.OK, s1) ∧
      s1.selected (chainEnts onePageFile.buf.pages [2]) = [⟨2, 1⟩] ∧
      (chainEnts onePageFile.buf.pages [2]).map Prod.fst = [⟨2, 0⟩, ⟨2, 1⟩] ∧
      ∃ N, ∀ f c, N ≤ f → N ≤ c →
        s1.scanAll f c NULLRID = some (s1.selected (chainEnts onePageFile.buf.pages [2])) :=
  ⟨_, rfl, by decide, by decide,
    (filtered_scan_selects onePageFile 1 [2] NULLRID 0 1 Datatype.STRING (some [3]) Operator.EQ _
      onePage_isChain (by rfl) rfl rfl).1⟩

end Minirel
